import Mathlib

/-!
# CC2564 firmware upload (`drivers/wireless/bluetooth/bt_uart_cc2564.c`)

A shallow embedding of the firmware upload of the CC2564 UART Bluetooth driver and
theorems about it.

Conventions of the embedding.

* A byte (`uint8_t`) is a `Nat`; an array of bytes is a `List Nat`.  The only arithmetic
  the driver does on a byte is `data[2] + 3`, computed in `size_t`, and the conversion of
  `buffer[2]` to `ssize_t`; neither can wrap for a byte.
* A pointer is the object it points into together with an offset (`Int`) inside it.
  `ssize_t` counts are `Int`.
* The lower half (`lower->write`, `lower->read`) is external code.  It is a parameter: a
  state machine that, given the pointer offset and the requested count, answers with the
  count it returns.  The bytes a `write` call takes are the bytes of the caller's object
  at the pointer; the bytes a `read` call stores are the next bytes of the wire `rx`,
  the sequence of bytes the controller sends.
* Every function returns a `Run`: the state of the transport after it, the calls and
  image reads it made in order, and how it ended.  A run ends `undef` at the first access
  outside the object a pointer points into, where C gives the program no meaning.
* Loops take fuel, the number of iterations they may make; `nofuel` says it ran out.
-/

namespace CC2564

/-! ## Errno values (`errno.h`) -/

def EIO : Int := 5
def ENOMEM : Int := 12
def ENODEV : Int := 19
def EINVAL : Int := 22

/-! ## The transport -/

/-- The lower half driver interface: the `write` and `read` callbacks.  Each takes the
state of the transport, the pointer offset and the requested count, and answers with the
next state and the returned count. -/
structure btuart_lowerhalf_s (σ : Type) where
  write : σ → Int → Int → σ × Int
  read : σ → Int → Int → σ × Int

/-- The transport side of the world: the state of the lower half and the bytes the
controller has still to deliver, in order. -/
structure Wire (σ : Type) where
  dev : σ
  rx : List Nat
deriving DecidableEq, Repr

/-- The objects a pointer handed to the lower half may point into. -/
inductive Obj
  | h4_cmd
  | chipdata
  | buffer
deriving DecidableEq, Repr

/-- What a run does that can be seen from outside, in order. -/
inductive Event
  /-- The uploader itself reads the image byte at this index. -/
  | deref (idx : Nat)
  /-- One `lower->write(lower, ptr, count)` that returned `ret` and took `bytes`. -/
  | write (obj : Obj) (ptr count ret : Int) (bytes : List Nat)
  /-- One `lower->read(lower, ptr, count)` that returned `ret` and stored `bytes`. -/
  | read (obj : Obj) (ptr count ret : Int) (bytes : List Nat)
deriving DecidableEq, Repr

/-- How a run ends. -/
inductive Outcome (α : Type)
  /-- The function returned this value. -/
  | ok (a : α)
  /-- An access outside the object the pointer points into. -/
  | undef
  /-- A read asked the wire for more bytes than the controller ever sends. -/
  | blocked
  /-- The loop was not done when the fuel ran out. -/
  | nofuel
deriving DecidableEq, Repr

/-- A run of a function: transport state after it, what it did, how it ended. -/
structure Run (σ : Type) (α : Type) where
  st : Wire σ
  trace : List Event
  out : Outcome α
deriving DecidableEq, Repr

/-- The run `k` seen after what `tr` records was done. -/
def Run.after {σ α : Type} (tr : List Event) (k : Run σ α) : Run σ α :=
  ⟨k.st, tr ++ k.trace, k.out⟩

/-- Sequencing of two runs: the second starts where the first returned. -/
def Run.andThen {σ α β : Type} (r : Run σ α) (f : α → Wire σ → Run σ β) : Run σ β :=
  match r.out with
  | .ok a => (f a r.st).after r.trace
  | .undef => ⟨r.st, r.trace, .undef⟩
  | .blocked => ⟨r.st, r.trace, .blocked⟩
  | .nofuel => ⟨r.st, r.trace, .nofuel⟩

/-- The `n` bytes of `buf` at offset `ptr`, when they lie inside `buf`; nothing is
accessed when `n <= 0`. -/
def fetch (buf : List Nat) (ptr n : Int) : Option (List Nat) :=
  if n ≤ 0 then some []
  else if 0 ≤ ptr ∧ ptr + n ≤ buf.length then some ((buf.drop ptr.toNat).take n.toNat)
  else none

/-- Store `bytes` into `buf` at offset `ptr`, when they land inside `buf`; nothing is
accessed when there is no byte to store. -/
def store (buf : List Nat) (ptr : Int) (bytes : List Nat) : Option (List Nat) :=
  if bytes = [] then some buf
  else if 0 ≤ ptr ∧ ptr + bytes.length ≤ buf.length then
    some (buf.take ptr.toNat ++ bytes ++ buf.drop (ptr.toNat + bytes.length))
  else none

/-! ## `cc2564_send`, `cc2564_recv` -/

/-- Embedding of `cc2564_send(lower, buf, count)`: `while (count > 0)` call `lower->write`
on the pointer and the count left, then `count -= nwritten; ptr += nwritten`; return 0.
`buf` is the object `ptr` points into. -/
def cc2564_send {σ : Type} (lower : btuart_lowerhalf_s σ) (obj : Obj) (buf : List Nat) :
    Nat → Int → Int → Wire σ → Run σ Int
  | 0, _, count, w => if 0 < count then ⟨w, [], .nofuel⟩ else ⟨w, [], .ok 0⟩
  | fuel + 1, ptr, count, w =>
    if 0 < count then
      let r := lower.write w.dev ptr count
      let nwritten := r.2
      match fetch buf ptr nwritten with
      | none => ⟨⟨r.1, w.rx⟩, [.write obj ptr count nwritten []], .undef⟩
      | some bytes =>
        let k := cc2564_send lower obj buf fuel (ptr + nwritten) (count - nwritten) ⟨r.1, w.rx⟩
        ⟨k.st, .write obj ptr count nwritten bytes :: k.trace, k.out⟩
    else ⟨w, [], .ok 0⟩

/-- Embedding of `cc2564_recv(lower, buf, count)`: `while (count > 0)` call `lower->read`
on the pointer and the count left, then `count -= nread; ptr += nread`.  The run returns
the contents of the object `ptr` points into, `buf`, after the stores. -/
def cc2564_recv {σ : Type} (lower : btuart_lowerhalf_s σ) (obj : Obj) :
    Nat → List Nat → Int → Int → Wire σ → Run σ (List Nat)
  | 0, buf, _, count, w => if 0 < count then ⟨w, [], .nofuel⟩ else ⟨w, [], .ok buf⟩
  | fuel + 1, buf, ptr, count, w =>
    if 0 < count then
      let r := lower.read w.dev ptr count
      let nread := r.2
      if (w.rx.length : Int) < nread then
        ⟨⟨r.1, w.rx⟩, [.read obj ptr count nread []], .blocked⟩
      else
        let bytes := w.rx.take nread.toNat
        match store buf ptr bytes with
        | none => ⟨⟨r.1, w.rx.drop nread.toNat⟩, [.read obj ptr count nread bytes], .undef⟩
        | some buf' =>
          let k := cc2564_recv lower obj fuel buf' (ptr + nread) (count - nread)
            ⟨r.1, w.rx.drop nread.toNat⟩
          ⟨k.st, .read obj ptr count nread bytes :: k.trace, k.out⟩
    else ⟨w, [], .ok buf⟩

/-! ## `cc2564_load` -/

/-- Read the image byte at `idx` for the uploader: the byte, or `undef` outside the
image; the read is recorded either way. -/
def deref {σ : Type} (chipdata : List Nat) (idx : Nat) (w : Wire σ) : Run σ Nat :=
  match chipdata[idx]? with
  | some b => ⟨w, [.deref idx], .ok b⟩
  | none => ⟨w, [.deref idx], .undef⟩

/-- Embedding of the loop of `cc2564_load`,
`for (data = chipdata; *data++; data += length)`, entered at the test with the cursor
`data` (an index into `chipdata`) and the current contents of `buffer`. -/
def cc2564_load_loop {σ : Type} (lower : btuart_lowerhalf_s σ) (chipdata : List Nat) :
    Nat → List Nat → Nat → Wire σ → Run σ Int
  | 0, _, _, w => ⟨w, [], .nofuel⟩
  | fuel + 1, buffer, data, w =>
    -- `*data++`
    (deref chipdata data w).andThen fun t w =>
    if t = 0 then ⟨w, [], .ok 0⟩ else
    let data := data + 1
    -- `opcode = ((uint16_t)(*(data + 1)) << 8) + *data`
    (deref chipdata (data + 1) w).andThen fun _hi w =>
    (deref chipdata data w).andThen fun _lo w =>
    -- `length = data[2] + sizeof(opcode) + sizeof(data[2])`
    (deref chipdata (data + 2) w).andThen fun len w =>
    let length := len + 2 + 1
    (cc2564_send lower .h4_cmd [0x01] fuel 0 1 w).andThen fun _ w =>
    (cc2564_send lower .chipdata chipdata fuel data length w).andThen fun _ w =>
    (cc2564_recv lower .buffer fuel buffer 0 1 w).andThen fun buffer w =>
    if 0x04 = buffer.getD 0 0 then
      (cc2564_recv lower .buffer fuel buffer 1 2 w).andThen fun buffer w =>
      (cc2564_recv lower .buffer fuel buffer 3 (buffer.getD 2 0) w).andThen fun buffer w =>
      cc2564_load_loop lower chipdata fuel buffer (data + length) w
    else ⟨w, [], .ok (- EIO)⟩

/-- Embedding of `cc2564_load(lower, chipdata)`.  `buffer` is the contents of the local
`uint8_t buffer[32]` on entry, which C leaves indeterminate. -/
def cc2564_load {σ : Type} (lower : btuart_lowerhalf_s σ) (chipdata : List Nat)
    (fuel : Nat) (buffer : List Nat) (w : Wire σ) : Run σ Int :=
  cc2564_load_loop lower chipdata fuel buffer 0 w

/-! ## `load_cc2564_firmware`, `btuart_create` -/

/-- The baseband firmware table as compiled in the source: a placeholder. -/
def cc256x_firmware : List Nat := [0]

/-- The BLE firmware table as compiled in the source: a placeholder. -/
def ble_firmware : List Nat := [0]

/-- Embedding of `load_cc2564_firmware(lower)`.  The two firmware tables are parameters
(`cc256x` for `cc256x_firmware`, `ble` for `ble_firmware`); `sizeof` of a byte array is
its length.  `buffer1`, `buffer2` are the indeterminate contents of the local buffer of
the first and of the second `cc2564_load`. -/
def load_cc2564_firmware {σ : Type} (lower : btuart_lowerhalf_s σ) (cc256x ble : List Nat)
    (fuel : Nat) (buffer1 buffer2 : List Nat) (w : Wire σ) : Run σ Int :=
  -- Check for missing firmware
  if cc256x.length < 10 ∨ ble.length < 10 then ⟨w, [], .ok (-EINVAL)⟩
  else
    (cc2564_load lower cc256x fuel buffer1 w).andThen fun ret w =>
    if ret = 0 then cc2564_load lower ble fuel buffer2 w
    else ⟨w, [], .ok ret⟩

/-- The operations a driver handle is wired to. -/
inductive Op
  | btuart_open
  | btuart_send
  | btuart_close
  | btuart_ioctl
deriving DecidableEq, Repr

/-- The fields of `struct bt_driver_s` that `btuart_create` sets. -/
structure bt_driver_s where
  head_reserve : Nat
  open_op : Op
  send_op : Op
  close_op : Op
  ioctl_op : Op
deriving DecidableEq, Repr

/-- What `btuart_create` leaves behind: its return value, `*driver` (`none` when it was
not written) and whether the upper half it allocated is still allocated. -/
structure Created where
  ret : Int
  driver : Option bt_driver_s
  upper_live : Bool
deriving DecidableEq, Repr

/-- Embedding of `btuart_create(lower, driver)`.  `lower` is `none` for `NULL`; `alloc`
says whether `kmm_zalloc` returned memory; `H4_HEADER_SIZE` is the constant of
`bt_uart.h`; the firmware tables, fuel and buffers are those of
`load_cc2564_firmware`. -/
def btuart_create {σ : Type} (H4_HEADER_SIZE : Nat) (lower : Option (btuart_lowerhalf_s σ))
    (alloc : Bool) (cc256x ble : List Nat) (fuel : Nat) (buffer1 buffer2 : List Nat)
    (w : Wire σ) : Run σ Created :=
  match lower with
  | none => ⟨w, [], .ok ⟨-ENODEV, none, false⟩⟩
  | some lower =>
    -- Allocate a new instance of the upper half driver state structure
    if alloc = false then ⟨w, [], .ok ⟨-ENOMEM, none, false⟩⟩
    else
      -- Initialize the upper half driver state
      let dev : bt_driver_s :=
        ⟨H4_HEADER_SIZE, .btuart_open, .btuart_send, .btuart_close, .btuart_ioctl⟩
      -- Load firmware
      (load_cc2564_firmware lower cc256x ble fuel buffer1 buffer2 w).andThen fun ret w =>
      if ret < 0 then ⟨w, [], .ok ⟨-EINVAL, none, false⟩⟩
      else ⟨w, [], .ok ⟨ret, some dev, true⟩⟩

/-! ## Reading a trace -/

/-- The bytes the transport took, in order. -/
def txBytes : List Event → List Nat
  | [] => []
  | .write _ _ _ _ bytes :: es => bytes ++ txBytes es
  | _ :: es => txBytes es

/-- The bytes the transport stored, in order. -/
def rxBytes : List Event → List Nat
  | [] => []
  | .read _ _ _ _ bytes :: es => bytes ++ rxBytes es
  | _ :: es => rxBytes es

/-! ## Two lower halves -/

/-- A lower half that transfers exactly one byte per call. -/
def lower_one_byte : btuart_lowerhalf_s Unit where
  write := fun s _ _ => (s, 1)
  read := fun s _ _ => (s, 1)

/-- A lower half that transfers all it is asked for in one call. -/
def lower_whole : btuart_lowerhalf_s Unit where
  write := fun s _ count => (s, count)
  read := fun s _ count => (s, count)

/-! ## Well-behaved lower halves, image layout -/

/-- Every `write` call asked for a positive count takes at least one byte and at most
the count asked for. -/
def WriteOK {σ : Type} (lower : btuart_lowerhalf_s σ) : Prop :=
  ∀ s ptr count, 0 < count →
    1 ≤ (lower.write s ptr count).2 ∧ (lower.write s ptr count).2 ≤ count

/-- Every `read` call asked for a positive count returns at least one byte and at most
the count asked for. -/
def ReadOK {σ : Type} (lower : btuart_lowerhalf_s σ) : Prop :=
  ∀ s ptr count, 0 < count →
    1 ≤ (lower.read s ptr count).2 ∧ (lower.read s ptr count).2 ≤ count

/-- An event that touches the image touches it below index `n`: a read of the uploader
at an index below `n`, a `write` call handed a range of the image that ends at or
before `n`. -/
def Event.within (n : Nat) : Event → Prop
  | .deref idx => idx < n
  | .write .chipdata ptr count _ _ => 0 ≤ ptr ∧ ptr + count ≤ n
  | _ => True

/-- A `write` call on `obj` handed a range inside `[lo, hi)`. -/
def Event.isWriteIn (obj : Obj) (lo hi : Int) : Event → Prop
  | .write o ptr count _ _ => o = obj ∧ lo ≤ ptr ∧ ptr + count ≤ hi
  | _ => False

/-- A `read` call on `obj` handed a range inside `[lo, hi)`. -/
def Event.isReadIn (obj : Obj) (lo hi : Int) : Event → Prop
  | .read o ptr count _ _ => o = obj ∧ lo ≤ ptr ∧ ptr + count ≤ hi
  | _ => False

/-- A command record as the uploader decodes it: a first byte `t`, tested for the end of
the image and then skipped, the two opcode bytes, and the payload, whose length is the
length byte. -/
structure Record where
  t : Nat
  lo : Nat
  hi : Nat
  payload : List Nat
deriving DecidableEq, Repr

/-- The bytes of a record in the image: `[t][opcode_lo][opcode_hi][len][payload]`. -/
def Record.bytes (r : Record) : List Nat :=
  [r.t, r.lo, r.hi, r.payload.length] ++ r.payload

/-- The command frame of a record: `[0x01][opcode_lo][opcode_hi][len][payload]`. -/
def Record.frame (r : Record) : List Nat :=
  [0x01, r.lo, r.hi, r.payload.length] ++ r.payload

/-- The bytes of a sequence of records, one after the other. -/
def recordBytes : List Record → List Nat
  | [] => []
  | r :: rs => r.bytes ++ recordBytes rs

/-- The command frames of a sequence of records, one after the other. -/
def recordFrames : List Record → List Nat
  | [] => []
  | r :: rs => r.frame ++ recordFrames rs

/-- An event frame sent by the controller: `[0x04][event_code][response_length][payload]`. -/
structure Response where
  code : Nat
  payload : List Nat
deriving DecidableEq, Repr

/-- The bytes of an event frame on the wire. -/
def Response.bytes (e : Response) : List Nat :=
  [0x04, e.code, e.payload.length] ++ e.payload

/-- The bytes of a sequence of event frames, one after the other. -/
def responseBytes : List Response → List Nat
  | [] => []
  | e :: es => e.bytes ++ responseBytes es

instance (n : Nat) (e : Event) : Decidable (e.within n) := by
  cases e with
  | deref idx => exact inferInstanceAs (Decidable (idx < n))
  | read o p c r b => exact isTrue trivial
  | write o p c r b =>
    cases o with
    | h4_cmd => exact isTrue trivial
    | buffer => exact isTrue trivial
    | chipdata => exact inferInstanceAs (Decidable (0 ≤ p ∧ p + c ≤ n))

/-! ## The layout of the image as the specification words it -/

/-- A command record as the specification lays it out: the two opcode bytes, the
parameter length and the payload; no byte precedes the opcode. -/
structure SpecRecord where
  opcode_lo : Nat
  opcode_hi : Nat
  payload : List Nat
deriving DecidableEq, Repr

/-- The bytes of a record in the specification's layout:
`[opcode_lo][opcode_hi][param_length][payload]`. -/
def SpecRecord.bytes (r : SpecRecord) : List Nat :=
  [r.opcode_lo, r.opcode_hi, r.payload.length] ++ r.payload

/-- An image in the specification's layout: the records, then one `0x00`. -/
def specImage : List SpecRecord → List Nat
  | [] => [0]
  | r :: rs => r.bytes ++ specImage rs

/-- The command frames the specification expects for an image in its layout: for each
record `0x01` and then the `param_length + 3` bytes of the record. -/
def specFrames : List SpecRecord → List Nat
  | [] => []
  | r :: rs => 0x01 :: r.bytes ++ specFrames rs

/-- An image of eleven bytes: one record with six payload bytes, and the zero byte. -/
def sample_firmware : List Nat :=
  recordBytes [⟨1, 0x03, 0x0c, [1, 2, 3, 4, 5, 6]⟩] ++ [0]

/-! ## Reading the calls of a trace -/

/-- The count a call returned (0 for an event that is no call). -/
def Event.ret : Event → Int
  | .deref _ => 0
  | .write _ _ _ ret _ => ret
  | .read _ _ _ ret _ => ret

/-- The pointer offset a call was issued with (0 for an event that is no call). -/
def Event.ptr : Event → Int
  | .deref _ => 0
  | .write _ ptr _ _ _ => ptr
  | .read _ ptr _ _ _ => ptr

/-- The count a call asked for (0 for an event that is no call). -/
def Event.count : Event → Int
  | .deref _ => 0
  | .write _ _ count _ _ => count
  | .read _ _ count _ _ => count

/-- The sum of the counts the calls of a trace returned. -/
def returned (tr : List Event) : Int :=
  (tr.map Event.ret).sum

/-- The image indices the uploader itself read, in order. -/
def derefs : List Event → List Nat
  | [] => []
  | .deref idx :: es => idx :: derefs es
  | _ :: es => derefs es

/-- The image reads of a run over the records `recs` laid out from offset `o`: for each
record the terminator test at its first byte, then the two opcode bytes (high, low) and
the length byte; the next record starts `len + 4` bytes further; after the last record,
the terminator test that ends the run. -/
def recordDerefs : Nat → List Record → List Nat
  | o, [] => [o]
  | o, r :: rs => [o, o + 2, o + 1, o + 3] ++ recordDerefs (o + (r.payload.length + 4)) rs

/-- A lower half whose first call fails with `-1` and whose later calls transfer all
they are asked for.  Its state counts the calls made. -/
def lower_error_once : btuart_lowerhalf_s Nat where
  write := fun s _ count => (s + 1, if s = 0 then -1 else count)
  read := fun s _ count => (s + 1, if s = 0 then -1 else count)

/-- A lower half whose first call returns 0 and whose later calls transfer all they are
asked for.  Its state counts the calls made. -/
def lower_idle_once : btuart_lowerhalf_s Nat where
  write := fun s _ count => (s + 1, if s = 0 then 0 else count)
  read := fun s _ count => (s + 1, if s = 0 then 0 else count)

/-- A lower half that transfers at most two bytes per call. -/
def lower_two_bytes : btuart_lowerhalf_s Unit where
  write := fun s _ count => (s, min 2 count)
  read := fun s _ count => (s, min 2 count)

/-! ## The cursor positions of the upload loop -/

/-- The walk of the loop cursor over an image.  `CursorWalk chipdata c i L` says that the
loop of `cc2564_load`, entered with its cursor at `c`, reaches the cursor position `i`,
and that `L` lists the image bytes read on the way, the terminator test at `i` included:
either `i` is `c` itself; or the byte at `c` is not zero, the length byte of the record
is `image[c+3]`, and `i` is reached from the next cursor position
`c + 1 + (image[c+3] + 3)`, after the terminator test at `c` and the reads of the
opcode bytes at `c+2`, `c+1` and of the length byte at `c+3`. -/
inductive CursorWalk (chipdata : List Nat) : Nat → Nat → List Nat → Prop
  | stop (c : Nat) : CursorWalk chipdata c c [c]
  | step (c t len i : Nat) (L : List Nat) : chipdata[c]? = some t → t ≠ 0 →
      chipdata[c + 3]? = some len → CursorWalk chipdata (c + 1 + (len + 3)) i L →
      CursorWalk chipdata c i (c :: (c + 2) :: (c + 1) :: (c + 3) :: L)

/-- `i` is a cursor position of `cc2564_load` on the image: one the loop cursor reaches
from the start of the image. -/
def IsCursor (chipdata : List Nat) (i : Nat) : Prop :=
  ∃ L, CursorWalk chipdata 0 i L

/-! ## Two runs side by side -/

/-- Two wires that agree, response by response, on the type byte and on
`response_length`, each response fitting the 32-byte buffer, and may differ in the
`event_code` and in the payload bytes: both are exhausted; or both go on with the same
type byte that is not `0x04`, after which nothing is compared; or both go on with an
event frame of type `0x04` of the same `response_length`, followed by wires that agree
in the same way. -/
inductive WireSim : List Nat → List Nat → Prop
  | done : WireSim [] []
  | wrong (t : Nat) (r1 r2 : List Nat) : t ≠ 0x04 → WireSim (t :: r1) (t :: r2)
  | frame (c1 c2 : Nat) (p1 p2 r1 r2 : List Nat) : p1.length = p2.length →
      3 + p1.length ≤ 32 → WireSim r1 r2 →
      WireSim (0x04 :: c1 :: p1.length :: (p1 ++ r1)) (0x04 :: c2 :: p2.length :: (p2 ++ r2))

/-- Two runs ended the same way; when both returned, `Q` relates what they returned and
the transport states they left. -/
def OutSim {σ α : Type} (Q : α → Wire σ → α → Wire σ → Prop) :
    Outcome α → Wire σ → Outcome α → Wire σ → Prop
  | .ok a1, s1, .ok a2, s2 => Q a1 s1 a2 s2
  | .undef, _, .undef, _ => True
  | .blocked, _, .blocked, _ => True
  | .nofuel, _, .nofuel, _ => True
  | _, _, _, _ => False

/-- Two runs wrote the same bytes to the transport and ended the same way, related by
`Q` when both returned. -/
def RunSim {σ α : Type} (Q : α → Wire σ → α → Wire σ → Prop) (r1 r2 : Run σ α) : Prop :=
  txBytes r1.trace = txBytes r2.trace ∧ OutSim Q r1.out r1.st r2.out r2.st

/-! ## Sequencing -/

theorem andThen_mk_ok {σ α β : Type} (w : Wire σ) (tr : List Event) (a : α)
    (f : α → Wire σ → Run σ β) :
    Run.andThen ⟨w, tr, .ok a⟩ f = (f a w).after tr := rfl

theorem andThen_of_ok {σ α β : Type} {r : Run σ α} {a : α} (h : r.out = .ok a)
    (f : α → Wire σ → Run σ β) :
    r.andThen f = (f a r.st).after r.trace := by
  unfold Run.andThen
  rw [h]

theorem after_after {σ α : Type} (t1 t2 : List Event) (k : Run σ α) :
    (k.after t2).after t1 = k.after (t1 ++ t2) := by
  simp [Run.after]

theorem andThen_out_ok {σ α β : Type} {r : Run σ α} {f : α → Wire σ → Run σ β} {b : β}
    (h : (r.andThen f).out = .ok b) : ∃ a, r.out = .ok a ∧ (f a r.st).out = .ok b := by
  unfold Run.andThen at h
  cases hr : r.out with
  | ok a => rw [hr] at h; exact ⟨a, rfl, h⟩
  | undef => rw [hr] at h; cases h
  | blocked => rw [hr] at h; cases h
  | nofuel => rw [hr] at h; cases h

theorem deref_of_get {σ : Type} {chipdata : List Nat} {idx b : Nat}
    (h : chipdata[idx]? = some b) (w : Wire σ) :
    deref chipdata idx w = ⟨w, [.deref idx], .ok b⟩ := by
  unfold deref
  rw [h]

/-! ## The exact-transfer loops on a well-behaved lower half -/

theorem fetch_inside (buf : List Nat) (p m : Nat) (h : p + m ≤ buf.length) :
    fetch buf (p : Int) (m : Int) = some ((buf.drop p).take m) := by
  unfold fetch
  by_cases hm : (m : Int) ≤ 0
  · have : m = 0 := by omega
    subst this
    simp
  · rw [if_neg hm, if_pos]
    · simp
    · constructor
      · omega
      · exact_mod_cast h

theorem txBytes_append (a b : List Event) : txBytes (a ++ b) = txBytes a ++ txBytes b := by
  induction a with
  | nil => rfl
  | cons e es ih => cases e <;> simp [txBytes, ih]

theorem rxBytes_append (a b : List Event) : rxBytes (a ++ b) = rxBytes a ++ rxBytes b := by
  induction a with
  | nil => rfl
  | cons e es ih => cases e <;> simp [rxBytes, ih]

/-- A send of `c` bytes at offset `p` of `buf`, inside `buf`, over a well-behaved lower
half and with `c` iterations of fuel: it returns 0, reads nothing from the wire, and the
bytes taken are `buf[p .. p+c)` in order, through `write` calls on that range only. -/
theorem cc2564_send_ok {σ : Type} (lower : btuart_lowerhalf_s σ) (hw : WriteOK lower)
    (obj : Obj) (buf : List Nat) :
    ∀ (fuel p c : Nat) (w : Wire σ), p + c ≤ buf.length → c ≤ fuel →
      (cc2564_send lower obj buf fuel p c w).out = .ok 0 ∧
      (cc2564_send lower obj buf fuel p c w).st.rx = w.rx ∧
      txBytes (cc2564_send lower obj buf fuel p c w).trace = (buf.drop p).take c ∧
      rxBytes (cc2564_send lower obj buf fuel p c w).trace = [] ∧
      ∀ e ∈ (cc2564_send lower obj buf fuel p c w).trace, e.isWriteIn obj p (p + c) := by
  intro fuel
  induction fuel with
  | zero =>
    intro p c w _ hc
    have : c = 0 := by omega
    subst this
    simp [cc2564_send, txBytes, rxBytes]
  | succ fuel ih =>
    intro p c w hp hc
    by_cases hc0 : c = 0
    · subst hc0
      simp [cc2564_send, txBytes, rxBytes]
    · have hpos : (0 : Int) < (c : Int) := by omega
      obtain ⟨h1, h2⟩ := hw w.dev p c hpos
      obtain ⟨m, hm⟩ := Int.eq_ofNat_of_zero_le (by omega : 0 ≤ (lower.write w.dev p c).2)
      have hm1 : 1 ≤ m := by omega
      have hm2 : m ≤ c := by omega
      have hf := fetch_inside buf p m (by omega)
      have e1 : (p : Int) + (m : Int) = ((p + m : Nat) : Int) := by push_cast; ring
      have e2 : (c : Int) - (m : Int) = ((c - m : Nat) : Int) := by omega
      obtain ⟨i1, i2, i3, i4, i5⟩ := ih (p + m) (c - m) ⟨(lower.write w.dev p c).1, w.rx⟩
        (by omega) (by omega)
      simp only [cc2564_send, if_pos hpos, hm, hf, e1, e2]
      refine ⟨i1, i2, ?_, ?_, ?_⟩
      · simp only [txBytes, i3]
        have hcm : c = m + (c - m) := by omega
        conv_rhs => rw [hcm, List.take_add]
        simp [List.drop_drop, Nat.add_comm]
      · simpa [rxBytes] using i4
      · intro e he
        rcases List.mem_cons.1 he with rfl | he
        · exact ⟨rfl, le_refl _, le_refl _⟩
        · have := i5 e he
          cases e <;> simp only [Event.isWriteIn] at this ⊢
          exact ⟨this.1, by omega, by omega⟩

theorem store_inside (buf : List Nat) (p : Nat) (bytes : List Nat)
    (h : p + bytes.length ≤ buf.length) :
    store buf (p : Int) bytes = some (buf.take p ++ bytes ++ buf.drop (p + bytes.length)) := by
  unfold store
  by_cases hb : bytes = []
  · subst hb
    simp
  · rw [if_neg hb, if_pos]
    · simp
    · constructor
      · omega
      · exact_mod_cast h

theorem take_splice (A B C : List Nat) (n : Nat) (h : A.length + B.length = n) :
    (A ++ B ++ C).take n = A ++ B := by
  subst h
  rw [← List.length_append]
  exact List.take_left' rfl

theorem drop_splice (A B C : List Nat) (n k : Nat) (h : A.length + B.length = n) :
    (A ++ B ++ C).drop (n + k) = C.drop k := by
  subst h
  rw [← List.length_append, ← List.drop_drop]
  simp

/-- A receive of `c` bytes to offset `p` of `buf`, inside `buf`, over a well-behaved
lower half, with `c` bytes on the wire and `c` iterations of fuel: it returns, the first
`c` bytes of the wire are consumed and stored in order at `buf[p .. p+c)`, the rest of
`buf` is unchanged, and nothing is written to the transport. -/
theorem cc2564_recv_ok {σ : Type} (lower : btuart_lowerhalf_s σ) (hr : ReadOK lower)
    (obj : Obj) :
    ∀ (fuel : Nat) (buf : List Nat) (p c : Nat) (w : Wire σ),
      p + c ≤ buf.length → c ≤ w.rx.length → c ≤ fuel →
      (cc2564_recv lower obj fuel buf p c w).out
        = .ok (buf.take p ++ w.rx.take c ++ buf.drop (p + c)) ∧
      (cc2564_recv lower obj fuel buf p c w).st.rx = w.rx.drop c ∧
      rxBytes (cc2564_recv lower obj fuel buf p c w).trace = w.rx.take c ∧
      txBytes (cc2564_recv lower obj fuel buf p c w).trace = [] ∧
      ∀ e ∈ (cc2564_recv lower obj fuel buf p c w).trace, e.isReadIn obj p (p + c) := by
  intro fuel
  induction fuel with
  | zero =>
    intro buf p c w _ _ hc
    have : c = 0 := by omega
    subst this
    simp [cc2564_recv, txBytes, rxBytes]
  | succ fuel ih =>
    intro buf p c w hp hrx hc
    by_cases hc0 : c = 0
    · subst hc0
      simp [cc2564_recv, txBytes, rxBytes]
    · have hpos : (0 : Int) < (c : Int) := by omega
      obtain ⟨h1, h2⟩ := hr w.dev p c hpos
      obtain ⟨m, hm⟩ := Int.eq_ofNat_of_zero_le (by omega : 0 ≤ (lower.read w.dev p c).2)
      have hm1 : 1 ≤ m := by omega
      have hm2 : m ≤ c := by omega
      have hlen : (w.rx.take m).length = m := by
        rw [List.length_take]
        omega
      have hs := store_inside buf p (w.rx.take m) (by omega)
      rw [hlen] at hs
      have hnb : ¬ ((w.rx.length : Int) < (m : Int)) := by omega
      have e1 : (p : Int) + (m : Int) = ((p + m : Nat) : Int) := by push_cast; ring
      have e2 : (c : Int) - (m : Int) = ((c - m : Nat) : Int) := by omega
      have hpl : (buf.take p).length = p := by
        rw [List.length_take]
        omega
      obtain ⟨i1, i2, i3, i4, i5⟩ := ih (buf.take p ++ w.rx.take m ++ buf.drop (p + m))
        (p + m) (c - m) ⟨(lower.read w.dev p c).1, w.rx.drop m⟩
        (by simp only [List.length_append, List.length_drop, hlen, hpl]; omega)
        (by simp only [List.length_drop]; omega) (by omega)
      have hcm : c = m + (c - m) := by omega
      simp only [cc2564_recv, if_pos hpos, hm, if_neg hnb, Int.toNat_ofNat, hs, e1, e2]
      refine ⟨?_, ?_, ?_, ?_, ?_⟩
      · rw [i1, take_splice _ _ _ _ (by rw [hpl, hlen]),
          drop_splice _ _ _ _ _ (by rw [hpl, hlen])]
        conv_rhs => rw [hcm, List.take_add]
        simp only [List.drop_drop, List.append_assoc, Outcome.ok.injEq, List.append_cancel_left_eq]
        rw [Nat.add_assoc]
      · rw [i2]
        simp only [List.drop_drop]
        congr 1
        omega
      · simp only [rxBytes, i3]
        conv_rhs => rw [hcm, List.take_add]
      · simpa [txBytes] using i4
      · intro e he
        rcases List.mem_cons.1 he with rfl | he
        · exact ⟨rfl, le_refl _, le_refl _⟩
        · have := i5 e he
          cases e <;> simp only [Event.isReadIn] at this ⊢
          exact ⟨this.1, by omega, by omega⟩

/-! ## One iteration of the upload loop -/

theorem within_of_isWriteIn_chipdata {e : Event} {lo hi : Int} {n : Nat}
    (h : e.isWriteIn .chipdata lo hi) (hlo : 0 ≤ lo) (hhi : hi ≤ n) : e.within n := by
  cases e with
  | deref idx => exact h.elim
  | read o p c r b => exact h.elim
  | write o p c r b =>
    obtain ⟨rfl, h1, h2⟩ := h
    exact ⟨by omega, by omega⟩

theorem within_of_isWriteIn_h4 {e : Event} {lo hi : Int} (n : Nat)
    (h : e.isWriteIn .h4_cmd lo hi) : e.within n := by
  cases e with
  | deref idx => exact h.elim
  | read o p c r b => exact h.elim
  | write o p c r b =>
    obtain ⟨rfl, _, _⟩ := h
    exact trivial

theorem within_of_isReadIn {e : Event} {obj : Obj} {lo hi : Int} (n : Nat)
    (h : e.isReadIn obj lo hi) : e.within n := by
  cases e with
  | deref idx => exact h.elim
  | write o p c r b => exact h.elim
  | read o p c r b => exact trivial

/-- A receive of one byte over a well-behaved lower half is one `read` call. -/
theorem cc2564_recv_one {σ : Type} (lower : btuart_lowerhalf_s σ) (hr : ReadOK lower)
    (obj : Obj) (fuel : Nat) (buf : List Nat) (p : Nat) (w : Wire σ) (b : Nat)
    (rx' : List Nat) (hrx : w.rx = b :: rx') (hp : p + 1 ≤ buf.length) (hfuel : 1 ≤ fuel) :
    cc2564_recv lower obj fuel buf p 1 w
      = ⟨⟨(lower.read w.dev p 1).1, rx'⟩, [.read obj p 1 1 [b]],
          .ok (buf.take p ++ [b] ++ buf.drop (p + 1))⟩ := by
  obtain ⟨h1, h2⟩ := hr w.dev p 1 (by omega)
  have hn : (lower.read w.dev p 1).2 = 1 := by omega
  have hs := store_inside buf p [b] (by simpa using hp)
  simp only [List.length_singleton] at hs
  obtain ⟨fuel, rfl⟩ : ∃ f, fuel = f + 1 := ⟨fuel - 1, by omega⟩
  cases fuel <;>
    simp [cc2564_recv, hn, hrx, hs]

theorem load_step_type {σ : Type} (lower : btuart_lowerhalf_s σ) (hw : WriteOK lower)
    (hr : ReadOK lower) (chipdata : List Nat) (fuel : Nat) (buffer : List Nat)
    (c t lo hi len : Nat) (dev : σ) (b : Nat) (rx' : List Nat)
    (h0 : chipdata[c]? = some t) (ht : t ≠ 0) (h1 : chipdata[c + 1]? = some lo)
    (h2 : chipdata[c + 1 + 1]? = some hi) (h3 : chipdata[c + 1 + 2]? = some len)
    (hin : c + 1 + (len + 2 + 1) ≤ chipdata.length) (hb : 1 ≤ buffer.length)
    (hf : len + 2 + 1 ≤ fuel) :
    ∃ dev' T0, txBytes T0 = 0x01 :: (chipdata.drop (c + 1)).take (len + 2 + 1) ∧
      rxBytes T0 = [] ∧ (∀ e ∈ T0, e.within (c + 1 + (len + 2 + 1))) ∧
      cc2564_load_loop lower chipdata (fuel + 1) buffer c ⟨dev, b :: rx'⟩
        = Run.after (T0 ++ [.read .buffer 0 1 1 [b]])
            (if 0x04 = b then
              (cc2564_recv lower .buffer fuel (b :: buffer.drop 1) 1 2 ⟨dev', rx'⟩).andThen
                fun buffer w =>
              (cc2564_recv lower .buffer fuel buffer 3 (buffer.getD 2 0) w).andThen
                fun buffer w =>
              cc2564_load_loop lower chipdata fuel buffer (c + 1 + (len + 2 + 1)) w
            else ⟨⟨dev', rx'⟩, [], .ok (- EIO)⟩) := by
  obtain ⟨R1, hR1⟩ : ∃ R1, R1 = cc2564_send lower .h4_cmd [0x01] fuel 0 1
    ⟨dev, b :: rx'⟩ := ⟨_, rfl⟩
  have S1 := cc2564_send_ok lower hw .h4_cmd [0x01] fuel 0 1 ⟨dev, b :: rx'⟩
    (by simp) (by omega)
  simp only [Nat.cast_zero, Nat.cast_one] at S1
  rw [← hR1] at S1
  obtain ⟨a1, a2, a3, a4, a5⟩ := S1
  obtain ⟨R2, hR2⟩ : ∃ R2, R2 = cc2564_send lower .chipdata chipdata fuel
    ((c + 1 : Nat) : Int) ((len + 2 + 1 : Nat) : Int) R1.st := ⟨_, rfl⟩
  have S2 := cc2564_send_ok lower hw .chipdata chipdata fuel (c + 1) (len + 2 + 1)
    R1.st hin hf
  rw [← hR2] at S2
  obtain ⟨b1, b2, b3, b4, b5⟩ := S2
  have hrx2 : R2.st.rx = b :: rx' := by rw [b2, a2]
  have S3 := cc2564_recv_one lower hr .buffer fuel buffer 0 R2.st b rx' hrx2 (by omega) (by omega)
  simp only [Nat.cast_zero] at S3
  refine ⟨(lower.read R2.st.dev 0 1).1,
    [.deref c, .deref (c + 1 + 1), .deref (c + 1), .deref (c + 1 + 2)] ++ R1.trace ++ R2.trace,
    ?_, ?_, ?_, ?_⟩
  · simp [txBytes_append, txBytes, a3, b3]
  · simp [rxBytes_append, rxBytes, a4, b4]
  · intro e he
    simp only [List.append_assoc, List.mem_append, List.mem_cons, List.mem_singleton,
      List.not_mem_nil, or_false] at he
    rcases he with (rfl | rfl | rfl | rfl) | he | he
    · show c < _
      omega
    · show c + 1 + 1 < _
      omega
    · show c + 1 < _
      omega
    · show c + 1 + 2 < _
      omega
    · exact within_of_isWriteIn_h4 _ (a5 e he)
    · exact within_of_isWriteIn_chipdata (b5 e he) (by omega) (by push_cast; omega)
  · rw [cc2564_load_loop]
    rw [deref_of_get h0, andThen_mk_ok]
    simp only [if_neg ht]
    rw [deref_of_get h2, andThen_mk_ok, deref_of_get h1, andThen_mk_ok, deref_of_get h3,
      andThen_mk_ok]
    rw [← hR1, andThen_of_ok a1]
    rw [← hR2, andThen_of_ok b1]
    rw [S3, andThen_mk_ok]
    simp only [after_after, List.take_zero, List.nil_append, List.singleton_append,
      Nat.zero_add, List.getD_cons_zero, List.append_assoc, List.cons_append]

/-- One acknowledged iteration of the upload loop.  With the cursor `c` on a non-zero
byte, the record `chipdata[c+1 .. c+1+len+3)` inside the image and an event frame
`[0x04][code][k][pay]` next on the wire, the loop sends `0x01` and the record, consumes
the frame and no more, and goes on at the cursor `c + 1 + (len + 3)`. -/
theorem load_step_ack {σ : Type} (lower : btuart_lowerhalf_s σ) (hw : WriteOK lower)
    (hr : ReadOK lower) (chipdata : List Nat) (fuel : Nat) (buffer : List Nat)
    (c t lo hi len : Nat) (dev : σ) (code : Nat) (pay rest : List Nat)
    (h0 : chipdata[c]? = some t) (ht : t ≠ 0) (h1 : chipdata[c + 1]? = some lo)
    (h2 : chipdata[c + 1 + 1]? = some hi) (h3 : chipdata[c + 1 + 2]? = some len)
    (hin : c + 1 + (len + 2 + 1) ≤ chipdata.length) (hb : buffer.length = 32)
    (hfit : 3 + pay.length ≤ 32) (hf : len + 2 + 1 ≤ fuel) (hf2 : pay.length ≤ fuel) :
    ∃ dev' T0 T2 T3, txBytes T0 = 0x01 :: (chipdata.drop (c + 1)).take (len + 2 + 1) ∧
      rxBytes T0 = [] ∧ (∀ e ∈ T0, e.within (c + 1 + (len + 2 + 1))) ∧
      txBytes T2 = [] ∧ rxBytes T2 = [code, pay.length] ∧
      (∀ e ∈ T2, e.isReadIn .buffer 1 3) ∧
      txBytes T3 = [] ∧ rxBytes T3 = pay ∧
      (∀ e ∈ T3, e.isReadIn .buffer 3 (3 + pay.length)) ∧
      cc2564_load_loop lower chipdata (fuel + 1) buffer c
          ⟨dev, 0x04 :: code :: pay.length :: (pay ++ rest)⟩
        = Run.after (T0 ++ [.read .buffer 0 1 1 [0x04]] ++ T2 ++ T3)
            (cc2564_load_loop lower chipdata fuel
              (0x04 :: code :: pay.length :: (pay ++ buffer.drop (3 + pay.length)))
              (c + 1 + (len + 2 + 1)) ⟨dev', rest⟩) := by
  obtain ⟨dev1, T0, t1, t2, t3, heq⟩ := load_step_type lower hw hr chipdata fuel buffer
    c t lo hi len dev 0x04 (code :: pay.length :: (pay ++ rest)) h0 ht h1 h2 h3 hin
    (by omega) hf
  rw [if_pos rfl] at heq
  obtain ⟨Q2, hQ2⟩ : ∃ Q2, Q2 = cc2564_recv lower .buffer fuel (0x04 :: buffer.drop 1) 1 2
    ⟨dev1, code :: pay.length :: (pay ++ rest)⟩ := ⟨_, rfl⟩
  have S2 := cc2564_recv_ok lower hr .buffer fuel (0x04 :: buffer.drop 1) 1 2
    ⟨dev1, code :: pay.length :: (pay ++ rest)⟩
    (by simp only [List.length_cons, List.length_drop]; omega) (by simp) (by omega)
  simp only [Nat.cast_one, Nat.cast_ofNat] at S2
  rw [← hQ2] at S2
  obtain ⟨a1, a2, a3, a4, a5⟩ := S2
  simp only [List.take_succ_cons, List.take_zero, List.drop_succ_cons, List.drop_zero,
    List.nil_append, List.cons_append, List.drop_drop, List.singleton_append] at a1 a2 a3
  obtain ⟨Q3, hQ3⟩ : ∃ Q3, Q3 = cc2564_recv lower .buffer fuel
    (0x04 :: code :: pay.length :: buffer.drop 3) 3 ((pay.length : Nat) : Int) Q2.st :=
    ⟨_, rfl⟩
  have S3 := cc2564_recv_ok lower hr .buffer fuel
    (0x04 :: code :: pay.length :: buffer.drop 3) 3 pay.length Q2.st
    (by simp only [List.length_cons, List.length_drop]; omega) (by rw [a2]; simp) hf2
  simp only [Nat.cast_ofNat] at S3
  rw [← hQ3] at S3
  obtain ⟨b1, b2, b3, b4, b5⟩ := S3
  rw [a2] at b1 b2 b3
  simp only [List.take_succ_cons, List.take_zero, List.drop_succ_cons, List.drop_zero,
    List.nil_append, List.cons_append, List.drop_drop, List.take_left', List.drop_left',
    List.append_assoc] at b1 b2 b3
  refine ⟨Q3.st.dev, T0, Q2.trace, Q3.trace, t1, t2, t3, a4, a3, ?_, b4, ?_, ?_, ?_⟩
  · simpa using a5
  · simpa using b3
  · simpa using b5
  · rw [heq, ← hQ2, andThen_of_ok a1]
    simp only [List.getD_cons_succ, List.getD_cons_zero]
    rw [← hQ3, andThen_of_ok b1]
    have e1 : List.drop (3 + pay.length) (4 :: code :: pay.length :: List.drop 3 buffer)
        = List.drop (3 + pay.length) buffer := by
      have hd : ∀ (k : Nat) (x y z : Nat) (X : List Nat),
          List.drop (3 + k) (x :: y :: z :: X) = List.drop k X := by
        intro k x y z X
        rw [Nat.add_comm]
        rfl
      rw [hd, List.drop_drop]
    have e2 : Q3.st = ⟨Q3.st.dev, rest⟩ := by rw [← b2]
    rw [e1, ← e2]
    simp only [after_after, List.append_assoc]

/-! ## A run over a sequence of records -/

theorem within_mono {e : Event} {n m : Nat} (h : e.within n) (hnm : n ≤ m) : e.within m := by
  cases e with
  | deref idx => exact Nat.lt_of_lt_of_le h hnm
  | read o p c r b => exact trivial
  | write o p c r b =>
    cases o with
    | h4_cmd => exact trivial
    | buffer => exact trivial
    | chipdata =>
      obtain ⟨h1, h2⟩ := h
      exact ⟨h1, by omega⟩

theorem getElem?_record (pre : List Nat) (a b c d : Nat) (X : List Nat) :
    (pre ++ a :: b :: c :: d :: X)[pre.length]? = some a ∧
    (pre ++ a :: b :: c :: d :: X)[pre.length + 1]? = some b ∧
    (pre ++ a :: b :: c :: d :: X)[pre.length + 1 + 1]? = some c ∧
    (pre ++ a :: b :: c :: d :: X)[pre.length + 1 + 2]? = some d := by
  refine ⟨?_, ?_, ?_, ?_⟩
  · rw [List.getElem?_append_right (by omega)]
    simp
  · rw [List.getElem?_append_right (by omega)]
    simp
  · rw [List.getElem?_append_right (by omega)]
    simp [Nat.add_assoc]
  · rw [List.getElem?_append_right (by omega)]
    simp [Nat.add_assoc]

theorem take_drop_record (pre : List Nat) (a b c d : Nat) (P Y : List Nat) :
    ((pre ++ a :: b :: c :: d :: (P ++ Y)).drop (pre.length + 1)).take (P.length + 2 + 1)
      = b :: c :: d :: P := by
  rw [← List.drop_drop, List.drop_left']
  · simp [List.take_succ_cons]
  · rfl

/-- The upload loop over a sequence of records.  With the cursor at the first of the
records `recs`, each starting with a non-zero byte, and one event frame per record on
the wire, each fitting the buffer, the loop sends the command frame of each record in
order, consumes the event frames and no more, touches the image only below the end of
the records, and goes on at the cursor after the last record. -/
theorem load_loop_records {σ : Type} (lower : btuart_lowerhalf_s σ) (hw : WriteOK lower)
    (hr : ReadOK lower) (tail rest : List Nat) (fuel : Nat) :
    ∀ (recs : List Record) (evs : List Response) (pre : List Nat) (buffer : List Nat)
      (dev : σ),
      recs.length = evs.length → (∀ r ∈ recs, r.t ≠ 0) →
      (∀ e ∈ evs, 3 + e.payload.length ≤ 32) → buffer.length = 32 →
      (∀ r ∈ recs, r.payload.length + 2 + 1 ≤ fuel) → 29 ≤ fuel →
      ∃ dev' buffer' T, txBytes T = recordFrames recs ∧ rxBytes T = responseBytes evs ∧
        (∀ e ∈ T, e.within (pre.length + (recordBytes recs).length)) ∧
        buffer'.length = 32 ∧
        cc2564_load_loop lower (pre ++ recordBytes recs ++ tail) (recs.length + fuel) buffer
            pre.length ⟨dev, responseBytes evs ++ rest⟩
          = Run.after T (cc2564_load_loop lower (pre ++ recordBytes recs ++ tail) fuel
              buffer' (pre.length + (recordBytes recs).length) ⟨dev', rest⟩) := by
  intro recs
  induction recs with
  | nil =>
    intro evs pre buffer dev hlen _ _ hb _ _
    cases evs with
    | cons e es => cases hlen
    | nil =>
      refine ⟨dev, buffer, [], rfl, rfl, ?_, hb, ?_⟩
      · intro e he
        cases he
      · simp [recordBytes, responseBytes, Run.after]
  | cons r rs ih =>
    intro evs pre buffer dev hlen ht hfit hb hfl hf29
    cases evs with
    | nil => cases hlen
    | cons e es =>
      have hchip : pre ++ recordBytes (r :: rs) ++ tail
          = pre ++ r.t :: r.lo :: r.hi :: r.payload.length ::
              (r.payload ++ (recordBytes rs ++ tail)) := by
        simp [recordBytes, Record.bytes]
      have hchip2 : pre ++ recordBytes (r :: rs) ++ tail
          = (pre ++ r.bytes) ++ recordBytes rs ++ tail := by
        simp [recordBytes]
      have hrb : (recordBytes (r :: rs)).length
          = r.payload.length + 4 + (recordBytes rs).length := by
        simp [recordBytes, Record.bytes]
        omega
      have hwire : responseBytes (e :: es) ++ rest
          = 0x04 :: e.code :: e.payload.length :: (e.payload ++ (responseBytes es ++ rest)) := by
        simp [responseBytes, Response.bytes]
      obtain ⟨g0, g1, g2, g3⟩ := getElem?_record pre r.t r.lo r.hi r.payload.length
        (r.payload ++ (recordBytes rs ++ tail))
      rw [← hchip] at g0 g1 g2 g3
      have hfr : rs.length + fuel ≥ r.payload.length + 2 + 1 :=
        Nat.le_trans (hfl r (List.mem_cons_self _ _)) (Nat.le_add_left _ _)
      have hfe : 3 + e.payload.length ≤ 32 := hfit e (List.mem_cons_self _ _)
      obtain ⟨dev1, T0, T2, T3, s1, s2, s3, s4, s5, s6, s7, s8, s9, heq⟩ :=
        load_step_ack lower hw hr (pre ++ recordBytes (r :: rs) ++ tail) (rs.length + fuel)
          buffer pre.length r.t r.lo r.hi r.payload.length dev e.code e.payload
          (responseBytes es ++ rest) g0 (ht r (List.mem_cons_self _ _)) g1 g2 g3
          (by rw [hchip]; simp; omega) hb hfe hfr (by omega)
      obtain ⟨dev2, buffer2, T, u1, u2, u3, u4, ueq⟩ := ih es (pre ++ r.bytes)
        (0x04 :: e.code :: e.payload.length :: (e.payload ++ buffer.drop (3 + e.payload.length)))
        dev1 (by simpa using hlen) (fun x hx => ht x (List.mem_cons_of_mem _ hx))
        (fun x hx => hfit x (List.mem_cons_of_mem _ hx))
        (by simp only [List.length_cons, List.length_append, List.length_drop]; omega)
        (fun x hx => hfl x (List.mem_cons_of_mem _ hx)) hf29
      have hcur : pre.length + 1 + (r.payload.length + 2 + 1) = (pre ++ r.bytes).length := by
        simp [Record.bytes]
        omega
      have hend : (pre ++ r.bytes).length + (recordBytes rs).length
          = pre.length + (recordBytes (r :: rs)).length := by
        rw [hrb]
        simp [Record.bytes]
        omega
      refine ⟨dev2, buffer2, (T0 ++ [.read .buffer 0 1 1 [0x04]] ++ T2 ++ T3) ++ T,
        ?_, ?_, ?_, u4, ?_⟩
      · rw [txBytes_append, txBytes_append, txBytes_append, txBytes_append, s1, s4, s7, u1,
          hchip, take_drop_record]
        simp [txBytes, recordFrames, Record.frame]
      · rw [rxBytes_append, rxBytes_append, rxBytes_append, rxBytes_append, s2, s5, s8, u2]
        simp [rxBytes, responseBytes, Response.bytes]
      · intro x hx
        simp only [List.append_assoc, List.mem_append, List.mem_cons, List.mem_singleton,
          List.not_mem_nil, or_false] at hx
        rcases hx with hx | rfl | hx | hx | hx
        · exact within_mono (s3 x hx) (by rw [hrb]; omega)
        · exact trivial
        · exact within_of_isReadIn _ (s6 x hx)
        · exact within_of_isReadIn _ (s9 x hx)
        · rw [← hend]
          exact u3 x hx
      · have hfu : (r :: rs).length + fuel = rs.length + fuel + 1 := by
          simp only [List.length_cons]
          omega
        rw [← hchip2] at ueq
        rw [hfu, hwire, heq, hcur, ueq, after_after, hend]

theorem load_loop_terminator {σ : Type} (lower : btuart_lowerhalf_s σ) (chipdata : List Nat)
    (fuel : Nat) (buffer : List Nat) (c : Nat) (w : Wire σ) (h0 : chipdata[c]? = some 0) :
    cc2564_load_loop lower chipdata (fuel + 1) buffer c w = ⟨w, [.deref c], .ok 0⟩ := by
  rw [cc2564_load_loop, deref_of_get h0, andThen_mk_ok]
  simp [Run.after]

theorem length_le_recordBytes (recs : List Record) :
    recs.length ≤ (recordBytes recs).length := by
  induction recs with
  | nil => simp [recordBytes]
  | cons r rs ih =>
    simp only [recordBytes, Record.bytes, List.length_cons, List.length_append,
      List.length_nil]
    omega

theorem record_le_recordBytes (recs : List Record) (r : Record) (h : r ∈ recs) :
    recs.length + (r.payload.length + 3) ≤ (recordBytes recs).length := by
  induction recs with
  | nil => cases h
  | cons x xs ih =>
    have hx := length_le_recordBytes xs
    simp only [recordBytes, Record.bytes, List.length_cons, List.length_append,
      List.length_nil]
    rcases List.mem_cons.1 h with rfl | h
    · omega
    · have := ih h
      omega

/-- A whole run of `cc2564_load` on an image made of the records `recs` and a zero
byte: the run returns 0 after the test of the zero byte, its last event. -/
theorem load_image_run {σ : Type} (lower : btuart_lowerhalf_s σ) (hw : WriteOK lower)
    (hr : ReadOK lower) (recs : List Record) (evs : List Response) (post rest : List Nat)
    (fuel : Nat) (buffer : List Nat) (dev : σ) (hlen : recs.length = evs.length)
    (ht : ∀ r ∈ recs, r.t ≠ 0) (hfit : ∀ e ∈ evs, 3 + e.payload.length ≤ 32)
    (hb : buffer.length = 32) (hfuel : (recordBytes recs).length + 32 ≤ fuel) :
    ∃ dev' T, txBytes T = recordFrames recs ∧ rxBytes T = responseBytes evs ∧
      (∀ e ∈ T, e.within (recordBytes recs).length) ∧
      cc2564_load lower (recordBytes recs ++ 0 :: post) fuel buffer
          ⟨dev, responseBytes evs ++ rest⟩
        = ⟨⟨dev', rest⟩, T ++ [.deref (recordBytes recs).length], .ok 0⟩ := by
  have hl := length_le_recordBytes recs
  obtain ⟨f, hf⟩ : ∃ f, fuel = recs.length + (f + 1) := ⟨fuel - recs.length - 1, by omega⟩
  obtain ⟨dev', buffer', T, t1, t2, t3, _, heq⟩ := load_loop_records lower hw hr (0 :: post)
    rest (f + 1) recs evs [] buffer dev hlen ht hfit hb
    (fun r h => by have := record_le_recordBytes recs r h; omega) (by omega)
  simp only [List.nil_append, List.length_nil, Nat.zero_add] at heq t3
  refine ⟨dev', T, t1, t2, t3, ?_⟩
  unfold cc2564_load
  have h0 : (recordBytes recs ++ 0 :: post)[(recordBytes recs).length]? = some 0 := by
    rw [List.getElem?_append_right (Nat.le_refl _)]
    simp
  rw [hf, heq, load_loop_terminator _ _ _ _ _ _ h0]
  rfl

/-! ## The two sample lower halves are well-behaved -/

theorem lower_whole_writeOK : WriteOK lower_whole := by
  intro s ptr count h
  exact ⟨by simpa [lower_whole] using h, le_refl _⟩

theorem lower_whole_readOK : ReadOK lower_whole := by
  intro s ptr count h
  exact ⟨by simpa [lower_whole] using h, le_refl _⟩

theorem lower_one_byte_writeOK : WriteOK lower_one_byte := by
  intro s ptr count h
  exact ⟨le_refl _, by simpa [lower_one_byte] using h⟩

theorem lower_one_byte_readOK : ReadOK lower_one_byte := by
  intro s ptr count h
  exact ⟨le_refl _, by simpa [lower_one_byte] using h⟩

/-! ## Command frames of an image (C1) -/

/-- C1 (counterexample): on the image `[0x01,0x00,0x01,0x00]` + `0x00`, one record in the
layout of the specification (opcode `0x0001`, `param_length` 1, payload `0x00`) starting
with a non-zero byte, answered by the event frame `[0x04,0x00,0x00]`, `cc2564_load`
returns 0 but writes `[0x01,0x00,0x01,0x00]`: it skips the first byte of the record and
takes the length from the fourth, so what it writes is not `0x01` followed by the
record. -/
theorem spec_layout_frames_counterexample :
    (∀ r ∈ [(⟨1, 0, [0]⟩ : SpecRecord)], r.opcode_lo ≠ 0) ∧
    (cc2564_load lower_whole (specImage [⟨1, 0, [0]⟩]) 40 (List.replicate 32 0)
      ⟨(), responseBytes [⟨0, []⟩]⟩).out = .ok 0 ∧
    txBytes (cc2564_load lower_whole (specImage [⟨1, 0, [0]⟩]) 40 (List.replicate 32 0)
      ⟨(), responseBytes [⟨0, []⟩]⟩).trace = [0x01, 0x00, 0x01, 0x00] ∧
    txBytes (cc2564_load lower_whole (specImage [⟨1, 0, [0]⟩]) 40 (List.replicate 32 0)
      ⟨(), responseBytes [⟨0, []⟩]⟩).trace ≠ specFrames [⟨1, 0, [0]⟩] := by
  decide

/-- C1 (amended): for every image that is a concatenation of records
`[t][opcode_lo][opcode_hi][param_length][payload]`, each with a non-zero first byte `t`,
followed by a `0x00`, every well-behaved lower half and every wire that carries one
event frame `[0x04][event_code][response_length][payload]` per record, each fitting the
32-byte buffer, `cc2564_load` given enough fuel returns 0 and the bytes it writes are
exactly, for each record in image order, `0x01` followed by the `param_length + 3` bytes
that follow `t`. -/
theorem cc2564_load_sends_frames {σ : Type} (lower : btuart_lowerhalf_s σ)
    (hw : WriteOK lower) (hr : ReadOK lower) (recs : List Record) (evs : List Response)
    (rest : List Nat) (fuel : Nat) (buffer : List Nat) (dev : σ)
    (hlen : recs.length = evs.length) (ht : ∀ r ∈ recs, r.t ≠ 0)
    (hfit : ∀ e ∈ evs, 3 + e.payload.length ≤ 32) (hb : buffer.length = 32)
    (hfuel : (recordBytes recs).length + 32 ≤ fuel) :
    (cc2564_load lower (recordBytes recs ++ [0]) fuel buffer
      ⟨dev, responseBytes evs ++ rest⟩).out = .ok 0 ∧
    txBytes (cc2564_load lower (recordBytes recs ++ [0]) fuel buffer
      ⟨dev, responseBytes evs ++ rest⟩).trace = recordFrames recs := by
  obtain ⟨dev', T, t1, _, _, heq⟩ := load_image_run lower hw hr recs evs [] rest fuel buffer
    dev hlen ht hfit hb hfuel
  rw [heq]
  exact ⟨rfl, by simp [txBytes_append, txBytes, t1]⟩

/-- C1 (witness): two records, a one-byte-per-call lower half. -/
theorem cc2564_load_sends_frames_witness :
    (cc2564_load lower_one_byte
      (recordBytes [⟨1, 0x37, 0xff, [2, 0]⟩, ⟨1, 0x03, 0x0c, []⟩] ++ [0]) 50
      (List.replicate 32 0)
      ⟨(), responseBytes [⟨0x0e, [1, 0x37, 0xff, 0]⟩, ⟨0x0e, []⟩] ++ []⟩).out = .ok 0 ∧
    txBytes (cc2564_load lower_one_byte
      (recordBytes [⟨1, 0x37, 0xff, [2, 0]⟩, ⟨1, 0x03, 0x0c, []⟩] ++ [0]) 50
      (List.replicate 32 0)
      ⟨(), responseBytes [⟨0x0e, [1, 0x37, 0xff, 0]⟩, ⟨0x0e, []⟩] ++ []⟩).trace
      = recordFrames [⟨1, 0x37, 0xff, [2, 0]⟩, ⟨1, 0x03, 0x0c, []⟩] :=
  cc2564_load_sends_frames lower_one_byte lower_one_byte_writeOK lower_one_byte_readOK
    [⟨1, 0x37, 0xff, [2, 0]⟩, ⟨1, 0x03, 0x0c, []⟩] [⟨0x0e, [1, 0x37, 0xff, 0]⟩, ⟨0x0e, []⟩]
    [] 50 (List.replicate 32 0) () rfl (by decide) (by decide) (by decide) (by decide)

/-! ## Image accesses stay inside the image (C2) -/

/-- C2 (counterexample): on the five-byte image `[0x01,0x00,0x01,0x05]` + `0x00`, one
record in the layout of the specification (opcode `0x0001`, `param_length` 1, payload
`0x05`) with the terminator as last byte, `cc2564_load` takes the length from the fourth
byte, `0x05`, and hands `cc2564_send` the eight bytes at index 1, a range that ends past
the image; the run is undefined. -/
theorem spec_layout_reads_past_counterexample :
    (specImage [⟨1, 0, [5]⟩]).length = 5 ∧
    (cc2564_load lower_whole (specImage [⟨1, 0, [5]⟩]) 40 (List.replicate 32 0)
      ⟨(), responseBytes [⟨0, []⟩]⟩).out = .undef ∧
    Event.write .chipdata 1 8 8 [] ∈
      (cc2564_load lower_whole (specImage [⟨1, 0, [5]⟩]) 40 (List.replicate 32 0)
        ⟨(), responseBytes [⟨0, []⟩]⟩).trace ∧
    ¬ ∀ e ∈ (cc2564_load lower_whole (specImage [⟨1, 0, [5]⟩]) 40 (List.replicate 32 0)
        ⟨(), responseBytes [⟨0, []⟩]⟩).trace, e.within (specImage [⟨1, 0, [5]⟩]).length := by
  decide

/-- C2 (amended): for every image that is a concatenation of records
`[t][opcode_lo][opcode_hi][param_length][payload]`, each with a non-zero first byte `t`,
followed by one `0x00` terminator byte, the last byte of the image, and every
well-behaved transport that acknowledges each command with a `0x04` event frame fitting
the buffer, `cc2564_load` returns 0 and every image access (the terminator test, the
opcode and length reads, the ranges handed to `cc2564_send`) stays inside the image, so
at an index no greater than the terminator's. -/
theorem cc2564_load_within_image {σ : Type} (lower : btuart_lowerhalf_s σ)
    (hw : WriteOK lower) (hr : ReadOK lower) (recs : List Record) (evs : List Response)
    (rest : List Nat) (fuel : Nat) (buffer : List Nat) (dev : σ)
    (hlen : recs.length = evs.length) (ht : ∀ r ∈ recs, r.t ≠ 0)
    (hfit : ∀ e ∈ evs, 3 + e.payload.length ≤ 32) (hb : buffer.length = 32)
    (hfuel : (recordBytes recs).length + 32 ≤ fuel) :
    (cc2564_load lower (recordBytes recs ++ [0]) fuel buffer
      ⟨dev, responseBytes evs ++ rest⟩).out = .ok 0 ∧
    ∀ e ∈ (cc2564_load lower (recordBytes recs ++ [0]) fuel buffer
      ⟨dev, responseBytes evs ++ rest⟩).trace, e.within (recordBytes recs ++ [0]).length := by
  obtain ⟨dev', T, _, _, t3, heq⟩ := load_image_run lower hw hr recs evs [] rest fuel buffer
    dev hlen ht hfit hb hfuel
  rw [heq]
  refine ⟨rfl, ?_⟩
  intro e he
  have hl : (recordBytes recs ++ [0]).length = (recordBytes recs).length + 1 := by simp
  rw [hl]
  rcases List.mem_append.1 he with he | he
  · exact within_mono (t3 e he) (Nat.le_succ _)
  · rw [List.mem_singleton.1 he]
    exact Nat.lt_succ_self _

/-- C2 (witness): a record with a five-byte payload, a one-byte-per-call lower half. -/
theorem cc2564_load_within_image_witness :
    (cc2564_load lower_one_byte (recordBytes [⟨1, 0x0c, 0xfd, [9, 8, 7, 6, 5]⟩] ++ [0]) 60
      (List.replicate 32 0) ⟨(), responseBytes [⟨0x0e, [1]⟩] ++ []⟩).out = .ok 0 ∧
    ∀ e ∈ (cc2564_load lower_one_byte (recordBytes [⟨1, 0x0c, 0xfd, [9, 8, 7, 6, 5]⟩] ++ [0])
      60 (List.replicate 32 0) ⟨(), responseBytes [⟨0x0e, [1]⟩] ++ []⟩).trace,
      e.within (recordBytes [⟨1, 0x0c, 0xfd, [9, 8, 7, 6, 5]⟩] ++ [0]).length :=
  cc2564_load_within_image lower_one_byte lower_one_byte_writeOK lower_one_byte_readOK
    [⟨1, 0x0c, 0xfd, [9, 8, 7, 6, 5]⟩] [⟨0x0e, [1]⟩] [] 60 (List.replicate 32 0) () rfl
    (by decide) (by decide) (by decide) (by decide)

/-! ## A wrong response type byte (C3) -/

/-- C3: for every image in which the records `recs` are followed by a record `r`, with
the responses to `recs` on the wire followed by a byte `b` that is not `0x04`,
`cc2564_load` returns `-EIO`, which is not 0; the read of `b`, one `read` call of one
byte, is the last thing the run does, so no write and no read follows it; the command
frames written are those of `recs` and of `r` and no other; and of the wire exactly the
responses to `recs` and the byte `b` are consumed. -/
theorem cc2564_load_wrong_type {σ : Type} (lower : btuart_lowerhalf_s σ)
    (hw : WriteOK lower) (hr : ReadOK lower) (recs : List Record) (evs : List Response)
    (r : Record) (tail rest : List Nat) (b : Nat) (fuel : Nat) (buffer : List Nat) (dev : σ)
    (hlen : recs.length = evs.length) (ht : ∀ x ∈ recs, x.t ≠ 0) (hrt : r.t ≠ 0)
    (hfit : ∀ e ∈ evs, 3 + e.payload.length ≤ 32) (hb : buffer.length = 32)
    (hbad : b ≠ 0x04)
    (hfuel : (recordBytes recs).length + r.bytes.length + 32 ≤ fuel) :
    (cc2564_load lower (recordBytes recs ++ r.bytes ++ tail) fuel buffer
      ⟨dev, responseBytes evs ++ b :: rest⟩).out = .ok (- EIO) ∧
    - EIO ≠ 0 ∧
    (cc2564_load lower (recordBytes recs ++ r.bytes ++ tail) fuel buffer
      ⟨dev, responseBytes evs ++ b :: rest⟩).st.rx = rest ∧
    ∃ T0, (cc2564_load lower (recordBytes recs ++ r.bytes ++ tail) fuel buffer
        ⟨dev, responseBytes evs ++ b :: rest⟩).trace = T0 ++ [.read .buffer 0 1 1 [b]] ∧
      txBytes T0 = recordFrames recs ++ r.frame ∧ rxBytes T0 = responseBytes evs := by
  have hl := length_le_recordBytes recs
  have hrl : r.bytes.length = r.payload.length + 4 := by
    simp [Record.bytes]
  obtain ⟨f, hf⟩ : ∃ f, fuel = recs.length + (f + 1) := ⟨fuel - recs.length - 1, by omega⟩
  obtain ⟨dev1, buffer1, T, t1, t2, _, hb1, heq⟩ := load_loop_records lower hw hr
    (r.bytes ++ tail) (b :: rest) (f + 1) recs evs [] buffer dev hlen ht hfit hb
    (fun x h => by have := record_le_recordBytes recs x h; omega) (by omega)
  simp only [List.nil_append, List.length_nil, Nat.zero_add] at heq
  have hchip : recordBytes recs ++ (r.bytes ++ tail)
      = recordBytes recs ++ r.t :: r.lo :: r.hi :: r.payload.length :: (r.payload ++ tail) := by
    simp [Record.bytes]
  obtain ⟨g0, g1, g2, g3⟩ := getElem?_record (recordBytes recs) r.t r.lo r.hi
    r.payload.length (r.payload ++ tail)
  rw [← hchip] at g0 g1 g2 g3
  obtain ⟨dev2, T0, s1, s2, _, hstep⟩ := load_step_type lower hw hr
    (recordBytes recs ++ (r.bytes ++ tail)) f buffer1 (recordBytes recs).length r.t r.lo r.hi
    r.payload.length dev1 b rest g0 hrt g1 g2 g3 (by rw [hchip]; simp; omega) (by omega)
    (by omega)
  rw [if_neg (Ne.symm hbad)] at hstep
  have hrun : cc2564_load lower (recordBytes recs ++ r.bytes ++ tail) fuel buffer
      ⟨dev, responseBytes evs ++ b :: rest⟩
      = ⟨⟨dev2, rest⟩, (T ++ T0) ++ [.read .buffer 0 1 1 [b]], .ok (- EIO)⟩ := by
    unfold cc2564_load
    rw [List.append_assoc, hf, heq, hstep]
    simp [Run.after]
  rw [hrun]
  refine ⟨rfl, by decide, rfl, T ++ T0, rfl, ?_, ?_⟩
  · rw [txBytes_append, t1, s1, hchip, take_drop_record]
    simp [Record.frame]
  · rw [rxBytes_append, t2, s2]
    simp

/-- C3 (witness): the second record of an image is answered with the type byte `0x02`. -/
theorem cc2564_load_wrong_type_witness :
    (cc2564_load lower_whole
      (recordBytes [⟨1, 0x37, 0xff, [2, 0]⟩] ++ Record.bytes ⟨1, 0x03, 0x0c, []⟩ ++ [1, 9, 9, 0, 0])
      50 (List.replicate 32 0) ⟨(), responseBytes [⟨0x0e, [1]⟩] ++ 0x02 :: [0x0e, 0]⟩).out
      = .ok (- EIO) ∧
    - EIO ≠ 0 ∧
    (cc2564_load lower_whole
      (recordBytes [⟨1, 0x37, 0xff, [2, 0]⟩] ++ Record.bytes ⟨1, 0x03, 0x0c, []⟩ ++ [1, 9, 9, 0, 0])
      50 (List.replicate 32 0) ⟨(), responseBytes [⟨0x0e, [1]⟩] ++ 0x02 :: [0x0e, 0]⟩).st.rx
      = [0x0e, 0] ∧
    ∃ T0, (cc2564_load lower_whole
      (recordBytes [⟨1, 0x37, 0xff, [2, 0]⟩] ++ Record.bytes ⟨1, 0x03, 0x0c, []⟩ ++ [1, 9, 9, 0, 0])
      50 (List.replicate 32 0) ⟨(), responseBytes [⟨0x0e, [1]⟩] ++ 0x02 :: [0x0e, 0]⟩).trace
        = T0 ++ [.read .buffer 0 1 1 [0x02]] ∧
      txBytes T0 = recordFrames [⟨1, 0x37, 0xff, [2, 0]⟩] ++ Record.frame ⟨1, 0x03, 0x0c, []⟩ ∧
      rxBytes T0 = responseBytes [⟨0x0e, [1]⟩] :=
  cc2564_load_wrong_type lower_whole lower_whole_writeOK lower_whole_readOK
    [⟨1, 0x37, 0xff, [2, 0]⟩] [⟨0x0e, [1]⟩] ⟨1, 0x03, 0x0c, []⟩ [1, 9, 9, 0, 0] [0x0e, 0] 0x02
    50 (List.replicate 32 0) () rfl (by decide) (by decide) (by decide) (by decide)
    (by decide) (by decide)

/-! ## A response longer than the buffer (C4) -/

theorem store_outside (buf : List Nat) (p : Nat) (bytes : List Nat) (hne : bytes ≠ [])
    (h : buf.length < p + bytes.length) : store buf (p : Int) bytes = none := by
  unfold store
  rw [if_neg hne, if_neg]
  rintro ⟨_, h2⟩
  have : p + bytes.length ≤ buf.length := by exact_mod_cast h2
  omega

theorem andThen_of_undef {σ α β : Type} {r : Run σ α} (h : r.out = .undef)
    (f : α → Wire σ → Run σ β) : (r.andThen f).out = .undef := by
  unfold Run.andThen
  rw [h]

/-- A receive of `c` bytes to offset `p` of `buf` that does not fit `buf`, over a
well-behaved lower half with the `c` bytes on the wire: the run is undefined, a byte is
stored past the end of `buf`. -/
theorem cc2564_recv_overflow {σ : Type} (lower : btuart_lowerhalf_s σ) (hr : ReadOK lower)
    (obj : Obj) :
    ∀ (fuel : Nat) (buf : List Nat) (p c : Nat) (w : Wire σ),
      p ≤ buf.length → buf.length < p + c → c ≤ w.rx.length → c ≤ fuel →
      (cc2564_recv lower obj fuel buf p c w).out = .undef := by
  intro fuel
  induction fuel with
  | zero =>
    intro buf p c w hp hover _ hc
    omega
  | succ fuel ih =>
    intro buf p c w hp hover hrx hc
    have hpos : (0 : Int) < (c : Int) := by omega
    obtain ⟨h1, h2⟩ := hr w.dev p c hpos
    obtain ⟨m, hm⟩ := Int.eq_ofNat_of_zero_le (by omega : 0 ≤ (lower.read w.dev p c).2)
    have hm1 : 1 ≤ m := by omega
    have hm2 : m ≤ c := by omega
    have hlen : (w.rx.take m).length = m := by
      rw [List.length_take]
      omega
    have hnb : ¬ ((w.rx.length : Int) < (m : Int)) := by omega
    by_cases hfits : p + m ≤ buf.length
    · have hs := store_inside buf p (w.rx.take m) (by omega)
      rw [hlen] at hs
      have e1 : (p : Int) + (m : Int) = ((p + m : Nat) : Int) := by push_cast; ring
      have e2 : (c : Int) - (m : Int) = ((c - m : Nat) : Int) := by omega
      have hpl : (buf.take p).length = p := by
        rw [List.length_take]
        omega
      have := ih (buf.take p ++ w.rx.take m ++ buf.drop (p + m)) (p + m) (c - m)
        ⟨(lower.read w.dev p c).1, w.rx.drop m⟩
        (by simp only [List.length_append, List.length_drop, hlen, hpl]; omega)
        (by simp only [List.length_append, List.length_drop, hlen, hpl]; omega)
        (by simp only [List.length_drop]; omega) (by omega)
      simp only [cc2564_recv, if_pos hpos, hm, if_neg hnb, Int.toNat_ofNat, hs, e1, e2]
      exact this
    · have hne : w.rx.take m ≠ [] := by
        intro h0
        rw [h0] at hlen
        simp at hlen
        omega
      have hs := store_outside buf p (w.rx.take m) hne (by omega)
      simp only [cc2564_recv, if_pos hpos, hm, if_neg hnb, Int.toNat_ofNat, hs]

/-- An event frame that declares more payload than the buffer has room for, in answer to
the first record of an image: whatever the well-behaved lower half, the run of
`cc2564_load` is undefined; it does not return an error. -/
theorem cc2564_load_overflow {σ : Type} (lower : btuart_lowerhalf_s σ) (hw : WriteOK lower)
    (hr : ReadOK lower) (r : Record) (tail : List Nat) (code k : Nat) (rest : List Nat)
    (fuel : Nat) (buffer : List Nat) (dev : σ) (hrt : r.t ≠ 0) (hb : buffer.length = 32)
    (hk : 32 < 3 + k) (hwire : k ≤ rest.length) (hf : r.payload.length + 2 + 1 ≤ fuel)
    (hf2 : k ≤ fuel) :
    (cc2564_load lower (r.bytes ++ tail) (fuel + 1) buffer
      ⟨dev, 0x04 :: code :: k :: rest⟩).out = .undef := by
  have hchip : r.bytes ++ tail
      = [] ++ r.t :: r.lo :: r.hi :: r.payload.length :: (r.payload ++ tail) := by
    simp [Record.bytes]
  obtain ⟨g0, g1, g2, g3⟩ := getElem?_record [] r.t r.lo r.hi r.payload.length
    (r.payload ++ tail)
  rw [← hchip] at g0 g1 g2 g3
  obtain ⟨dev1, T0, _, _, _, hstep⟩ := load_step_type lower hw hr (r.bytes ++ tail) fuel buffer
    0 r.t r.lo r.hi r.payload.length dev 0x04 (code :: k :: rest) g0 hrt g1 g2 g3
    (by rw [hchip]; simp; omega) (by omega) hf
  rw [if_pos rfl] at hstep
  have S2 := cc2564_recv_ok lower hr .buffer fuel (0x04 :: buffer.drop 1) 1 2
    ⟨dev1, code :: k :: rest⟩
    (by simp only [List.length_cons, List.length_drop]; omega) (by simp) (by omega)
  simp only [Nat.cast_one, Nat.cast_ofNat] at S2
  obtain ⟨a1, a2, _, _, _⟩ := S2
  simp only [List.take_succ_cons, List.take_zero, List.drop_succ_cons, List.drop_zero,
    List.nil_append, List.cons_append, List.drop_drop, List.singleton_append] at a1 a2
  have S3 := cc2564_recv_overflow lower hr .buffer fuel (0x04 :: code :: k :: buffer.drop 3) 3 k
    (cc2564_recv lower .buffer fuel (0x04 :: buffer.drop 1) 1 2 ⟨dev1, code :: k :: rest⟩).st
    (by simp only [List.length_cons, List.length_drop]; omega)
    (by simp only [List.length_cons, List.length_drop]; omega)
    (by rw [a2]; exact hwire) hf2
  simp only [Nat.cast_ofNat] at S3
  unfold cc2564_load
  rw [hstep]
  show (Run.andThen _ _).out = _
  rw [andThen_of_ok a1]
  show (Run.andThen _ _).out = _
  simp only [List.getD_cons_succ, List.getD_cons_zero]
  exact andThen_of_undef S3 _

/-- C4 (the code at the failing input): the image is one record with an empty payload
and the terminator; the controller answers with an event frame that declares 30 payload
bytes, so `3 + 30 > 32`.  `cc2564_load` makes no check: `cc2564_recv(lower, &buffer[3],
buffer[2])` goes on storing, and the last thing the run does is the `read` call that
stores a byte at index 32 of the 32-byte buffer.  The run does not return an error: it
is undefined. -/
theorem cc2564_load_response_overflow :
    (cc2564_load lower_one_byte [1, 0, 0, 0, 0] 64 (List.replicate 32 0)
      ⟨(), [0x04, 0x0e, 30] ++ List.replicate 30 0xaa⟩).out = .undef ∧
    (cc2564_load lower_one_byte [1, 0, 0, 0, 0] 64 (List.replicate 32 0)
      ⟨(), [0x04, 0x0e, 30] ++ List.replicate 30 0xaa⟩).trace.getLast?
      = some (.read .buffer 32 1 1 [0xaa]) := by
  decide

/-! ## The presence check (C5) -/

/-- C5: when the size of the baseband image or of the BLE image is below 10,
`load_cc2564_firmware` returns `-EINVAL`, its trace is empty (no `write`, no `read`, not
even a read of an image byte) and the transport is left as it was; the first image
being large enough does not change this when the second is too small. -/
theorem load_cc2564_firmware_missing {σ : Type} (lower : btuart_lowerhalf_s σ)
    (cc256x ble : List Nat) (fuel : Nat) (buffer1 buffer2 : List Nat) (w : Wire σ)
    (h : cc256x.length < 10 ∨ ble.length < 10) :
    load_cc2564_firmware lower cc256x ble fuel buffer1 buffer2 w
      = ⟨w, [], .ok (- EINVAL)⟩ := by
  unfold load_cc2564_firmware
  rw [if_pos h]

/-- C5 (witness): the first image has eleven bytes, the second is the placeholder. -/
theorem load_cc2564_firmware_missing_witness :
    load_cc2564_firmware lower_whole sample_firmware ble_firmware 40 (List.replicate 32 0)
      (List.replicate 32 0) ⟨(), [0x04, 0x0e, 0]⟩
      = ⟨⟨(), [0x04, 0x0e, 0]⟩, [], .ok (- EINVAL)⟩ :=
  load_cc2564_firmware_missing lower_whole sample_firmware ble_firmware 40
    (List.replicate 32 0) (List.replicate 32 0) ⟨(), [0x04, 0x0e, 0]⟩ (Or.inr (by decide))

/-! ## The order of the two images (C6) -/

theorem run_eta_ok {σ α : Type} (r : Run σ α) (v : α) (h : r.out = .ok v) :
    (⟨r.st, r.trace ++ [], .ok v⟩ : Run σ α) = r := by
  cases r
  simp_all

/-- C6: when both images pass the presence check, `load_cc2564_firmware` runs
`cc2564_load` on the baseband image first.  If that returns a non-zero value, the whole
run is that run: its value is returned and nothing is written or read after it.  If it
returns 0, the run is the load of the BLE image, started where the first load left the
transport, after the first load: its result is the second load's result and the bytes
written are those of the first load followed by those of the second.  The result is 0
only if both loads returned 0. -/
theorem load_cc2564_firmware_sequence {σ : Type} (lower : btuart_lowerhalf_s σ)
    (cc256x ble : List Nat) (fuel : Nat) (buffer1 buffer2 : List Nat) (w : Wire σ)
    (h1 : 10 ≤ cc256x.length) (h2 : 10 ≤ ble.length) :
    (∀ v, (cc2564_load lower cc256x fuel buffer1 w).out = .ok v → v ≠ 0 →
      load_cc2564_firmware lower cc256x ble fuel buffer1 buffer2 w
        = cc2564_load lower cc256x fuel buffer1 w) ∧
    ((cc2564_load lower cc256x fuel buffer1 w).out = .ok 0 →
      load_cc2564_firmware lower cc256x ble fuel buffer1 buffer2 w
        = Run.after (cc2564_load lower cc256x fuel buffer1 w).trace
            (cc2564_load lower ble fuel buffer2 (cc2564_load lower cc256x fuel buffer1 w).st) ∧
      txBytes (load_cc2564_firmware lower cc256x ble fuel buffer1 buffer2 w).trace
        = txBytes (cc2564_load lower cc256x fuel buffer1 w).trace ++
          txBytes (cc2564_load lower ble fuel buffer2
            (cc2564_load lower cc256x fuel buffer1 w).st).trace) ∧
    ((load_cc2564_firmware lower cc256x ble fuel buffer1 buffer2 w).out = .ok 0 →
      (cc2564_load lower cc256x fuel buffer1 w).out = .ok 0 ∧
      (cc2564_load lower ble fuel buffer2 (cc2564_load lower cc256x fuel buffer1 w).st).out
        = .ok 0) := by
  have hno : ¬ (cc256x.length < 10 ∨ ble.length < 10) := by omega
  refine ⟨?_, ?_, ?_⟩
  · intro v hv hv0
    unfold load_cc2564_firmware
    rw [if_neg hno, andThen_of_ok hv, if_neg hv0]
    exact run_eta_ok _ v hv
  · intro h0
    have heq : load_cc2564_firmware lower cc256x ble fuel buffer1 buffer2 w
        = Run.after (cc2564_load lower cc256x fuel buffer1 w).trace
            (cc2564_load lower ble fuel buffer2
              (cc2564_load lower cc256x fuel buffer1 w).st) := by
      unfold load_cc2564_firmware
      rw [if_neg hno, andThen_of_ok h0, if_pos rfl]
    refine ⟨heq, ?_⟩
    rw [heq]
    exact txBytes_append _ _
  · intro h
    unfold load_cc2564_firmware at h
    rw [if_neg hno] at h
    obtain ⟨v, hv, h⟩ := andThen_out_ok h
    by_cases hv0 : v = 0
    · subst hv0
      rw [if_pos rfl] at h
      exact ⟨hv, h⟩
    · rw [if_neg hv0] at h
      cases h
      exact absurd rfl hv0

/-- C6 (witness): two images of eleven bytes, both acknowledged. -/
theorem load_cc2564_firmware_sequence_witness :
    txBytes (load_cc2564_firmware lower_whole sample_firmware sample_firmware 40
      (List.replicate 32 0) (List.replicate 32 0)
      ⟨(), [0x04, 0x0e, 0, 0x04, 0x0e, 0]⟩).trace
      = [0x01, 0x03, 0x0c, 6, 1, 2, 3, 4, 5, 6] ++ [0x01, 0x03, 0x0c, 6, 1, 2, 3, 4, 5, 6] :=
  ((load_cc2564_firmware_sequence lower_whole sample_firmware sample_firmware 40
    (List.replicate 32 0) (List.replicate 32 0) ⟨(), [0x04, 0x0e, 0, 0x04, 0x0e, 0]⟩
    (by decide) (by decide)).2.1 (by decide)).2

/-! ## The minimal image (C8) -/

/-- C8 (counterexample): on the image `[0x01,0x00,0x00,0x00]` + `0x00` with the reads
yielding `[0x04,0x00,0x00]`, the one command frame `cc2564_load` sends is
`[0x01,0x00,0x00,0x00]`, not `[0x01,0x01,0x00,0x00]`: the first image byte `0x01` is
tested and skipped, not sent. -/
theorem minimal_image_frame_counterexample :
    txBytes (cc2564_load lower_whole ([0x01, 0x00, 0x00, 0x00] ++ [0x00]) 40
      (List.replicate 32 0) ⟨(), [0x04, 0x00, 0x00]⟩).trace = [0x01, 0x00, 0x00, 0x00] ∧
    txBytes (cc2564_load lower_whole ([0x01, 0x00, 0x00, 0x00] ++ [0x00]) 40
      (List.replicate 32 0) ⟨(), [0x04, 0x00, 0x00]⟩).trace ≠ [0x01, 0x01, 0x00, 0x00] := by
  decide

/-- C8 (amended): for the image `[0x01,0x00,0x00,0x00]` followed by the terminator `0x00`
and a well-behaved transport whose reads yield `[0x04,0x00,0x00]`, `cc2564_load` sends
exactly one command frame, whose bytes are `[0x01,0x00,0x00,0x00]`, consumes the three
response bytes and returns 0. -/
theorem cc2564_load_minimal_image {σ : Type} (lower : btuart_lowerhalf_s σ)
    (hw : WriteOK lower) (hr : ReadOK lower) (fuel : Nat) (buffer : List Nat) (dev : σ)
    (hb : buffer.length = 32) (hfuel : 36 ≤ fuel) :
    (cc2564_load lower ([0x01, 0x00, 0x00, 0x00] ++ [0x00]) fuel buffer
      ⟨dev, [0x04, 0x00, 0x00]⟩).out = .ok 0 ∧
    txBytes (cc2564_load lower ([0x01, 0x00, 0x00, 0x00] ++ [0x00]) fuel buffer
      ⟨dev, [0x04, 0x00, 0x00]⟩).trace = [0x01, 0x00, 0x00, 0x00] ∧
    (cc2564_load lower ([0x01, 0x00, 0x00, 0x00] ++ [0x00]) fuel buffer
      ⟨dev, [0x04, 0x00, 0x00]⟩).st.rx = [] := by
  obtain ⟨dev', T, t1, _, _, heq⟩ := load_image_run lower hw hr [⟨0x01, 0x00, 0x00, []⟩]
    [⟨0x00, []⟩] [] [] fuel buffer dev rfl (by decide) (by decide) hb
    (by simpa [recordBytes, Record.bytes] using hfuel)
  have himg : recordBytes [⟨0x01, 0x00, 0x00, []⟩] ++ 0 :: []
      = [0x01, 0x00, 0x00, 0x00] ++ [0x00] := rfl
  have hwire : responseBytes [⟨0x00, []⟩] ++ [] = [0x04, 0x00, 0x00] := rfl
  rw [himg, hwire] at heq
  rw [heq]
  refine ⟨rfl, ?_, rfl⟩
  rw [txBytes_append, t1]
  rfl

/-- C8 (witness): a lower half that transfers one byte per call. -/
theorem cc2564_load_minimal_image_witness :
    (cc2564_load lower_one_byte ([0x01, 0x00, 0x00, 0x00] ++ [0x00]) 36
      (List.replicate 32 0xff) ⟨(), [0x04, 0x00, 0x00]⟩).out = .ok 0 ∧
    txBytes (cc2564_load lower_one_byte ([0x01, 0x00, 0x00, 0x00] ++ [0x00]) 36
      (List.replicate 32 0xff) ⟨(), [0x04, 0x00, 0x00]⟩).trace = [0x01, 0x00, 0x00, 0x00] ∧
    (cc2564_load lower_one_byte ([0x01, 0x00, 0x00, 0x00] ++ [0x00]) 36
      (List.replicate 32 0xff) ⟨(), [0x04, 0x00, 0x00]⟩).st.rx = [] :=
  cc2564_load_minimal_image lower_one_byte lower_one_byte_writeOK lower_one_byte_readOK 36
    (List.replicate 32 0xff) () (by decide) (by decide)

/-! ## Device construction (C9, C10) -/

/-- When the upload loop returns, it returns 0 or `-EIO`. -/
theorem cc2564_load_loop_ret {σ : Type} (lower : btuart_lowerhalf_s σ) (chipdata : List Nat) :
    ∀ (fuel : Nat) (buffer : List Nat) (data : Nat) (w : Wire σ) (v : Int),
      (cc2564_load_loop lower chipdata fuel buffer data w).out = .ok v →
      v = 0 ∨ v = - EIO := by
  intro fuel
  induction fuel with
  | zero =>
    intro buffer data w v h
    cases h
  | succ fuel ih =>
    intro buffer data w v h
    rw [cc2564_load_loop] at h
    obtain ⟨t, _, h⟩ := andThen_out_ok h
    by_cases ht : t = 0
    · rw [if_pos ht] at h
      cases h
      exact Or.inl rfl
    · rw [if_neg ht] at h
      obtain ⟨_, _, h⟩ := andThen_out_ok h
      obtain ⟨_, _, h⟩ := andThen_out_ok h
      obtain ⟨len, _, h⟩ := andThen_out_ok h
      obtain ⟨_, _, h⟩ := andThen_out_ok h
      obtain ⟨_, _, h⟩ := andThen_out_ok h
      obtain ⟨buf1, _, h⟩ := andThen_out_ok h
      by_cases hb : 0x04 = buf1.getD 0 0
      · rw [if_pos hb] at h
        obtain ⟨_, _, h⟩ := andThen_out_ok h
        obtain ⟨_, _, h⟩ := andThen_out_ok h
        exact ih _ _ _ _ h
      · rw [if_neg hb] at h
        cases h
        exact Or.inr rfl

/-- When `load_cc2564_firmware` returns, it returns 0, `-EIO` or `-EINVAL`. -/
theorem load_cc2564_firmware_ret {σ : Type} (lower : btuart_lowerhalf_s σ)
    (cc256x ble : List Nat) (fuel : Nat) (buffer1 buffer2 : List Nat) (w : Wire σ) (v : Int)
    (h : (load_cc2564_firmware lower cc256x ble fuel buffer1 buffer2 w).out = .ok v) :
    v = 0 ∨ v = - EIO ∨ v = - EINVAL := by
  unfold load_cc2564_firmware at h
  by_cases hs : cc256x.length < 10 ∨ ble.length < 10
  · rw [if_pos hs] at h
    cases h
    exact Or.inr (Or.inr rfl)
  · rw [if_neg hs] at h
    obtain ⟨r, hr, h⟩ := andThen_out_ok h
    by_cases hr0 : r = 0
    · rw [if_pos hr0] at h
      rcases cc2564_load_loop_ret lower ble fuel buffer2 0 _ v h with h | h
      · exact Or.inl h
      · exact Or.inr (Or.inl h)
    · rw [if_neg hr0] at h
      have hrv : r = v := by simpa using h
      subst hrv
      rcases cc2564_load_loop_ret lower cc256x fuel buffer1 0 w r hr with h | h
      · exact absurd h hr0
      · exact Or.inr (Or.inl h)

/-- `load_cc2564_firmware` returns 0 only when both loads returned 0. -/
theorem load_cc2564_firmware_zero {σ : Type} (lower : btuart_lowerhalf_s σ)
    (cc256x ble : List Nat) (fuel : Nat) (buffer1 buffer2 : List Nat) (w : Wire σ)
    (h : (load_cc2564_firmware lower cc256x ble fuel buffer1 buffer2 w).out = .ok 0) :
    (cc2564_load lower cc256x fuel buffer1 w).out = .ok 0 ∧
    (cc2564_load lower ble fuel buffer2 (cc2564_load lower cc256x fuel buffer1 w).st).out
      = .ok 0 := by
  unfold load_cc2564_firmware at h
  by_cases hs : cc256x.length < 10 ∨ ble.length < 10
  · rw [if_pos hs] at h
    have h0 : - EINVAL = 0 := by simpa using h
    exact absurd h0 (by decide)
  · rw [if_neg hs] at h
    obtain ⟨v, hv, h⟩ := andThen_out_ok h
    by_cases hv0 : v = 0
    · subst hv0
      rw [if_pos rfl] at h
      exact ⟨hv, h⟩
    · rw [if_neg hv0] at h
      have hrv : v = 0 := by simpa using h
      exact absurd hrv hv0

theorem btuart_create_some {σ : Type} (H4_HEADER_SIZE : Nat) (l : btuart_lowerhalf_s σ)
    (cc256x ble : List Nat) (fuel : Nat) (buffer1 buffer2 : List Nat) (w : Wire σ) :
    btuart_create H4_HEADER_SIZE (some l) true cc256x ble fuel buffer1 buffer2 w
      = (load_cc2564_firmware l cc256x ble fuel buffer1 buffer2 w).andThen fun ret w =>
          if ret < 0 then ⟨w, [], .ok ⟨- EINVAL, none, false⟩⟩
          else ⟨w, [], .ok ⟨ret, some ⟨H4_HEADER_SIZE, .btuart_open, .btuart_send,
            .btuart_close, .btuart_ioctl⟩, true⟩⟩ := rfl

/-- What `btuart_create` returns when it got a lower half and memory, by the value
`load_cc2564_firmware` returned. -/
theorem btuart_create_of_load {σ : Type} (H4_HEADER_SIZE : Nat) (l : btuart_lowerhalf_s σ)
    (cc256x ble : List Nat) (fuel : Nat) (buffer1 buffer2 : List Nat) (w : Wire σ) (v : Int)
    (hv : (load_cc2564_firmware l cc256x ble fuel buffer1 buffer2 w).out = .ok v) :
    (btuart_create H4_HEADER_SIZE (some l) true cc256x ble fuel buffer1 buffer2 w).out
      = if v < 0 then .ok ⟨- EINVAL, none, false⟩
        else .ok ⟨v, some ⟨H4_HEADER_SIZE, .btuart_open, .btuart_send, .btuart_close,
          .btuart_ioctl⟩, true⟩ := by
  rw [btuart_create_some, andThen_of_ok hv]
  by_cases h : v < 0
  · simp only [if_pos h, Run.after]
  · simp only [if_neg h, Run.after]

/-- C9: `btuart_create` returns 0 with a driver handle stored in `*driver` if and only if
the lower half is not `NULL`, the allocation succeeded and `load_cc2564_firmware`
returned 0; whenever it returns, either it returned 0 with the handle stored, or it
returned a negative value and left `*driver` unwritten; and `load_cc2564_firmware`
returns 0 only when both runs of `cc2564_load` returned 0. -/
theorem btuart_create_success_iff {σ : Type} (H4_HEADER_SIZE : Nat)
    (lower : Option (btuart_lowerhalf_s σ)) (alloc : Bool) (cc256x ble : List Nat)
    (fuel : Nat) (buffer1 buffer2 : List Nat) (w : Wire σ) :
    ((∃ c, (btuart_create H4_HEADER_SIZE lower alloc cc256x ble fuel buffer1 buffer2 w).out
          = .ok c ∧ c.ret = 0 ∧ c.driver ≠ none) ↔
      ∃ l, lower = some l ∧ alloc = true ∧
        (load_cc2564_firmware l cc256x ble fuel buffer1 buffer2 w).out = .ok 0) ∧
    (∀ c, (btuart_create H4_HEADER_SIZE lower alloc cc256x ble fuel buffer1 buffer2 w).out
        = .ok c → (c.ret = 0 ∧ c.driver ≠ none) ∨ (c.ret < 0 ∧ c.driver = none)) ∧
    ∀ l, (load_cc2564_firmware l cc256x ble fuel buffer1 buffer2 w).out = .ok 0 →
      (cc2564_load l cc256x fuel buffer1 w).out = .ok 0 ∧
      (cc2564_load l ble fuel buffer2 (cc2564_load l cc256x fuel buffer1 w).st).out = .ok 0 := by
  have main : ((∃ c, (btuart_create H4_HEADER_SIZE lower alloc cc256x ble fuel buffer1
        buffer2 w).out = .ok c ∧ c.ret = 0 ∧ c.driver ≠ none) ↔
      ∃ l, lower = some l ∧ alloc = true ∧
        (load_cc2564_firmware l cc256x ble fuel buffer1 buffer2 w).out = .ok 0) ∧
      (∀ c, (btuart_create H4_HEADER_SIZE lower alloc cc256x ble fuel buffer1 buffer2 w).out
        = .ok c → (c.ret = 0 ∧ c.driver ≠ none) ∨ (c.ret < 0 ∧ c.driver = none)) := by
    cases lower with
    | none =>
      refine ⟨⟨?_, ?_⟩, ?_⟩
      · rintro ⟨c, hc, h0, _⟩
        have : c = ⟨- ENODEV, none, false⟩ := by
          simp only [btuart_create, Outcome.ok.injEq] at hc
          exact hc.symm
        rw [this] at h0
        exact absurd h0 (by decide)
      · rintro ⟨l, hl, _⟩
        cases hl
      · intro c hc
        have : c = ⟨- ENODEV, none, false⟩ := by
          simp only [btuart_create, Outcome.ok.injEq] at hc
          exact hc.symm
        rw [this]
        exact Or.inr ⟨by decide, rfl⟩
    | some l =>
      cases alloc with
      | false =>
        refine ⟨⟨?_, ?_⟩, ?_⟩
        · rintro ⟨c, hc, h0, _⟩
          have : c = ⟨- ENOMEM, none, false⟩ := by
            simp only [btuart_create, if_true, Outcome.ok.injEq] at hc
            exact hc.symm
          rw [this] at h0
          exact absurd h0 (by decide)
        · rintro ⟨_, _, ha, _⟩
          cases ha
        · intro c hc
          have : c = ⟨- ENOMEM, none, false⟩ := by
            simp only [btuart_create, if_true, Outcome.ok.injEq] at hc
            exact hc.symm
          rw [this]
          exact Or.inr ⟨by decide, rfl⟩
      | true =>
        refine ⟨⟨?_, ?_⟩, ?_⟩
        · rintro ⟨c, hc, h0, _⟩
          have hc2 := hc
          rw [btuart_create_some] at hc2
          obtain ⟨v, hv, _⟩ := andThen_out_ok hc2
          rw [btuart_create_of_load _ _ _ _ _ _ _ _ v hv] at hc
          refine ⟨l, rfl, rfl, ?_⟩
          by_cases hneg : v < 0
          · rw [if_pos hneg] at hc
            have : c = ⟨- EINVAL, none, false⟩ := by
              simp only [Outcome.ok.injEq] at hc
              exact hc.symm
            rw [this] at h0
            exact absurd h0 (by decide)
          · rw [if_neg hneg] at hc
            simp only [Outcome.ok.injEq] at hc
            rw [← hc] at h0
            simp only at h0
            rw [hv, h0]
        · rintro ⟨l2, hl, _, h0⟩
          cases hl
          rw [btuart_create_of_load _ _ _ _ _ _ _ _ 0 h0, if_neg (by decide)]
          exact ⟨_, rfl, rfl, by simp⟩
        · intro c hc
          have hc2 := hc
          rw [btuart_create_some] at hc2
          obtain ⟨v, hv, _⟩ := andThen_out_ok hc2
          rw [btuart_create_of_load _ _ _ _ _ _ _ _ v hv] at hc
          rcases load_cc2564_firmware_ret l cc256x ble fuel buffer1 buffer2 w v hv
            with h | h | h
          · subst h
            rw [if_neg (by decide)] at hc
            simp only [Outcome.ok.injEq] at hc
            rw [← hc]
            exact Or.inl ⟨rfl, by simp⟩
          · subst h
            rw [if_pos (by decide)] at hc
            simp only [Outcome.ok.injEq] at hc
            rw [← hc]
            exact Or.inr ⟨by decide, rfl⟩
          · subst h
            rw [if_pos (by decide)] at hc
            simp only [Outcome.ok.injEq] at hc
            rw [← hc]
            exact Or.inr ⟨by decide, rfl⟩
  exact ⟨main.1, main.2, fun l h => load_cc2564_firmware_zero l _ _ _ _ _ _ h⟩

/-- C9 (witness): with two acknowledged images of eleven bytes `btuart_create` succeeds. -/
theorem btuart_create_success_witness :
    ∃ c, (btuart_create 1 (some lower_whole) true sample_firmware sample_firmware 40
        (List.replicate 32 0) (List.replicate 32 0)
        ⟨(), [0x04, 0x0e, 0, 0x04, 0x0e, 0]⟩).out = .ok c ∧ c.ret = 0 ∧ c.driver ≠ none :=
  (btuart_create_success_iff 1 (some lower_whole) true sample_firmware sample_firmware 40
    (List.replicate 32 0) (List.replicate 32 0) ⟨(), [0x04, 0x0e, 0, 0x04, 0x0e, 0]⟩).1.2
    ⟨lower_whole, rfl, rfl, by decide⟩

/-- C10 (counterexample): with an image of eleven bytes whose command is answered with
the type byte `0x02`, `load_cc2564_firmware` returns `-EIO`; with the placeholder tables
it returns `-EINVAL`; `btuart_create` returns the same in both cases, `-EINVAL` with no
handle stored, so its result does not tell a protocol error from a missing image. -/
theorem btuart_create_error_kinds_counterexample :
    (load_cc2564_firmware lower_whole sample_firmware sample_firmware 40
      (List.replicate 32 0) (List.replicate 32 0) ⟨(), [0x02]⟩).out = .ok (- EIO) ∧
    (load_cc2564_firmware lower_whole cc256x_firmware ble_firmware 40
      (List.replicate 32 0) (List.replicate 32 0) ⟨(), [0x02]⟩).out = .ok (- EINVAL) ∧
    - EIO ≠ - EINVAL ∧
    (btuart_create 1 (some lower_whole) true sample_firmware sample_firmware 40
      (List.replicate 32 0) (List.replicate 32 0) ⟨(), [0x02]⟩).out
      = .ok ⟨- EINVAL, none, false⟩ ∧
    (btuart_create 1 (some lower_whole) true cc256x_firmware ble_firmware 40
      (List.replicate 32 0) (List.replicate 32 0) ⟨(), [0x02]⟩).out
      = .ok ⟨- EINVAL, none, false⟩ := by
  decide

/-- C10 (amended): on failure `btuart_create` returns `-ENODEV` when `lower` is `NULL`,
`-ENOMEM` when the allocation of the upper half fails, and `-EINVAL` whenever
`load_cc2564_firmware` returns a negative value, be it `-EINVAL` for an image that is
missing or too small or `-EIO` for an upload that aborted on a wrong response type
byte; the three results are pairwise different, and in each case no handle is stored. -/
theorem btuart_create_error_results {σ : Type} (H4_HEADER_SIZE : Nat)
    (l : btuart_lowerhalf_s σ) (alloc : Bool) (cc256x ble : List Nat) (fuel : Nat)
    (buffer1 buffer2 : List Nat) (w : Wire σ) :
    (btuart_create H4_HEADER_SIZE (none : Option (btuart_lowerhalf_s σ)) alloc cc256x ble
      fuel buffer1 buffer2 w).out = .ok ⟨- ENODEV, none, false⟩ ∧
    (btuart_create H4_HEADER_SIZE (some l) false cc256x ble fuel buffer1 buffer2 w).out
      = .ok ⟨- ENOMEM, none, false⟩ ∧
    ((load_cc2564_firmware l cc256x ble fuel buffer1 buffer2 w).out = .ok (- EINVAL) →
      (btuart_create H4_HEADER_SIZE (some l) true cc256x ble fuel buffer1 buffer2 w).out
        = .ok ⟨- EINVAL, none, false⟩) ∧
    ((load_cc2564_firmware l cc256x ble fuel buffer1 buffer2 w).out = .ok (- EIO) →
      (btuart_create H4_HEADER_SIZE (some l) true cc256x ble fuel buffer1 buffer2 w).out
        = .ok ⟨- EINVAL, none, false⟩) ∧
    - ENODEV ≠ - ENOMEM ∧ - ENODEV ≠ - EINVAL ∧ - ENOMEM ≠ - EINVAL := by
  refine ⟨rfl, rfl, ?_, ?_, by decide, by decide, by decide⟩
  · intro h
    rw [btuart_create_of_load _ _ _ _ _ _ _ _ _ h, if_pos (by decide)]
  · intro h
    rw [btuart_create_of_load _ _ _ _ _ _ _ _ _ h, if_pos (by decide)]

/-- C10 (witness): an upload that aborts on the type byte `0x02` makes `btuart_create`
return `-EINVAL`. -/
theorem btuart_create_error_results_witness :
    (btuart_create 1 (some lower_one_byte) true sample_firmware sample_firmware 40
      (List.replicate 32 0) (List.replicate 32 0) ⟨(), [0x02, 0x0e, 0]⟩).out
      = .ok ⟨- EINVAL, none, false⟩ :=
  (btuart_create_error_results 1 lower_one_byte true sample_firmware sample_firmware 40
    (List.replicate 32 0) (List.replicate 32 0) ⟨(), [0x02, 0x0e, 0]⟩).2.2.2.1 (by decide)

/-! ## One byte per call (C7) -/

theorem take_one_drop (buf : List Nat) (p : Nat) (h : p < buf.length) :
    (buf.drop p).take 1 = [buf.getD p 0] := by
  induction buf generalizing p with
  | nil => simp at h
  | cons x xs ih =>
    cases p with
    | zero => simp
    | succ q =>
      simp only [List.length_cons, Nat.add_lt_add_iff_right] at h
      simpa using ih q h

theorem cc2564_send_one_trace {σ : Type} (lower : btuart_lowerhalf_s σ)
    (hw1 : ∀ s ptr count, 0 < count → (lower.write s ptr count).2 = 1)
    (obj : Obj) (buf : List Nat) :
    ∀ (fuel p c : Nat) (w : Wire σ), p + c ≤ buf.length → c ≤ fuel →
      (cc2564_send lower obj buf fuel p c w).trace.length = c ∧
      ∀ i, i < c → (cc2564_send lower obj buf fuel p c w).trace[i]?
        = some (.write obj ((p + i : Nat) : Int) ((c - i : Nat) : Int) 1 [buf.getD (p + i) 0]) := by
  intro fuel
  induction fuel with
  | zero =>
    intro p c w _ hc
    have : c = 0 := by omega
    subst this
    simp [cc2564_send]
  | succ fuel ih =>
    intro p c w hp hc
    by_cases hc0 : c = 0
    · subst hc0
      simp [cc2564_send]
    · have hpos : (0 : Int) < (c : Int) := by omega
      have h1 := hw1 w.dev p c hpos
      have hf : fetch buf (p : Int) 1 = some [buf.getD p 0] := by
        have := fetch_inside buf p 1 (by omega)
        rw [take_one_drop buf p (by omega)] at this
        simpa using this
      have e1 : (p : Int) + 1 = ((p + 1 : Nat) : Int) := by push_cast; ring
      have e2 : (c : Int) - 1 = ((c - 1 : Nat) : Int) := by omega
      obtain ⟨i1, i2⟩ := ih (p + 1) (c - 1) ⟨(lower.write w.dev p c).1, w.rx⟩ (by omega)
        (by omega)
      simp only [cc2564_send, if_pos hpos, h1, hf, e1, e2]
      refine ⟨by simp only [List.length_cons, i1]; omega, ?_⟩
      intro i hi
      cases i with
      | zero => simp
      | succ j =>
        rw [List.getElem?_cons_succ, i2 j (by omega)]
        have a1 : p + 1 + j = p + (j + 1) := by omega
        have a2 : c - 1 - j = c - (j + 1) := by omega
        rw [a1, a2]

theorem getD_drop_one (rx : List Nat) (j : Nat) : (rx.drop 1).getD j 0 = rx.getD (j + 1) 0 := by
  cases rx with
  | nil => simp
  | cons x xs => simp

theorem cc2564_recv_one_trace {σ : Type} (lower : btuart_lowerhalf_s σ)
    (hr1 : ∀ s ptr count, 0 < count → (lower.read s ptr count).2 = 1) (obj : Obj) :
    ∀ (fuel : Nat) (buf : List Nat) (p c : Nat) (w : Wire σ),
      p + c ≤ buf.length → c ≤ w.rx.length → c ≤ fuel →
      (cc2564_recv lower obj fuel buf p c w).trace.length = c ∧
      ∀ i, i < c → (cc2564_recv lower obj fuel buf p c w).trace[i]?
        = some (.read obj ((p + i : Nat) : Int) ((c - i : Nat) : Int) 1 [w.rx.getD i 0]) := by
  intro fuel
  induction fuel with
  | zero =>
    intro buf p c w _ _ hc
    have : c = 0 := by omega
    subst this
    simp [cc2564_recv]
  | succ fuel ih =>
    intro buf p c w hp hrx hc
    by_cases hc0 : c = 0
    · subst hc0
      simp [cc2564_recv]
    · have hpos : (0 : Int) < (c : Int) := by omega
      have h1 := hr1 w.dev p c hpos
      have hnb : ¬ ((w.rx.length : Int) < 1) := by omega
      have htk : w.rx.take 1 = [w.rx.getD 0 0] := by
        have := take_one_drop w.rx 0 (by omega)
        simpa using this
      have hs := store_inside buf p [w.rx.getD 0 0] (by simp only [List.length_singleton]; omega)
      simp only [List.length_singleton] at hs
      have e1 : (p : Int) + 1 = ((p + 1 : Nat) : Int) := by push_cast; ring
      have e2 : (c : Int) - 1 = ((c - 1 : Nat) : Int) := by omega
      have hpl : (buf.take p).length = p := by
        rw [List.length_take]
        omega
      obtain ⟨i1, i2⟩ := ih (buf.take p ++ [w.rx.getD 0 0] ++ buf.drop (p + 1)) (p + 1) (c - 1)
        ⟨(lower.read w.dev p c).1, w.rx.drop 1⟩
        (by simp only [List.length_append, List.length_drop, List.length_singleton, hpl]; omega)
        (by simp only [List.length_drop]; omega) (by omega)
      have ht1 : (1 : Int).toNat = 1 := rfl
      simp only [cc2564_recv, if_pos hpos, h1, if_neg hnb, ht1, htk, hs, e1, e2]
      refine ⟨by simp only [List.length_cons, i1]; omega, ?_⟩
      intro i hi
      cases i with
      | zero => simp
      | succ j =>
        rw [List.getElem?_cons_succ, i2 j (by omega), getD_drop_one]
        have a1 : p + 1 + j = p + (j + 1) := by omega
        have a2 : c - 1 - j = c - (j + 1) := by omega
        rw [a1, a2]

/-- C7: for every buffer of `N` bytes and a transport that transfers exactly one byte
per call, `cc2564_send` given `N` iterations of fuel returns 0 after exactly `N` `write`
calls, the `i`-th of which is issued at `buffer + i` for the `N - i` bytes left and
takes the byte `buffer[i]`; `cc2564_recv`, when the wire carries `N` bytes, returns
after exactly `N` `read` calls, the `i`-th of which stores the `i`-th byte of the wire at
`buffer[i]`, and the buffer then holds the first `N` bytes of the wire in order. -/
theorem exact_transfer_one_byte {σ : Type} (lower : btuart_lowerhalf_s σ)
    (hw1 : ∀ s ptr count, 0 < count → (lower.write s ptr count).2 = 1)
    (hr1 : ∀ s ptr count, 0 < count → (lower.read s ptr count).2 = 1)
    (obj : Obj) (buf : List Nat) (fuel : Nat) (w : Wire σ) (hfuel : buf.length ≤ fuel) :
    (cc2564_send lower obj buf fuel 0 buf.length w).out = .ok 0 ∧
    (cc2564_send lower obj buf fuel 0 buf.length w).trace.length = buf.length ∧
    (∀ i, i < buf.length → (cc2564_send lower obj buf fuel 0 buf.length w).trace[i]?
      = some (.write obj i ((buf.length - i : Nat) : Int) 1 [buf.getD i 0])) ∧
    (buf.length ≤ w.rx.length →
      (cc2564_recv lower obj fuel buf 0 buf.length w).out = .ok (w.rx.take buf.length) ∧
      (cc2564_recv lower obj fuel buf 0 buf.length w).trace.length = buf.length ∧
      (∀ i, i < buf.length → (cc2564_recv lower obj fuel buf 0 buf.length w).trace[i]?
        = some (.read obj i ((buf.length - i : Nat) : Int) 1 [w.rx.getD i 0]))) := by
  have hw : WriteOK lower := fun s ptr count h => by
    rw [hw1 s ptr count h]
    exact ⟨le_refl _, by omega⟩
  have hr : ReadOK lower := fun s ptr count h => by
    rw [hr1 s ptr count h]
    exact ⟨le_refl _, by omega⟩
  have s1 := cc2564_send_ok lower hw obj buf fuel 0 buf.length w (by omega) hfuel
  have s2 := cc2564_send_one_trace lower hw1 obj buf fuel 0 buf.length w (by omega) hfuel
  simp only [Nat.cast_zero, Nat.zero_add] at s1 s2
  refine ⟨s1.1, s2.1, s2.2, ?_⟩
  intro hrx
  have r1 := cc2564_recv_ok lower hr obj fuel buf 0 buf.length w (by omega) hrx hfuel
  have r2 := cc2564_recv_one_trace lower hr1 obj fuel buf 0 buf.length w (by omega) hrx hfuel
  simp only [Nat.cast_zero, Nat.zero_add] at r1 r2
  refine ⟨?_, r2.1, r2.2⟩
  rw [r1.1]
  simp

/-- C7 (witness): four bytes over the one-byte-per-call lower half. -/
theorem exact_transfer_one_byte_witness :
    (cc2564_send lower_one_byte .buffer [7, 8, 9, 10] 4 0 4 ⟨(), [1, 2, 3, 4, 5]⟩).out
      = .ok 0 ∧
    (cc2564_send lower_one_byte .buffer [7, 8, 9, 10] 4 0 4
      ⟨(), [1, 2, 3, 4, 5]⟩).trace.length = 4 ∧
    (∀ i, i < 4 → (cc2564_send lower_one_byte .buffer [7, 8, 9, 10] 4 0 4
        ⟨(), [1, 2, 3, 4, 5]⟩).trace[i]?
      = some (.write .buffer i ((4 - i : Nat) : Int) 1 [[7, 8, 9, 10].getD i 0])) ∧
    (cc2564_recv lower_one_byte .buffer 4 [7, 8, 9, 10] 0 4 ⟨(), [1, 2, 3, 4, 5]⟩).out
      = .ok [1, 2, 3, 4] ∧
    (cc2564_recv lower_one_byte .buffer 4 [7, 8, 9, 10] 0 4
      ⟨(), [1, 2, 3, 4, 5]⟩).trace.length = 4 ∧
    (∀ i, i < 4 → (cc2564_recv lower_one_byte .buffer 4 [7, 8, 9, 10] 0 4
        ⟨(), [1, 2, 3, 4, 5]⟩).trace[i]?
      = some (.read .buffer i ((4 - i : Nat) : Int) 1 [[1, 2, 3, 4, 5].getD i 0])) :=
  have h := exact_transfer_one_byte lower_one_byte (fun _ _ _ _ => rfl) (fun _ _ _ _ => rfl)
    .buffer [7, 8, 9, 10] 4 ⟨(), [1, 2, 3, 4, 5]⟩ (by decide)
  ⟨h.1, h.2.1, h.2.2.1, h.2.2.2 (by decide)⟩

/-! ## The placeholder tables (C18) -/

/-- C18: with the firmware tables as compiled in the source, each the single byte 0,
`load_cc2564_firmware` returns `-EINVAL` for every transport with an empty trace, the
transport untouched; `btuart_create` given a lower half and memory returns `-EINVAL`,
stores no handle and makes no call to the transport; and for no lower half, allocation
result, fuel or wire does `btuart_create` return 0 or store a handle. -/
theorem btuart_create_placeholder {σ : Type} (H4_HEADER_SIZE : Nat)
    (lower : btuart_lowerhalf_s σ) (fuel : Nat) (buffer1 buffer2 : List Nat) (w : Wire σ) :
    load_cc2564_firmware lower cc256x_firmware ble_firmware fuel buffer1 buffer2 w
      = ⟨w, [], .ok (- EINVAL)⟩ ∧
    btuart_create H4_HEADER_SIZE (some lower) true cc256x_firmware ble_firmware fuel buffer1
      buffer2 w = ⟨w, [], .ok ⟨- EINVAL, none, false⟩⟩ ∧
    ∀ (l : Option (btuart_lowerhalf_s σ)) (alloc : Bool) (c : Created),
      (btuart_create H4_HEADER_SIZE l alloc cc256x_firmware ble_firmware fuel buffer1
        buffer2 w).out = .ok c → c.ret < 0 ∧ c.driver = none := by
  have hload : ∀ l : btuart_lowerhalf_s σ,
      load_cc2564_firmware l cc256x_firmware ble_firmware fuel buffer1 buffer2 w
        = ⟨w, [], .ok (- EINVAL)⟩ := by
    intro l
    unfold load_cc2564_firmware
    rw [if_pos (Or.inl (by decide))]
  have hcreate : ∀ l : btuart_lowerhalf_s σ,
      btuart_create H4_HEADER_SIZE (some l) true cc256x_firmware ble_firmware fuel buffer1
        buffer2 w = ⟨w, [], .ok ⟨- EINVAL, none, false⟩⟩ := by
    intro l
    rw [btuart_create_some, hload l, andThen_mk_ok, if_pos (by decide)]
    rfl
  refine ⟨hload lower, hcreate lower, ?_⟩
  intro l alloc c hc
  cases l with
  | none =>
    have : c = ⟨- ENODEV, none, false⟩ := by
      simp only [btuart_create, Outcome.ok.injEq] at hc
      exact hc.symm
    rw [this]
    exact ⟨by decide, rfl⟩
  | some l =>
    cases alloc with
    | false =>
      have : c = ⟨- ENOMEM, none, false⟩ := by
        simp only [btuart_create, if_true, Outcome.ok.injEq] at hc
        exact hc.symm
      rw [this]
      exact ⟨by decide, rfl⟩
    | true =>
      rw [hcreate l] at hc
      have : c = ⟨- EINVAL, none, false⟩ := by
        simp only [Outcome.ok.injEq] at hc
        exact hc.symm
      rw [this]
      exact ⟨by decide, rfl⟩

/-! ## Returning 0 (C14) -/

theorem andThen_ok_inv {σ α β : Type} {r : Run σ α} {f : α → Wire σ → Run σ β} {b : β}
    (h : (r.andThen f).out = .ok b) :
    ∃ a, r.out = .ok a ∧ (f a r.st).out = .ok b ∧
      (r.andThen f).trace = r.trace ++ (f a r.st).trace := by
  obtain ⟨a, ha, hb⟩ := andThen_out_ok h
  exact ⟨a, ha, hb, by rw [andThen_of_ok ha]; rfl⟩

theorem deref_ok_inv {σ : Type} {chipdata : List Nat} {idx t : Nat} {w : Wire σ}
    (h : (deref chipdata idx w).out = .ok t) :
    chipdata[idx]? = some t ∧ (deref chipdata idx w).trace = [.deref idx] ∧
      (deref chipdata idx w).st = w := by
  unfold deref at h ⊢
  cases hget : chipdata[idx]? with
  | none => rw [hget] at h; cases h
  | some b =>
    rw [hget] at h
    simp only [Outcome.ok.injEq] at h
    subst h
    exact ⟨rfl, rfl, rfl⟩

theorem getLast?_append_of_some {α : Type} (xs ys : List α) (y : α)
    (h : ys.getLast? = some y) : (xs ++ ys).getLast? = some y := by
  cases ys with
  | nil => simp at h
  | cons z zs =>
    rw [List.getLast?_eq_getLast _ (by simp)] at h ⊢
    simp only [Option.some.injEq] at h ⊢
    rw [List.getLast_append_of_ne_nil (by simp)]
    exact h

theorem derefs_append (a b : List Event) : derefs (a ++ b) = derefs a ++ derefs b := by
  induction a with
  | nil => rfl
  | cons e es ih => cases e <;> simp [derefs, ih]

theorem derefs_send {σ : Type} (lower : btuart_lowerhalf_s σ) (obj : Obj) (buf : List Nat) :
    ∀ (fuel : Nat) (ptr count : Int) (w : Wire σ),
      derefs (cc2564_send lower obj buf fuel ptr count w).trace = [] := by
  intro fuel
  induction fuel with
  | zero =>
    intro ptr count w
    by_cases hc : 0 < count
    · simp only [cc2564_send, if_pos hc, derefs]
    · simp only [cc2564_send, if_neg hc, derefs]
  | succ fuel ih =>
    intro ptr count w
    by_cases hc : 0 < count
    · simp only [cc2564_send, if_pos hc]
      cases hf : fetch buf ptr (lower.write w.dev ptr count).2 with
      | none => simp only [derefs]
      | some bytes =>
        simp only [derefs]
        exact ih _ _ _
    · simp only [cc2564_send, if_neg hc, derefs]

theorem derefs_recv {σ : Type} (lower : btuart_lowerhalf_s σ) (obj : Obj) :
    ∀ (fuel : Nat) (buf : List Nat) (ptr count : Int) (w : Wire σ),
      derefs (cc2564_recv lower obj fuel buf ptr count w).trace = [] := by
  intro fuel
  induction fuel with
  | zero =>
    intro buf ptr count w
    by_cases hc : 0 < count
    · simp only [cc2564_recv, if_pos hc, derefs]
    · simp only [cc2564_recv, if_neg hc, derefs]
  | succ fuel ih =>
    intro buf ptr count w
    by_cases hc : 0 < count
    · simp only [cc2564_recv, if_pos hc]
      by_cases hb : (w.rx.length : Int) < (lower.read w.dev ptr count).2
      · simp only [if_pos hb, derefs]
      · simp only [if_neg hb]
        cases hs : store buf ptr (w.rx.take (lower.read w.dev ptr count).2.toNat) with
        | none => simp only [derefs]
        | some buf2 =>
          simp only [derefs]
          exact ih _ _ _ _
    · simp only [cc2564_recv, if_neg hc, derefs]

/-- When the upload loop entered at the cursor `data` returns 0, its cursor has walked
from `data` to a position `i` whose byte is 0: the image reads of the run are those of the
walk, and the last thing the run did is the terminator test at `i`. -/
theorem cc2564_load_loop_zero_walk {σ : Type} (lower : btuart_lowerhalf_s σ)
    (chipdata : List Nat) :
    ∀ (fuel : Nat) (buffer : List Nat) (data : Nat) (w : Wire σ),
      (cc2564_load_loop lower chipdata fuel buffer data w).out = .ok 0 →
      ∃ i L, CursorWalk chipdata data i L ∧
        derefs (cc2564_load_loop lower chipdata fuel buffer data w).trace = L ∧
        (cc2564_load_loop lower chipdata fuel buffer data w).trace.getLast?
          = some (.deref i) ∧ chipdata[i]? = some 0 := by
  intro fuel
  induction fuel with
  | zero =>
    intro buffer data w h
    cases h
  | succ fuel ih =>
    intro buffer data w h
    rw [cc2564_load_loop] at h ⊢
    obtain ⟨t, ht, h, htr⟩ := andThen_ok_inv h
    obtain ⟨hget, hdt, _⟩ := deref_ok_inv ht
    rw [htr, hdt]
    by_cases ht0 : t = 0
    · rw [if_pos ht0] at h ⊢
      subst ht0
      exact ⟨data, [data], CursorWalk.stop data, rfl, rfl, hget⟩
    · rw [if_neg ht0] at h ⊢
      obtain ⟨_, hhi, h, htr1⟩ := andThen_ok_inv h
      obtain ⟨_, hd1, _⟩ := deref_ok_inv hhi
      rw [htr1, hd1]
      obtain ⟨_, hlo, h, htr2⟩ := andThen_ok_inv h
      obtain ⟨_, hd2, _⟩ := deref_ok_inv hlo
      rw [htr2, hd2]
      obtain ⟨len, hlen, h, htr3⟩ := andThen_ok_inv h
      obtain ⟨hgl, hd3, _⟩ := deref_ok_inv hlen
      rw [htr3, hd3]
      obtain ⟨_, _, h, htr4⟩ := andThen_ok_inv h
      rw [htr4]
      obtain ⟨_, _, h, htr5⟩ := andThen_ok_inv h
      rw [htr5]
      obtain ⟨buf1, _, h, htr6⟩ := andThen_ok_inv h
      rw [htr6]
      by_cases hb : 0x04 = buf1.getD 0 0
      · rw [if_pos hb] at h ⊢
        obtain ⟨_, _, h, htr7⟩ := andThen_ok_inv h
        rw [htr7]
        obtain ⟨_, _, h, htr8⟩ := andThen_ok_inv h
        rw [htr8]
        obtain ⟨i, L, hwalk, hL, hi, hz⟩ := ih _ _ _ h
        refine ⟨i, data :: (data + 2) :: (data + 1) :: (data + 3) :: L,
          CursorWalk.step data t len i L hget ht0 hgl hwalk, ?_, ?_, hz⟩
        · simp only [derefs_append, derefs_send, derefs_recv, hL]
          simp [derefs, Nat.add_assoc]
        · simp only [← List.append_assoc]
          exact getLast?_append_of_some _ _ _ hi
      · rw [if_neg hb] at h
        have h0 : - EIO = 0 := by simpa using h
        exact absurd h0 (by decide)

/-- C14: for every image whose byte at the start cursor is `0x00`, `cc2564_load` given
one iteration of fuel returns 0 and all it does is the read of that byte: no `write`, no
`read`; and whenever `cc2564_load` returns 0, it has reached a cursor position `i` whose
byte is `0x00`: `i` is reached from the start of the image by the steps of the loop
cursor, each over a record whose first byte is not zero and to the position
`c + 1 + (image[c+3] + 3)`; the image reads of the run are exactly those of that walk;
and the last thing the run did is the terminator test at `i`. -/
theorem cc2564_load_done_at_zero {σ : Type} (lower : btuart_lowerhalf_s σ)
    (chipdata : List Nat) (fuel : Nat) (buffer : List Nat) (w : Wire σ) :
    (chipdata[0]? = some 0 →
      cc2564_load lower chipdata (fuel + 1) buffer w = ⟨w, [.deref 0], .ok 0⟩) ∧
    ((cc2564_load lower chipdata fuel buffer w).out = .ok 0 →
      ∃ i, IsCursor chipdata i ∧ chipdata[i]? = some 0 ∧
        (cc2564_load lower chipdata fuel buffer w).trace.getLast? = some (.deref i) ∧
        CursorWalk chipdata 0 i (derefs (cc2564_load lower chipdata fuel buffer w).trace)) := by
  refine ⟨?_, ?_⟩
  · intro h0
    exact load_loop_terminator lower chipdata fuel buffer 0 w h0
  · intro h
    obtain ⟨i, L, hwalk, hL, hi, hz⟩ :=
      cc2564_load_loop_zero_walk lower chipdata fuel buffer 0 w h
    refine ⟨i, ⟨L, hwalk⟩, hz, hi, ?_⟩
    unfold cc2564_load
    rw [hL]
    exact hwalk

/-- C14 (witness): the placeholder table returns 0 at once; the sample image returns 0
after the terminator test at a cursor position whose byte is 0. -/
theorem cc2564_load_done_at_zero_witness :
    cc2564_load lower_whole cc256x_firmware 1 (List.replicate 32 0) ⟨(), [0x04, 0x0e, 0]⟩
      = ⟨⟨(), [0x04, 0x0e, 0]⟩, [.deref 0], .ok 0⟩ ∧
    ∃ i, IsCursor sample_firmware i ∧ sample_firmware[i]? = some 0 ∧
      (cc2564_load lower_whole sample_firmware 40 (List.replicate 32 0)
        ⟨(), [0x04, 0x0e, 0]⟩).trace.getLast? = some (.deref i) ∧
      CursorWalk sample_firmware 0 i
        (derefs (cc2564_load lower_whole sample_firmware 40 (List.replicate 32 0)
          ⟨(), [0x04, 0x0e, 0]⟩).trace) :=
  ⟨(cc2564_load_done_at_zero lower_whole cc256x_firmware 0 (List.replicate 32 0)
      ⟨(), [0x04, 0x0e, 0]⟩).1 rfl,
   (cc2564_load_done_at_zero lower_whole sample_firmware 40 (List.replicate 32 0)
      ⟨(), [0x04, 0x0e, 0]⟩).2 (by decide)⟩

/-! ## Partial transfers (C11) -/

theorem returned_cons (e : Event) (tr : List Event) : returned (e :: tr) = e.ret + returned tr := by
  simp [returned]

theorem cc2564_send_chunks {σ : Type} (lower : btuart_lowerhalf_s σ) (hw : WriteOK lower)
    (obj : Obj) (buf : List Nat) :
    ∀ (fuel p c : Nat) (w : Wire σ), p + c ≤ buf.length → c ≤ fuel →
      (cc2564_send lower obj buf fuel p c w).trace.length ≤ c ∧
      returned (cc2564_send lower obj buf fuel p c w).trace = c ∧
      ∀ i e, (cc2564_send lower obj buf fuel p c w).trace[i]? = some e →
        e.ptr = p + returned ((cc2564_send lower obj buf fuel p c w).trace.take i) ∧
        e.count = c - returned ((cc2564_send lower obj buf fuel p c w).trace.take i) ∧
        1 ≤ e.ret ∧ e.ret ≤ e.count := by
  intro fuel
  induction fuel with
  | zero =>
    intro p c w _ hc
    have : c = 0 := by omega
    subst this
    simp [cc2564_send, returned]
  | succ fuel ih =>
    intro p c w hp hc
    by_cases hc0 : c = 0
    · subst hc0
      simp [cc2564_send, returned]
    · have hpos : (0 : Int) < (c : Int) := by omega
      obtain ⟨h1, h2⟩ := hw w.dev p c hpos
      obtain ⟨m, hm⟩ := Int.eq_ofNat_of_zero_le (by omega : 0 ≤ (lower.write w.dev p c).2)
      have hm1 : 1 ≤ m := by omega
      have hm2 : m ≤ c := by omega
      have hf := fetch_inside buf p m (by omega)
      have e1 : (p : Int) + (m : Int) = ((p + m : Nat) : Int) := by push_cast; ring
      have e2 : (c : Int) - (m : Int) = ((c - m : Nat) : Int) := by omega
      obtain ⟨i1, i2, i3⟩ := ih (p + m) (c - m) ⟨(lower.write w.dev p c).1, w.rx⟩
        (by omega) (by omega)
      simp only [cc2564_send, if_pos hpos, hm, hf, e1, e2]
      refine ⟨by simp only [List.length_cons]; omega, ?_, ?_⟩
      · rw [returned_cons, i2]
        simp only [Event.ret]
        omega
      · intro i e he
        cases i with
        | zero =>
          simp only [List.getElem?_cons_zero, Option.some.injEq] at he
          subst he
          simp only [List.take_zero, returned, List.map_nil, List.sum_nil, Event.ptr,
            Event.count, Event.ret]
          omega
        | succ j =>
          rw [List.getElem?_cons_succ] at he
          obtain ⟨k1, k2, k3, k4⟩ := i3 j e he
          rw [List.take_succ_cons, returned_cons]
          simp only [Event.ret]
          refine ⟨?_, ?_, k3, k4⟩
          · rw [k1]
            omega
          · rw [k2]
            omega

theorem cc2564_recv_chunks {σ : Type} (lower : btuart_lowerhalf_s σ) (hr : ReadOK lower)
    (obj : Obj) :
    ∀ (fuel : Nat) (buf : List Nat) (p c : Nat) (w : Wire σ),
      p + c ≤ buf.length → c ≤ w.rx.length → c ≤ fuel →
      (cc2564_recv lower obj fuel buf p c w).trace.length ≤ c ∧
      returned (cc2564_recv lower obj fuel buf p c w).trace = c ∧
      ∀ i e, (cc2564_recv lower obj fuel buf p c w).trace[i]? = some e →
        e.ptr = p + returned ((cc2564_recv lower obj fuel buf p c w).trace.take i) ∧
        e.count = c - returned ((cc2564_recv lower obj fuel buf p c w).trace.take i) ∧
        1 ≤ e.ret ∧ e.ret ≤ e.count := by
  intro fuel
  induction fuel with
  | zero =>
    intro buf p c w _ _ hc
    have : c = 0 := by omega
    subst this
    simp [cc2564_recv, returned]
  | succ fuel ih =>
    intro buf p c w hp hrx hc
    by_cases hc0 : c = 0
    · subst hc0
      simp [cc2564_recv, returned]
    · have hpos : (0 : Int) < (c : Int) := by omega
      obtain ⟨h1, h2⟩ := hr w.dev p c hpos
      obtain ⟨m, hm⟩ := Int.eq_ofNat_of_zero_le (by omega : 0 ≤ (lower.read w.dev p c).2)
      have hm1 : 1 ≤ m := by omega
      have hm2 : m ≤ c := by omega
      have hlen : (w.rx.take m).length = m := by
        rw [List.length_take]
        omega
      have hs := store_inside buf p (w.rx.take m) (by omega)
      rw [hlen] at hs
      have hnb : ¬ ((w.rx.length : Int) < (m : Int)) := by omega
      have e1 : (p : Int) + (m : Int) = ((p + m : Nat) : Int) := by push_cast; ring
      have e2 : (c : Int) - (m : Int) = ((c - m : Nat) : Int) := by omega
      have hpl : (buf.take p).length = p := by
        rw [List.length_take]
        omega
      obtain ⟨i1, i2, i3⟩ := ih (buf.take p ++ w.rx.take m ++ buf.drop (p + m))
        (p + m) (c - m) ⟨(lower.read w.dev p c).1, w.rx.drop m⟩
        (by simp only [List.length_append, List.length_drop, hlen, hpl]; omega)
        (by simp only [List.length_drop]; omega) (by omega)
      simp only [cc2564_recv, if_pos hpos, hm, if_neg hnb, Int.toNat_ofNat, hs, e1, e2]
      refine ⟨by simp only [List.length_cons]; omega, ?_, ?_⟩
      · rw [returned_cons, i2]
        simp only [Event.ret]
        omega
      · intro i e he
        cases i with
        | zero =>
          simp only [List.getElem?_cons_zero, Option.some.injEq] at he
          subst he
          simp only [List.take_zero, returned, List.map_nil, List.sum_nil, Event.ptr,
            Event.count, Event.ret]
          omega
        | succ j =>
          rw [List.getElem?_cons_succ] at he
          obtain ⟨k1, k2, k3, k4⟩ := i3 j e he
          rw [List.take_succ_cons, returned_cons]
          simp only [Event.ret]
          refine ⟨?_, ?_, k3, k4⟩
          · rw [k1]
            omega
          · rw [k2]
            omega

theorem lower_two_bytes_writeOK : WriteOK lower_two_bytes := by
  intro s ptr count h
  simp only [lower_two_bytes]
  omega

theorem lower_two_bytes_readOK : ReadOK lower_two_bytes := by
  intro s ptr count h
  simp only [lower_two_bytes]
  omega

/-- C11: for every range `[p, p + c)` of a buffer and every lower half whose `write`
(`read`) call returns a number between 1 and the count asked for, `cc2564_send`
(`cc2564_recv`, when the wire carries `c` bytes) given `c` iterations of fuel returns
after at most `c` calls, `cc2564_send` with the value 0; every call is a `write`
(`read`) on the range; the `i`-th call is issued at the cursor `p` plus the sum of the
counts returned by the calls before it and asks for `c` minus that sum; the counts
returned sum to `c`; the bytes sent are `buf[p .. p + c)` in order, and the bytes
received are stored in order at `buf[p .. p + c)`, whatever the split into calls. -/
theorem exact_transfer_chunks {σ : Type} (lower : btuart_lowerhalf_s σ) (hw : WriteOK lower)
    (hr : ReadOK lower) (obj : Obj) (buf : List Nat) (fuel p c : Nat) (w : Wire σ)
    (hp : p + c ≤ buf.length) (hc : c ≤ fuel) :
    ((cc2564_send lower obj buf fuel p c w).out = .ok 0 ∧
      (cc2564_send lower obj buf fuel p c w).trace.length ≤ c ∧
      (∀ e ∈ (cc2564_send lower obj buf fuel p c w).trace, e.isWriteIn obj p (p + c)) ∧
      (∀ i e, (cc2564_send lower obj buf fuel p c w).trace[i]? = some e →
        e.ptr = p + returned ((cc2564_send lower obj buf fuel p c w).trace.take i) ∧
        e.count = c - returned ((cc2564_send lower obj buf fuel p c w).trace.take i) ∧
        1 ≤ e.ret ∧ e.ret ≤ e.count) ∧
      returned (cc2564_send lower obj buf fuel p c w).trace = c ∧
      txBytes (cc2564_send lower obj buf fuel p c w).trace = (buf.drop p).take c) ∧
    (c ≤ w.rx.length →
      (cc2564_recv lower obj fuel buf p c w).out
        = .ok (buf.take p ++ w.rx.take c ++ buf.drop (p + c)) ∧
      (cc2564_recv lower obj fuel buf p c w).trace.length ≤ c ∧
      (∀ e ∈ (cc2564_recv lower obj fuel buf p c w).trace, e.isReadIn obj p (p + c)) ∧
      (∀ i e, (cc2564_recv lower obj fuel buf p c w).trace[i]? = some e →
        e.ptr = p + returned ((cc2564_recv lower obj fuel buf p c w).trace.take i) ∧
        e.count = c - returned ((cc2564_recv lower obj fuel buf p c w).trace.take i) ∧
        1 ≤ e.ret ∧ e.ret ≤ e.count) ∧
      returned (cc2564_recv lower obj fuel buf p c w).trace = c ∧
      rxBytes (cc2564_recv lower obj fuel buf p c w).trace = w.rx.take c ∧
      (cc2564_recv lower obj fuel buf p c w).st.rx = w.rx.drop c) := by
  refine ⟨?_, ?_⟩
  · obtain ⟨a1, _, a3, _, a5⟩ := cc2564_send_ok lower hw obj buf fuel p c w hp hc
    obtain ⟨b1, b2, b3⟩ := cc2564_send_chunks lower hw obj buf fuel p c w hp hc
    exact ⟨a1, b1, a5, b3, b2, a3⟩
  · intro hrx
    obtain ⟨a1, a2, a3, _, a5⟩ := cc2564_recv_ok lower hr obj fuel buf p c w hp hrx hc
    obtain ⟨b1, b2, b3⟩ := cc2564_recv_chunks lower hr obj fuel buf p c w hp hrx hc
    exact ⟨a1, b1, a5, b3, b2, a3, a2⟩

/-- C11 (witness): five bytes at offset 1 of a seven-byte buffer, two bytes per call. -/
theorem exact_transfer_chunks_witness :
    (cc2564_send lower_two_bytes .chipdata [0, 1, 2, 3, 4, 5, 6] 5 1 5
        ⟨(), [9, 8, 7, 6, 5, 4]⟩).trace
      = [.write .chipdata 1 5 2 [1, 2], .write .chipdata 3 3 2 [3, 4],
         .write .chipdata 5 1 1 [5]] ∧
    returned (cc2564_send lower_two_bytes .chipdata [0, 1, 2, 3, 4, 5, 6] 5 1 5
        ⟨(), [9, 8, 7, 6, 5, 4]⟩).trace = 5 ∧
    (cc2564_recv lower_two_bytes .buffer 5 [0, 1, 2, 3, 4, 5, 6] 1 5
        ⟨(), [9, 8, 7, 6, 5, 4]⟩).out = .ok [0, 9, 8, 7, 6, 5, 6] ∧
    returned (cc2564_recv lower_two_bytes .buffer 5 [0, 1, 2, 3, 4, 5, 6] 1 5
        ⟨(), [9, 8, 7, 6, 5, 4]⟩).trace = 5 :=
  have hs := (exact_transfer_chunks lower_two_bytes lower_two_bytes_writeOK
    lower_two_bytes_readOK .chipdata [0, 1, 2, 3, 4, 5, 6] 5 1 5 ⟨(), [9, 8, 7, 6, 5, 4]⟩
    (by decide) (by decide)).1
  have hr := (exact_transfer_chunks lower_two_bytes lower_two_bytes_writeOK
    lower_two_bytes_readOK .buffer [0, 1, 2, 3, 4, 5, 6] 5 1 5 ⟨(), [9, 8, 7, 6, 5, 4]⟩
    (by decide) (by decide)).2 (by decide)
  ⟨by decide, hs.2.2.2.2.1, hr.1, hr.2.2.2.2.1⟩

/-! ## A call that makes no progress (C12) -/

/-- C12 (counterexample): a `write` (`read`) call issued at cursor 1 for 3 bytes returns
`-1`; the next call is issued at cursor 0 for 4 bytes, not at cursor 1 for 3 bytes:
`count -= nwritten; ptr += nwritten` moves the cursor back and raises the count.  The
byte before the data handed to `cc2564_send` is sent, and `cc2564_recv` stores a byte
before the place it was given. -/
theorem negative_return_counterexample :
    (cc2564_send lower_error_once .chipdata [6, 7, 8, 9] 4 1 3 ⟨0, []⟩).trace
      = [.write .chipdata 1 3 (-1) [], .write .chipdata 0 4 4 [6, 7, 8, 9]] ∧
    (cc2564_recv lower_error_once .buffer 4 [0, 0, 0, 0] 1 3 ⟨0, [1, 2, 3, 4]⟩).trace
      = [.read .buffer 1 3 (-1) [], .read .buffer 0 4 4 [1, 2, 3, 4]] ∧
    (cc2564_recv lower_error_once .buffer 4 [0, 0, 0, 0] 1 3 ⟨0, [1, 2, 3, 4]⟩).out
      = .ok [1, 2, 3, 4] := by
  decide

theorem fetch_zero (buf : List Nat) (ptr : Int) : fetch buf ptr 0 = some [] := by
  simp [fetch]

theorem store_nil (buf : List Nat) (ptr : Int) : store buf ptr [] = some buf := by
  simp [store]

theorem cc2564_send_first_call {σ : Type} (lower : btuart_lowerhalf_s σ) (obj : Obj)
    (buf : List Nat) (fuel : Nat) (ptr count : Int) (w : Wire σ) (hc : 0 < count) :
    ∃ b, (cc2564_send lower obj buf (fuel + 1) ptr count w).trace[0]?
      = some (.write obj ptr count (lower.write w.dev ptr count).2 b) := by
  rw [cc2564_send, if_pos hc]
  cases hf : fetch buf ptr (lower.write w.dev ptr count).2 with
  | none => exact ⟨[], by simp [hf]⟩
  | some bytes => exact ⟨bytes, by simp [hf]⟩

theorem cc2564_recv_first_call {σ : Type} (lower : btuart_lowerhalf_s σ) (obj : Obj)
    (buf : List Nat) (fuel : Nat) (ptr count : Int) (w : Wire σ) (hc : 0 < count) :
    ∃ b, (cc2564_recv lower obj (fuel + 1) buf ptr count w).trace[0]?
      = some (.read obj ptr count (lower.read w.dev ptr count).2 b) := by
  rw [cc2564_recv, if_pos hc]
  by_cases hb : (w.rx.length : Int) < (lower.read w.dev ptr count).2
  · exact ⟨[], by simp [hb]⟩
  · cases hs : store buf ptr (w.rx.take (lower.read w.dev ptr count).2.toNat) with
    | none =>
      exact ⟨w.rx.take (lower.read w.dev ptr count).2.toNat, by simp [hb, hs]⟩
    | some buf' =>
      exact ⟨w.rx.take (lower.read w.dev ptr count).2.toNat, by simp [hb, hs]⟩

/-- C12 (amended): a `write` (`read`) call that returns zero is treated by `cc2564_send`
(`cc2564_recv`) as zero progress: after it the loop goes on with the same cursor, the
same count left, the same buffer contents and the same bytes still on the wire, and the
next call is issued with the same cursor position and the same count as the call that
returned zero. -/
theorem zero_return_repeats {σ : Type} (lower : btuart_lowerhalf_s σ) (obj : Obj)
    (buf : List Nat) (fuel : Nat) (ptr count : Int) (w : Wire σ) (hc : 0 < count) :
    ((lower.write w.dev ptr count).2 = 0 →
      cc2564_send lower obj buf (fuel + 1) ptr count w
        = Run.after [.write obj ptr count 0 []]
            (cc2564_send lower obj buf fuel ptr count ⟨(lower.write w.dev ptr count).1, w.rx⟩) ∧
      ∃ b, (cc2564_send lower obj buf (fuel + 1 + 1) ptr count w).trace[1]?
        = some (.write obj ptr count
            (lower.write (lower.write w.dev ptr count).1 ptr count).2 b)) ∧
    ((lower.read w.dev ptr count).2 = 0 →
      cc2564_recv lower obj (fuel + 1) buf ptr count w
        = Run.after [.read obj ptr count 0 []]
            (cc2564_recv lower obj fuel buf ptr count ⟨(lower.read w.dev ptr count).1, w.rx⟩) ∧
      ∃ b, (cc2564_recv lower obj (fuel + 1 + 1) buf ptr count w).trace[1]?
        = some (.read obj ptr count
            (lower.read (lower.read w.dev ptr count).1 ptr count).2 b)) := by
  have hsend : ∀ f, (lower.write w.dev ptr count).2 = 0 →
      cc2564_send lower obj buf (f + 1) ptr count w
        = Run.after [.write obj ptr count 0 []]
            (cc2564_send lower obj buf f ptr count ⟨(lower.write w.dev ptr count).1, w.rx⟩) := by
    intro f h0
    rw [cc2564_send, if_pos hc]
    simp only [h0, fetch_zero, Int.add_zero, Int.sub_zero]
    rfl
  have hrecv : ∀ f, (lower.read w.dev ptr count).2 = 0 →
      cc2564_recv lower obj (f + 1) buf ptr count w
        = Run.after [.read obj ptr count 0 []]
            (cc2564_recv lower obj f buf ptr count ⟨(lower.read w.dev ptr count).1, w.rx⟩) := by
    intro f h0
    have hnb : ¬ ((w.rx.length : Int) < 0) := by omega
    rw [cc2564_recv, if_pos hc]
    simp only [h0, if_neg hnb, Int.toNat_zero, List.take_zero, store_nil, List.drop_zero,
      Int.add_zero, Int.sub_zero]
    rfl
  refine ⟨fun h0 => ⟨hsend fuel h0, ?_⟩, fun h0 => ⟨hrecv fuel h0, ?_⟩⟩
  · obtain ⟨b, hb⟩ := cc2564_send_first_call lower obj buf fuel ptr count
      ⟨(lower.write w.dev ptr count).1, w.rx⟩ hc
    refine ⟨b, ?_⟩
    rw [hsend (fuel + 1) h0]
    simpa [Run.after] using hb
  · obtain ⟨b, hb⟩ := cc2564_recv_first_call lower obj buf fuel ptr count
      ⟨(lower.read w.dev ptr count).1, w.rx⟩ hc
    refine ⟨b, ?_⟩
    rw [hrecv (fuel + 1) h0]
    simpa [Run.after] using hb

/-- C12 (witness): the first call returns 0, the second is issued as the first was. -/
theorem zero_return_repeats_witness :
    (cc2564_send lower_idle_once .chipdata [6, 7, 8, 9] 2 1 3 ⟨0, [1, 2, 3, 4]⟩).trace
      = [.write .chipdata 1 3 0 [], .write .chipdata 1 3 3 [7, 8, 9]] ∧
    (cc2564_recv lower_idle_once .buffer 2 [6, 7, 8, 9] 1 3 ⟨0, [1, 2, 3, 4]⟩).trace
      = [.read .buffer 1 3 0 [], .read .buffer 1 3 3 [1, 2, 3]] :=
  have h := zero_return_repeats lower_idle_once .chipdata [6, 7, 8, 9] 1 1 3
    ⟨0, [1, 2, 3, 4]⟩ (by decide)
  have h2 := zero_return_repeats lower_idle_once .buffer [6, 7, 8, 9] 1 1 3
    ⟨0, [1, 2, 3, 4]⟩ (by decide)
  ⟨(congrArg Run.trace (h.1 rfl).1).trans (by decide),
   (congrArg Run.trace (h2.2 rfl).1).trans (by decide)⟩

/-! ## The image reads of a run -/

theorem derefs_of_isWriteIn {T : List Event} {obj : Obj} {lo hi : Int}
    (h : ∀ e ∈ T, e.isWriteIn obj lo hi) : derefs T = [] := by
  induction T with
  | nil => rfl
  | cons e es ih =>
    have he := h e (List.mem_cons_self _ _)
    have hes := ih (fun x hx => h x (List.mem_cons_of_mem _ hx))
    cases e with
    | deref idx => exact he.elim
    | write o p c r b => simpa [derefs] using hes
    | read o p c r b => exact he.elim

theorem derefs_of_isReadIn {T : List Event} {obj : Obj} {lo hi : Int}
    (h : ∀ e ∈ T, e.isReadIn obj lo hi) : derefs T = [] := by
  induction T with
  | nil => rfl
  | cons e es ih =>
    have he := h e (List.mem_cons_self _ _)
    have hes := ih (fun x hx => h x (List.mem_cons_of_mem _ hx))
    cases e with
    | deref idx => exact he.elim
    | write o p c r b => exact he.elim
    | read o p c r b => simpa [derefs] using hes

/-- The step of `load_step_type`, with the image reads it makes. -/
theorem load_step_type_ev {σ : Type} (lower : btuart_lowerhalf_s σ) (hw : WriteOK lower)
    (hr : ReadOK lower) (chipdata : List Nat) (fuel : Nat) (buffer : List Nat)
    (c t lo hi len : Nat) (dev : σ) (b : Nat) (rx' : List Nat)
    (h0 : chipdata[c]? = some t) (ht : t ≠ 0) (h1 : chipdata[c + 1]? = some lo)
    (h2 : chipdata[c + 1 + 1]? = some hi) (h3 : chipdata[c + 1 + 2]? = some len)
    (hin : c + 1 + (len + 2 + 1) ≤ chipdata.length) (hb : 1 ≤ buffer.length)
    (hf : len + 2 + 1 ≤ fuel) :
    ∃ dev' T0, txBytes T0 = 0x01 :: (chipdata.drop (c + 1)).take (len + 2 + 1) ∧
      rxBytes T0 = [] ∧ (∀ e ∈ T0, e.within (c + 1 + (len + 2 + 1))) ∧
      derefs T0 = [c, c + 1 + 1, c + 1, c + 1 + 2] ∧
      cc2564_load_loop lower chipdata (fuel + 1) buffer c ⟨dev, b :: rx'⟩
        = Run.after (T0 ++ [.read .buffer 0 1 1 [b]])
            (if 0x04 = b then
              (cc2564_recv lower .buffer fuel (b :: buffer.drop 1) 1 2 ⟨dev', rx'⟩).andThen
                fun buffer w =>
              (cc2564_recv lower .buffer fuel buffer 3 (buffer.getD 2 0) w).andThen
                fun buffer w =>
              cc2564_load_loop lower chipdata fuel buffer (c + 1 + (len + 2 + 1)) w
            else ⟨⟨dev', rx'⟩, [], .ok (- EIO)⟩) := by
  obtain ⟨R1, hR1⟩ : ∃ R1, R1 = cc2564_send lower .h4_cmd [0x01] fuel 0 1
    ⟨dev, b :: rx'⟩ := ⟨_, rfl⟩
  have S1 := cc2564_send_ok lower hw .h4_cmd [0x01] fuel 0 1 ⟨dev, b :: rx'⟩
    (by simp) (by omega)
  simp only [Nat.cast_zero, Nat.cast_one] at S1
  rw [← hR1] at S1
  obtain ⟨a1, a2, a3, a4, a5⟩ := S1
  obtain ⟨R2, hR2⟩ : ∃ R2, R2 = cc2564_send lower .chipdata chipdata fuel
    ((c + 1 : Nat) : Int) ((len + 2 + 1 : Nat) : Int) R1.st := ⟨_, rfl⟩
  have S2 := cc2564_send_ok lower hw .chipdata chipdata fuel (c + 1) (len + 2 + 1)
    R1.st hin hf
  rw [← hR2] at S2
  obtain ⟨b1, b2, b3, b4, b5⟩ := S2
  have hrx2 : R2.st.rx = b :: rx' := by rw [b2, a2]
  have S3 := cc2564_recv_one lower hr .buffer fuel buffer 0 R2.st b rx' hrx2 (by omega) (by omega)
  simp only [Nat.cast_zero] at S3
  refine ⟨(lower.read R2.st.dev 0 1).1,
    [.deref c, .deref (c + 1 + 1), .deref (c + 1), .deref (c + 1 + 2)] ++ R1.trace ++ R2.trace,
    ?_, ?_, ?_, ?_, ?_⟩
  · simp [txBytes_append, txBytes, a3, b3]
  · simp [rxBytes_append, rxBytes, a4, b4]
  · intro e he
    simp only [List.append_assoc, List.mem_append, List.mem_cons, List.mem_singleton,
      List.not_mem_nil, or_false] at he
    rcases he with (rfl | rfl | rfl | rfl) | he | he
    · show c < _
      omega
    · show c + 1 + 1 < _
      omega
    · show c + 1 < _
      omega
    · show c + 1 + 2 < _
      omega
    · exact within_of_isWriteIn_h4 _ (a5 e he)
    · exact within_of_isWriteIn_chipdata (b5 e he) (by omega) (by push_cast; omega)
  · rw [derefs_append, derefs_append, derefs_of_isWriteIn a5, derefs_of_isWriteIn b5]
    rfl
  · rw [cc2564_load_loop]
    rw [deref_of_get h0, andThen_mk_ok]
    simp only [if_neg ht]
    rw [deref_of_get h2, andThen_mk_ok, deref_of_get h1, andThen_mk_ok, deref_of_get h3,
      andThen_mk_ok]
    rw [← hR1, andThen_of_ok a1]
    rw [← hR2, andThen_of_ok b1]
    rw [S3, andThen_mk_ok]
    simp only [after_after, List.take_zero, List.nil_append, List.singleton_append,
      Nat.zero_add, List.getD_cons_zero, List.append_assoc, List.cons_append]

/-- The step of `load_step_ack`, with the image reads it makes. -/
theorem load_step_ack_ev {σ : Type} (lower : btuart_lowerhalf_s σ) (hw : WriteOK lower)
    (hr : ReadOK lower) (chipdata : List Nat) (fuel : Nat) (buffer : List Nat)
    (c t lo hi len : Nat) (dev : σ) (code : Nat) (pay rest : List Nat)
    (h0 : chipdata[c]? = some t) (ht : t ≠ 0) (h1 : chipdata[c + 1]? = some lo)
    (h2 : chipdata[c + 1 + 1]? = some hi) (h3 : chipdata[c + 1 + 2]? = some len)
    (hin : c + 1 + (len + 2 + 1) ≤ chipdata.length) (hb : buffer.length = 32)
    (hfit : 3 + pay.length ≤ 32) (hf : len + 2 + 1 ≤ fuel) (hf2 : pay.length ≤ fuel) :
    ∃ dev' T0 T2 T3, txBytes T0 = 0x01 :: (chipdata.drop (c + 1)).take (len + 2 + 1) ∧
      rxBytes T0 = [] ∧ (∀ e ∈ T0, e.within (c + 1 + (len + 2 + 1))) ∧
      derefs T0 = [c, c + 1 + 1, c + 1, c + 1 + 2] ∧
      T2.length ≤ 2 ∧ T3.length ≤ pay.length ∧
      txBytes T2 = [] ∧ rxBytes T2 = [code, pay.length] ∧
      (∀ e ∈ T2, e.isReadIn .buffer 1 3) ∧
      txBytes T3 = [] ∧ rxBytes T3 = pay ∧
      (∀ e ∈ T3, e.isReadIn .buffer 3 (3 + pay.length)) ∧
      cc2564_load_loop lower chipdata (fuel + 1) buffer c
          ⟨dev, 0x04 :: code :: pay.length :: (pay ++ rest)⟩
        = Run.after (T0 ++ [.read .buffer 0 1 1 [0x04]] ++ T2 ++ T3)
            (cc2564_load_loop lower chipdata fuel
              (0x04 :: code :: pay.length :: (pay ++ buffer.drop (3 + pay.length)))
              (c + 1 + (len + 2 + 1)) ⟨dev', rest⟩) := by
  obtain ⟨dev1, T0, t1, t2, t3, t4, heq⟩ := load_step_type_ev lower hw hr chipdata fuel buffer
    c t lo hi len dev 0x04 (code :: pay.length :: (pay ++ rest)) h0 ht h1 h2 h3 hin
    (by omega) hf
  rw [if_pos rfl] at heq
  obtain ⟨Q2, hQ2⟩ : ∃ Q2, Q2 = cc2564_recv lower .buffer fuel (0x04 :: buffer.drop 1) 1 2
    ⟨dev1, code :: pay.length :: (pay ++ rest)⟩ := ⟨_, rfl⟩
  have S2 := cc2564_recv_ok lower hr .buffer fuel (0x04 :: buffer.drop 1) 1 2
    ⟨dev1, code :: pay.length :: (pay ++ rest)⟩
    (by simp only [List.length_cons, List.length_drop]; omega) (by simp) (by omega)
  have L2 := (cc2564_recv_chunks lower hr .buffer fuel (0x04 :: buffer.drop 1) 1 2
    ⟨dev1, code :: pay.length :: (pay ++ rest)⟩
    (by simp only [List.length_cons, List.length_drop]; omega) (by simp) (by omega)).1
  simp only [Nat.cast_one, Nat.cast_ofNat] at S2 L2
  rw [← hQ2] at S2 L2
  obtain ⟨a1, a2, a3, a4, a5⟩ := S2
  simp only [List.take_succ_cons, List.take_zero, List.drop_succ_cons, List.drop_zero,
    List.nil_append, List.cons_append, List.drop_drop, List.singleton_append] at a1 a2 a3
  obtain ⟨Q3, hQ3⟩ : ∃ Q3, Q3 = cc2564_recv lower .buffer fuel
    (0x04 :: code :: pay.length :: buffer.drop 3) 3 ((pay.length : Nat) : Int) Q2.st :=
    ⟨_, rfl⟩
  have S3 := cc2564_recv_ok lower hr .buffer fuel
    (0x04 :: code :: pay.length :: buffer.drop 3) 3 pay.length Q2.st
    (by simp only [List.length_cons, List.length_drop]; omega) (by rw [a2]; simp) hf2
  have L3 := (cc2564_recv_chunks lower hr .buffer fuel
    (0x04 :: code :: pay.length :: buffer.drop 3) 3 pay.length Q2.st
    (by simp only [List.length_cons, List.length_drop]; omega) (by rw [a2]; simp) hf2).1
  simp only [Nat.cast_ofNat] at S3 L3
  rw [← hQ3] at S3 L3
  obtain ⟨b1, b2, b3, b4, b5⟩ := S3
  rw [a2] at b1 b2 b3
  simp only [List.take_succ_cons, List.take_zero, List.drop_succ_cons, List.drop_zero,
    List.nil_append, List.cons_append, List.drop_drop, List.take_left', List.drop_left',
    List.append_assoc] at b1 b2 b3
  refine ⟨Q3.st.dev, T0, Q2.trace, Q3.trace, t1, t2, t3, t4, L2, L3, a4, a3, ?_, b4, ?_, ?_, ?_⟩
  · simpa using a5
  · simpa using b3
  · simpa using b5
  · rw [heq, ← hQ2, andThen_of_ok a1]
    simp only [List.getD_cons_succ, List.getD_cons_zero]
    rw [← hQ3, andThen_of_ok b1]
    have e1 : List.drop (3 + pay.length) (4 :: code :: pay.length :: List.drop 3 buffer)
        = List.drop (3 + pay.length) buffer := by
      have hd : ∀ (k : Nat) (x y z : Nat) (X : List Nat),
          List.drop (3 + k) (x :: y :: z :: X) = List.drop k X := by
        intro k x y z X
        rw [Nat.add_comm]
        rfl
      rw [hd, List.drop_drop]
    have e2 : Q3.st = ⟨Q3.st.dev, rest⟩ := by rw [← b2]
    rw [e1, ← e2]
    simp only [after_after, List.append_assoc]

/-- The run of `load_loop_records`, with the image reads it makes. -/
theorem load_loop_records_ev {σ : Type} (lower : btuart_lowerhalf_s σ) (hw : WriteOK lower)
    (hr : ReadOK lower) (tail rest : List Nat) (fuel : Nat) :
    ∀ (recs : List Record) (evs : List Response) (pre : List Nat) (buffer : List Nat)
      (dev : σ),
      recs.length = evs.length → (∀ r ∈ recs, r.t ≠ 0) →
      (∀ e ∈ evs, 3 + e.payload.length ≤ 32) → buffer.length = 32 →
      (∀ r ∈ recs, r.payload.length + 2 + 1 ≤ fuel) → 29 ≤ fuel →
      ∃ dev' buffer' T, txBytes T = recordFrames recs ∧ rxBytes T = responseBytes evs ∧
        derefs T ++ [pre.length + (recordBytes recs).length] = recordDerefs pre.length recs ∧
        (∀ e ∈ T, e.within (pre.length + (recordBytes recs).length)) ∧
        buffer'.length = 32 ∧
        cc2564_load_loop lower (pre ++ recordBytes recs ++ tail) (recs.length + fuel) buffer
            pre.length ⟨dev, responseBytes evs ++ rest⟩
          = Run.after T (cc2564_load_loop lower (pre ++ recordBytes recs ++ tail) fuel
              buffer' (pre.length + (recordBytes recs).length) ⟨dev', rest⟩) := by
  intro recs
  induction recs with
  | nil =>
    intro evs pre buffer dev hlen _ _ hb _ _
    cases evs with
    | cons e es => cases hlen
    | nil =>
      refine ⟨dev, buffer, [], rfl, rfl, ?_, ?_, hb, ?_⟩
      · simp [derefs, recordDerefs, recordBytes]
      · intro e he
        cases he
      · simp [recordBytes, responseBytes, Run.after]
  | cons r rs ih =>
    intro evs pre buffer dev hlen ht hfit hb hfl hf29
    cases evs with
    | nil => cases hlen
    | cons e es =>
      have hchip : pre ++ recordBytes (r :: rs) ++ tail
          = pre ++ r.t :: r.lo :: r.hi :: r.payload.length ::
              (r.payload ++ (recordBytes rs ++ tail)) := by
        simp [recordBytes, Record.bytes]
      have hchip2 : pre ++ recordBytes (r :: rs) ++ tail
          = (pre ++ r.bytes) ++ recordBytes rs ++ tail := by
        simp [recordBytes]
      have hrb : (recordBytes (r :: rs)).length
          = r.payload.length + 4 + (recordBytes rs).length := by
        simp [recordBytes, Record.bytes]
        omega
      have hwire : responseBytes (e :: es) ++ rest
          = 0x04 :: e.code :: e.payload.length :: (e.payload ++ (responseBytes es ++ rest)) := by
        simp [responseBytes, Response.bytes]
      obtain ⟨g0, g1, g2, g3⟩ := getElem?_record pre r.t r.lo r.hi r.payload.length
        (r.payload ++ (recordBytes rs ++ tail))
      rw [← hchip] at g0 g1 g2 g3
      have hfr : rs.length + fuel ≥ r.payload.length + 2 + 1 :=
        Nat.le_trans (hfl r (List.mem_cons_self _ _)) (Nat.le_add_left _ _)
      have hfe : 3 + e.payload.length ≤ 32 := hfit e (List.mem_cons_self _ _)
      obtain ⟨dev1, T0, T2, T3, s1, s2, s3, sd, _, _, s4, s5, s6, s7, s8, s9, heq⟩ :=
        load_step_ack_ev lower hw hr (pre ++ recordBytes (r :: rs) ++ tail) (rs.length + fuel)
          buffer pre.length r.t r.lo r.hi r.payload.length dev e.code e.payload
          (responseBytes es ++ rest) g0 (ht r (List.mem_cons_self _ _)) g1 g2 g3
          (by rw [hchip]; simp; omega) hb hfe hfr (by omega)
      obtain ⟨dev2, buffer2, T, u1, u2, ud, u3, u4, ueq⟩ := ih es (pre ++ r.bytes)
        (0x04 :: e.code :: e.payload.length :: (e.payload ++ buffer.drop (3 + e.payload.length)))
        dev1 (by simpa using hlen) (fun x hx => ht x (List.mem_cons_of_mem _ hx))
        (fun x hx => hfit x (List.mem_cons_of_mem _ hx))
        (by simp only [List.length_cons, List.length_append, List.length_drop]; omega)
        (fun x hx => hfl x (List.mem_cons_of_mem _ hx)) hf29
      have hcur : pre.length + 1 + (r.payload.length + 2 + 1) = (pre ++ r.bytes).length := by
        simp [Record.bytes]
        omega
      have hend : (pre ++ r.bytes).length + (recordBytes rs).length
          = pre.length + (recordBytes (r :: rs)).length := by
        rw [hrb]
        simp [Record.bytes]
        omega
      refine ⟨dev2, buffer2, (T0 ++ [.read .buffer 0 1 1 [0x04]] ++ T2 ++ T3) ++ T,
        ?_, ?_, ?_, ?_, u4, ?_⟩
      · rw [txBytes_append, txBytes_append, txBytes_append, txBytes_append, s1, s4, s7, u1,
          hchip, take_drop_record]
        simp [txBytes, recordFrames, Record.frame]
      · rw [rxBytes_append, rxBytes_append, rxBytes_append, rxBytes_append, s2, s5, s8, u2]
        simp [rxBytes, responseBytes, Response.bytes]
      · rw [derefs_append, derefs_append, derefs_append, derefs_append, sd,
          derefs_of_isReadIn s6, derefs_of_isReadIn s9, ← hend, List.append_assoc, ud]
        simp only [recordDerefs, derefs, List.append_nil, ← hcur]
        have hoff : pre.length + 1 + (r.payload.length + 2 + 1)
            = pre.length + (r.payload.length + 4) := by omega
        rw [hoff]
      · intro x hx
        simp only [List.append_assoc, List.mem_append, List.mem_cons, List.mem_singleton,
          List.not_mem_nil, or_false] at hx
        rcases hx with hx | rfl | hx | hx | hx
        · exact within_mono (s3 x hx) (by rw [hrb]; omega)
        · exact trivial
        · exact within_of_isReadIn _ (s6 x hx)
        · exact within_of_isReadIn _ (s9 x hx)
        · rw [← hend]
          exact u3 x hx
      · have hfu : (r :: rs).length + fuel = rs.length + fuel + 1 := by
          simp only [List.length_cons]
          omega
        rw [← hchip2] at ueq
        rw [hfu, hwire, heq, hcur, ueq, after_after, hend]

/-- The run of `load_image_run`, with the image reads it makes. -/
theorem load_image_run_ev {σ : Type} (lower : btuart_lowerhalf_s σ) (hw : WriteOK lower)
    (hr : ReadOK lower) (recs : List Record) (evs : List Response) (post rest : List Nat)
    (fuel : Nat) (buffer : List Nat) (dev : σ) (hlen : recs.length = evs.length)
    (ht : ∀ r ∈ recs, r.t ≠ 0) (hfit : ∀ e ∈ evs, 3 + e.payload.length ≤ 32)
    (hb : buffer.length = 32) (hfuel : (recordBytes recs).length + 32 ≤ fuel) :
    ∃ dev' T, txBytes T = recordFrames recs ∧ rxBytes T = responseBytes evs ∧
      derefs T ++ [(recordBytes recs).length] = recordDerefs 0 recs ∧
      (∀ e ∈ T, e.within (recordBytes recs).length) ∧
      cc2564_load lower (recordBytes recs ++ 0 :: post) fuel buffer
          ⟨dev, responseBytes evs ++ rest⟩
        = ⟨⟨dev', rest⟩, T ++ [.deref (recordBytes recs).length], .ok 0⟩ := by
  have hl := length_le_recordBytes recs
  obtain ⟨f, hf⟩ : ∃ f, fuel = recs.length + (f + 1) := ⟨fuel - recs.length - 1, by omega⟩
  obtain ⟨dev', buffer', T, t1, t2, td, t3, _, heq⟩ := load_loop_records_ev lower hw hr (0 :: post)
    rest (f + 1) recs evs [] buffer dev hlen ht hfit hb
    (fun r h => by have := record_le_recordBytes recs r h; omega) (by omega)
  simp only [List.nil_append, List.length_nil, Nat.zero_add] at heq t3 td
  refine ⟨dev', T, t1, t2, td, t3, ?_⟩
  unfold cc2564_load
  have h0 : (recordBytes recs ++ 0 :: post)[(recordBytes recs).length]? = some 0 := by
    rw [List.getElem?_append_right (Nat.le_refl _)]
    simp
  rw [hf, heq, load_loop_terminator _ _ _ _ _ _ h0]
  rfl

/-! ## One step of the upload loop (C13, C15) -/

/-- The first thing the loop does, given fuel, is the terminator test at its cursor. -/
theorem cc2564_load_loop_head {σ : Type} (lower : btuart_lowerhalf_s σ) (chipdata : List Nat)
    (fuel : Nat) (buffer : List Nat) (d : Nat) (w : Wire σ) :
    (cc2564_load_loop lower chipdata (fuel + 1) buffer d w).trace.head? = some (.deref d) := by
  rw [cc2564_load_loop]
  cases hget : chipdata[d]? with
  | none =>
    have hd : deref chipdata d w = ⟨w, [.deref d], .undef⟩ := by
      unfold deref
      rw [hget]
    rw [hd]
    rfl
  | some t =>
    rw [deref_of_get hget, andThen_mk_ok]
    rfl

theorem getElem?_of_lt (l : List Nat) (i : Nat) (h : i < l.length) :
    l[i]? = some (l.getD i 0) := by
  simp [List.getD, List.getElem?_eq_getElem h]

/-- C13 (counterexample): on the image `[1,0,0,2,9,9,0,0]` with the cursor at 0, the claim
gives `L = image[2] + 3 = 3`, the bytes `0x01` then `image[0..2] = [1,0,0]`, and the next
terminator test at 3.  The code reads the length at `image[3]`, so `L = 5`; it writes
`0x01` and then `image[1..5] = [0,0,2,9,9]`; and its next terminator test, the last
read of the run, is at 6. -/
theorem upload_step_counterexample :
    (cc2564_load lower_whole [1, 0, 0, 2, 9, 9, 0, 0] 40 (List.replicate 32 0)
        ⟨(), [0x04, 0x0e, 0]⟩).trace
      = [.deref 0, .deref 2, .deref 1, .deref 3, .write .h4_cmd 0 1 1 [0x01],
         .write .chipdata 1 5 5 [0, 0, 2, 9, 9], .read .buffer 0 1 1 [0x04],
         .read .buffer 1 2 2 [0x0e, 0], .deref 6] ∧
    txBytes (cc2564_load lower_whole [1, 0, 0, 2, 9, 9, 0, 0] 40 (List.replicate 32 0)
        ⟨(), [0x04, 0x0e, 0]⟩).trace
      ≠ 0x01 :: (([1, 0, 0, 2, 9, 9, 0, 0] : List Nat).drop 0).take
          (([1, 0, 0, 2, 9, 9, 0, 0] : List Nat).getD 2 0 + 3) ∧
    (derefs (cc2564_load lower_whole [1, 0, 0, 2, 9, 9, 0, 0] 40 (List.replicate 32 0)
        ⟨(), [0x04, 0x0e, 0]⟩).trace).getLast? = some 6 ∧
    (6 : Nat) ≠ 0 + (([1, 0, 0, 2, 9, 9, 0, 0] : List Nat).getD 2 0 + 3) := by
  decide

/-- C13 (amended): one step of the upload loop of `cc2564_load`, with the cursor `c` at
the byte tested for the terminator and `image[c] != 0`: the image reads of the step are
at `c`, `c+2`, `c+1` and `c+3`; the total record length is `L = image[c+3] + 3`; the
uploader writes the single byte `0x01` and then exactly the `L` bytes
`image[c+1 .. c+L]`; and after an acknowledged response the loop goes on at the cursor
`c + 1 + L`, where, given fuel, its next terminator test is made. -/
theorem upload_step {σ : Type} (lower : btuart_lowerhalf_s σ) (hw : WriteOK lower)
    (hr : ReadOK lower) (chipdata : List Nat) (fuel : Nat) (buffer : List Nat)
    (c t len : Nat) (dev : σ) (code : Nat) (pay rest : List Nat)
    (h0 : chipdata[c]? = some t) (ht : t ≠ 0) (h3 : chipdata[c + 3]? = some len)
    (hin : c + 1 + (len + 3) ≤ chipdata.length) (hb : buffer.length = 32)
    (hfit : 3 + pay.length ≤ 32) (hf : len + 3 ≤ fuel) (hf2 : pay.length ≤ fuel) :
    ∃ dev' T,
      cc2564_load_loop lower chipdata (fuel + 1) buffer c
          ⟨dev, 0x04 :: code :: pay.length :: (pay ++ rest)⟩
        = Run.after T (cc2564_load_loop lower chipdata fuel
            (0x04 :: code :: pay.length :: (pay ++ buffer.drop (3 + pay.length)))
            (c + 1 + (len + 3)) ⟨dev', rest⟩) ∧
      derefs T = [c, c + 2, c + 1, c + 3] ∧
      txBytes T = 0x01 :: (chipdata.drop (c + 1)).take (len + 3) ∧
      (∀ f, fuel = f + 1 →
        (cc2564_load_loop lower chipdata fuel
            (0x04 :: code :: pay.length :: (pay ++ buffer.drop (3 + pay.length)))
            (c + 1 + (len + 3)) ⟨dev', rest⟩).trace.head? = some (.deref (c + 1 + (len + 3)))) := by
  have h1 := getElem?_of_lt chipdata (c + 1) (by omega)
  have h2 := getElem?_of_lt chipdata (c + 1 + 1) (by omega)
  obtain ⟨dev', T0, T2, T3, s1, _, _, sd, _, _, s4, _, s6, s7, _, s9, heq⟩ :=
    load_step_ack_ev lower hw hr chipdata fuel buffer c t (chipdata.getD (c + 1) 0)
      (chipdata.getD (c + 1 + 1) 0) len dev code pay rest h0 ht h1 h2 h3 hin hb hfit hf hf2
  refine ⟨dev', T0 ++ [.read .buffer 0 1 1 [0x04]] ++ T2 ++ T3, heq, ?_, ?_, ?_⟩
  · rw [derefs_append, derefs_append, derefs_append, sd, derefs_of_isReadIn s6,
      derefs_of_isReadIn s9]
    rfl
  · rw [txBytes_append, txBytes_append, txBytes_append, s1, s4, s7]
    simp [txBytes]
  · intro f hfe
    subst hfe
    exact cc2564_load_loop_head lower chipdata f _ _ _

/-- C13 (witness): the step at cursor 0 of the image `[1,0,0,2,9,9,0,0]`. -/
theorem upload_step_witness :
    ∃ dev' T,
      cc2564_load_loop lower_one_byte [1, 0, 0, 2, 9, 9, 0, 0] (7 + 1) (List.replicate 32 0) 0
          ⟨(), 0x04 :: 0x0e :: ([] : List Nat).length :: ([] ++ [])⟩
        = Run.after T (cc2564_load_loop lower_one_byte [1, 0, 0, 2, 9, 9, 0, 0] 7
            (0x04 :: 0x0e :: ([] : List Nat).length ::
              ([] ++ (List.replicate 32 0).drop (3 + ([] : List Nat).length)))
            (0 + 1 + (2 + 3)) ⟨dev', []⟩) ∧
      derefs T = [0, 0 + 2, 0 + 1, 0 + 3] ∧
      txBytes T = 0x01 :: (([1, 0, 0, 2, 9, 9, 0, 0] : List Nat).drop (0 + 1)).take (2 + 3) ∧
      (∀ f, 7 = f + 1 →
        (cc2564_load_loop lower_one_byte [1, 0, 0, 2, 9, 9, 0, 0] 7
            (0x04 :: 0x0e :: ([] : List Nat).length ::
              ([] ++ (List.replicate 32 0).drop (3 + ([] : List Nat).length)))
            (0 + 1 + (2 + 3)) ⟨dev', []⟩).trace.head? = some (.deref (0 + 1 + (2 + 3)))) :=
  upload_step lower_one_byte lower_one_byte_writeOK lower_one_byte_readOK
    [1, 0, 0, 2, 9, 9, 0, 0] 7 (List.replicate 32 0) 0 1 2 () 0x0e [] [] rfl (by decide) rfl
    (by decide) (by decide) (by decide) (by decide) (by decide)

/-- C15: for a record whose response begins with the type byte `0x04` and declares a
`response_length` `r` with `3 + r <= 32`, `cc2564_load` reads nothing before the type
byte, then consumes exactly the `3 + r` bytes of the event frame: the type byte in one
`read` call at `buffer[0]`, the two bytes `event_code`, `response_length` in `read`
calls on `buffer[1..2]`, and the `r` payload bytes in `read` calls on `buffer[3..3+r-1]`
(no call when `r = 0`); the buffer then holds the frame, and the loop goes on with the
wire at the byte right after the frame. -/
theorem response_consumed {σ : Type} (lower : btuart_lowerhalf_s σ) (hw : WriteOK lower)
    (hr : ReadOK lower) (chipdata : List Nat) (fuel : Nat) (buffer : List Nat)
    (c t len : Nat) (dev : σ) (code : Nat) (pay rest : List Nat)
    (h0 : chipdata[c]? = some t) (ht : t ≠ 0) (h3 : chipdata[c + 3]? = some len)
    (hin : c + 1 + (len + 3) ≤ chipdata.length) (hb : buffer.length = 32)
    (hfit : 3 + pay.length ≤ 32) (hf : len + 3 ≤ fuel) (hf2 : pay.length ≤ fuel) :
    ∃ dev' T0 T2 T3,
      cc2564_load_loop lower chipdata (fuel + 1) buffer c
          ⟨dev, 0x04 :: code :: pay.length :: (pay ++ rest)⟩
        = Run.after (T0 ++ [.read .buffer 0 1 1 [0x04]] ++ T2 ++ T3)
            (cc2564_load_loop lower chipdata fuel
              (0x04 :: code :: pay.length :: (pay ++ buffer.drop (3 + pay.length)))
              (c + 1 + (len + 3)) ⟨dev', rest⟩) ∧
      rxBytes T0 = [] ∧
      rxBytes T2 = [code, pay.length] ∧ (∀ e ∈ T2, e.isReadIn .buffer 1 3) ∧
      rxBytes T3 = pay ∧ (∀ e ∈ T3, e.isReadIn .buffer 3 (3 + pay.length)) ∧
      (pay = [] → T3 = []) ∧
      rxBytes (T0 ++ [.read .buffer 0 1 1 [0x04]] ++ T2 ++ T3)
        = 0x04 :: code :: pay.length :: pay ∧
      (rxBytes (T0 ++ [.read .buffer 0 1 1 [0x04]] ++ T2 ++ T3)).length = 3 + pay.length := by
  have h1 := getElem?_of_lt chipdata (c + 1) (by omega)
  have h2 := getElem?_of_lt chipdata (c + 1 + 1) (by omega)
  obtain ⟨dev', T0, T2, T3, _, s2, _, _, _, l3, _, s5, s6, _, s8, s9, heq⟩ :=
    load_step_ack_ev lower hw hr chipdata fuel buffer c t (chipdata.getD (c + 1) 0)
      (chipdata.getD (c + 1 + 1) 0) len dev code pay rest h0 ht h1 h2 h3 hin hb hfit hf hf2
  have hrx : rxBytes (T0 ++ [.read .buffer 0 1 1 [0x04]] ++ T2 ++ T3)
      = 0x04 :: code :: pay.length :: pay := by
    rw [rxBytes_append, rxBytes_append, rxBytes_append, s2, s5, s8]
    simp [rxBytes]
  refine ⟨dev', T0, T2, T3, heq, s2, s5, s6, s8, s9, ?_, hrx, ?_⟩
  · intro hp
    rw [hp] at l3
    exact List.length_eq_zero.1 (Nat.le_zero.1 l3)
  · rw [hrx]
    simp only [List.length_cons]
    omega

/-- C15 (witness): a response with two payload bytes, one byte per call. -/
theorem response_consumed_witness :
    ∃ dev' T0 T2 T3,
      cc2564_load_loop lower_one_byte [1, 0, 0, 2, 9, 9, 0, 0] (7 + 1) (List.replicate 32 0) 0
          ⟨(), 0x04 :: 0x0e :: [5, 6].length :: ([5, 6] ++ [0x04])⟩
        = Run.after (T0 ++ [.read .buffer 0 1 1 [0x04]] ++ T2 ++ T3)
            (cc2564_load_loop lower_one_byte [1, 0, 0, 2, 9, 9, 0, 0] 7
              (0x04 :: 0x0e :: [5, 6].length ::
                ([5, 6] ++ (List.replicate 32 0).drop (3 + [5, 6].length)))
              (0 + 1 + (2 + 3)) ⟨dev', [0x04]⟩) ∧
      rxBytes T0 = [] ∧
      rxBytes T2 = [0x0e, [5, 6].length] ∧ (∀ e ∈ T2, e.isReadIn .buffer 1 3) ∧
      rxBytes T3 = [5, 6] ∧ (∀ e ∈ T3, e.isReadIn .buffer 3 (3 + [5, 6].length)) ∧
      (([5, 6] : List Nat) = [] → T3 = []) ∧
      rxBytes (T0 ++ [.read .buffer 0 1 1 [0x04]] ++ T2 ++ T3)
        = 0x04 :: 0x0e :: [5, 6].length :: [5, 6] ∧
      (rxBytes (T0 ++ [.read .buffer 0 1 1 [0x04]] ++ T2 ++ T3)).length = 3 + [5, 6].length :=
  response_consumed lower_one_byte lower_one_byte_writeOK lower_one_byte_readOK
    [1, 0, 0, 2, 9, 9, 0, 0] 7 (List.replicate 32 0) 0 1 2 () 0x0e [5, 6] [0x04] rfl
    (by decide) rfl (by decide) (by decide) (by decide) (by decide) (by decide)

/-! ## The layout the code decodes (C17) -/

/-- C17: for every image that is a concatenation of records
`[t][opcode_lo][opcode_hi][len][payload of len bytes]` with `t != 0`, followed by one
`0x00` byte, and every well-behaved transport that acknowledges each command with a
`0x04` event frame fitting the buffer, `cc2564_load` given enough fuel returns 0; writes,
for each record in order, the byte `0x01` followed by the `len + 3` bytes that follow
`t`, and nothing else (`t` is never sent); makes its terminator tests at the first byte
of each record and at the final `0x00`, each `len + 4` bytes after the one before, with
the opcode and length reads of each record between them; consumes the event frames and
no more; and reads no image byte beyond the final `0x00`. -/
theorem cc2564_load_code_layout {σ : Type} (lower : btuart_lowerhalf_s σ)
    (hw : WriteOK lower) (hr : ReadOK lower) (recs : List Record) (evs : List Response)
    (rest : List Nat) (fuel : Nat) (buffer : List Nat) (dev : σ)
    (hlen : recs.length = evs.length) (ht : ∀ r ∈ recs, r.t ≠ 0)
    (hfit : ∀ e ∈ evs, 3 + e.payload.length ≤ 32) (hb : buffer.length = 32)
    (hfuel : (recordBytes recs).length + 32 ≤ fuel) :
    (cc2564_load lower (recordBytes recs ++ [0]) fuel buffer
      ⟨dev, responseBytes evs ++ rest⟩).out = .ok 0 ∧
    txBytes (cc2564_load lower (recordBytes recs ++ [0]) fuel buffer
      ⟨dev, responseBytes evs ++ rest⟩).trace = recordFrames recs ∧
    derefs (cc2564_load lower (recordBytes recs ++ [0]) fuel buffer
      ⟨dev, responseBytes evs ++ rest⟩).trace = recordDerefs 0 recs ∧
    rxBytes (cc2564_load lower (recordBytes recs ++ [0]) fuel buffer
      ⟨dev, responseBytes evs ++ rest⟩).trace = responseBytes evs ∧
    (cc2564_load lower (recordBytes recs ++ [0]) fuel buffer
      ⟨dev, responseBytes evs ++ rest⟩).st.rx = rest ∧
    ∀ e ∈ (cc2564_load lower (recordBytes recs ++ [0]) fuel buffer
      ⟨dev, responseBytes evs ++ rest⟩).trace, e.within ((recordBytes recs).length + 1) := by
  obtain ⟨dev', T, t1, t2, td, t3, heq⟩ := load_image_run_ev lower hw hr recs evs [] rest
    fuel buffer dev hlen ht hfit hb hfuel
  rw [heq]
  refine ⟨rfl, ?_, ?_, ?_, rfl, ?_⟩
  · simp [txBytes_append, txBytes, t1]
  · rw [derefs_append, ← td]
    rfl
  · simp [rxBytes_append, rxBytes, t2]
  · intro e he
    rcases List.mem_append.1 he with he | he
    · exact within_mono (t3 e he) (Nat.le_succ _)
    · rw [List.mem_singleton.1 he]
      exact Nat.lt_succ_self _

/-- C17 (witness): two records, the second with an empty payload, two bytes per call. -/
theorem cc2564_load_code_layout_witness :
    (cc2564_load lower_two_bytes
      (recordBytes [⟨1, 0x37, 0xff, [2, 0, 7]⟩, ⟨1, 0x03, 0x0c, []⟩] ++ [0]) 50
      (List.replicate 32 0)
      ⟨(), responseBytes [⟨0x0e, [1, 0x37, 0xff, 0]⟩, ⟨0x0e, []⟩] ++ [9]⟩).out = .ok 0 ∧
    txBytes (cc2564_load lower_two_bytes
      (recordBytes [⟨1, 0x37, 0xff, [2, 0, 7]⟩, ⟨1, 0x03, 0x0c, []⟩] ++ [0]) 50
      (List.replicate 32 0)
      ⟨(), responseBytes [⟨0x0e, [1, 0x37, 0xff, 0]⟩, ⟨0x0e, []⟩] ++ [9]⟩).trace
      = [0x01, 0x37, 0xff, 3, 2, 0, 7, 0x01, 0x03, 0x0c, 0] ∧
    derefs (cc2564_load lower_two_bytes
      (recordBytes [⟨1, 0x37, 0xff, [2, 0, 7]⟩, ⟨1, 0x03, 0x0c, []⟩] ++ [0]) 50
      (List.replicate 32 0)
      ⟨(), responseBytes [⟨0x0e, [1, 0x37, 0xff, 0]⟩, ⟨0x0e, []⟩] ++ [9]⟩).trace
      = [0, 2, 1, 3, 7, 9, 8, 10, 11] ∧
    rxBytes (cc2564_load lower_two_bytes
      (recordBytes [⟨1, 0x37, 0xff, [2, 0, 7]⟩, ⟨1, 0x03, 0x0c, []⟩] ++ [0]) 50
      (List.replicate 32 0)
      ⟨(), responseBytes [⟨0x0e, [1, 0x37, 0xff, 0]⟩, ⟨0x0e, []⟩] ++ [9]⟩).trace
      = [0x04, 0x0e, 4, 1, 0x37, 0xff, 0, 0x04, 0x0e, 0] ∧
    (cc2564_load lower_two_bytes
      (recordBytes [⟨1, 0x37, 0xff, [2, 0, 7]⟩, ⟨1, 0x03, 0x0c, []⟩] ++ [0]) 50
      (List.replicate 32 0)
      ⟨(), responseBytes [⟨0x0e, [1, 0x37, 0xff, 0]⟩, ⟨0x0e, []⟩] ++ [9]⟩).st.rx = [9] ∧
    ∀ e ∈ (cc2564_load lower_two_bytes
      (recordBytes [⟨1, 0x37, 0xff, [2, 0, 7]⟩, ⟨1, 0x03, 0x0c, []⟩] ++ [0]) 50
      (List.replicate 32 0)
      ⟨(), responseBytes [⟨0x0e, [1, 0x37, 0xff, 0]⟩, ⟨0x0e, []⟩] ++ [9]⟩).trace,
      e.within (11 + 1) :=
  cc2564_load_code_layout lower_two_bytes lower_two_bytes_writeOK lower_two_bytes_readOK
    [⟨1, 0x37, 0xff, [2, 0, 7]⟩, ⟨1, 0x03, 0x0c, []⟩] [⟨0x0e, [1, 0x37, 0xff, 0]⟩, ⟨0x0e, []⟩]
    [9] 50 (List.replicate 32 0) () rfl (by decide) (by decide) (by decide) (by decide)

/-! ## The acknowledgement check looks at the type byte only (C16) -/

theorem runSim_out {σ α : Type} {Q : α → Wire σ → α → Wire σ → Prop} {r1 r2 : Run σ α}
    (h : RunSim Q r1 r2) (hQ : ∀ a1 s1 a2 s2, Q a1 s1 a2 s2 → a1 = a2) :
    r1.out = r2.out := by
  obtain ⟨_, h⟩ := h
  cases h1 : r1.out <;> cases h2 : r2.out <;> rw [h1, h2] at h <;>
    first
    | rfl
    | exact h.elim
    | exact congrArg _ (hQ _ _ _ _ h)

theorem andThen_sim {σ α β : Type} {Q : α → Wire σ → α → Wire σ → Prop}
    {Q' : β → Wire σ → β → Wire σ → Prop} {r1 r2 : Run σ α}
    {f1 f2 : α → Wire σ → Run σ β} (h : RunSim Q r1 r2)
    (hf : ∀ a1 s1 a2 s2, Q a1 s1 a2 s2 → RunSim Q' (f1 a1 s1) (f2 a2 s2)) :
    RunSim Q' (r1.andThen f1) (r2.andThen f2) := by
  obtain ⟨htx, h⟩ := h
  unfold Run.andThen
  cases h1 : r1.out <;> cases h2 : r2.out <;> rw [h1, h2] at h <;>
    first
    | exact h.elim
    | exact ⟨htx, trivial⟩
    | skip
  rename_i a1 a2
  obtain ⟨k1, k2⟩ := hf a1 r1.st a2 r2.st h
  exact ⟨by simp only [Run.after, txBytes_append, htx, k1], k2⟩

theorem runSim_ok {σ α : Type} (Q : α → Wire σ → α → Wire σ → Prop) (w1 w2 : Wire σ)
    (t1 t2 : List Event) (a1 a2 : α) (htx : txBytes t1 = txBytes t2) (h : Q a1 w1 a2 w2) :
    RunSim Q ⟨w1, t1, .ok a1⟩ ⟨w2, t2, .ok a2⟩ :=
  ⟨htx, h⟩

/-- A read of an image byte does the same in two runs, whatever their wires. -/
theorem deref_sim {σ : Type} (chipdata : List Nat) (idx : Nat) (w1 w2 : Wire σ) :
    RunSim (fun a1 s1 a2 s2 => a1 = a2 ∧ s1 = w1 ∧ s2 = w2)
      (deref chipdata idx w1) (deref chipdata idx w2) := by
  unfold deref
  cases chipdata[idx]? with
  | none => exact ⟨rfl, trivial⟩
  | some b => exact ⟨rfl, rfl, rfl, rfl⟩

/-- A send does the same in two runs that start with the lower half in the same state,
whatever their wires, and leaves the wires as they were. -/
theorem cc2564_send_sim {σ : Type} (lower : btuart_lowerhalf_s σ) (obj : Obj)
    (buf : List Nat) (rx1 rx2 : List Nat) :
    ∀ (fuel : Nat) (ptr count : Int) (d : σ),
      RunSim (fun _ s1 _ s2 => ∃ d', s1 = ⟨d', rx1⟩ ∧ s2 = ⟨d', rx2⟩)
        (cc2564_send lower obj buf fuel ptr count ⟨d, rx1⟩)
        (cc2564_send lower obj buf fuel ptr count ⟨d, rx2⟩) := by
  intro fuel
  induction fuel with
  | zero =>
    intro ptr count d
    by_cases hc : 0 < count
    · simp only [cc2564_send, if_pos hc]
      exact ⟨rfl, trivial⟩
    · simp only [cc2564_send, if_neg hc]
      exact ⟨rfl, d, rfl, rfl⟩
  | succ fuel ih =>
    intro ptr count d
    by_cases hc : 0 < count
    · simp only [cc2564_send, if_pos hc]
      cases hf : fetch buf ptr (lower.write d ptr count).2 with
      | none => exact ⟨rfl, trivial⟩
      | some bytes =>
        obtain ⟨k1, k2⟩ := ih (ptr + (lower.write d ptr count).2)
          (count - (lower.write d ptr count).2) (lower.write d ptr count).1
        exact ⟨by simp only [txBytes, k1], k2⟩
    · simp only [cc2564_send, if_neg hc]
      exact ⟨rfl, d, rfl, rfl⟩

theorem outSim_mono {σ α : Type} {Q Q' : α → Wire σ → α → Wire σ → Prop}
    (hQ : ∀ a1 s1 a2 s2, Q a1 s1 a2 s2 → Q' a1 s1 a2 s2) {o1 o2 : Outcome α}
    {s1 s2 : Wire σ} (h : OutSim Q o1 s1 o2 s2) : OutSim Q' o1 s1 o2 s2 := by
  cases o1 <;> cases o2 <;>
    first
    | exact hQ _ _ _ _ h
    | exact h

theorem splice_splice (buf rx : List Nat) (p m c : Nat) (hm : m ≤ c)
    (hp : p + c ≤ buf.length) (hrx : c ≤ rx.length) :
    (buf.take p ++ rx.take m ++ buf.drop (p + m)).take (p + m) ++ (rx.drop m).take (c - m) ++
        (buf.take p ++ rx.take m ++ buf.drop (p + m)).drop (p + m + (c - m))
      = buf.take p ++ rx.take c ++ buf.drop (p + c) := by
  have hlen : (rx.take m).length = m := by
    rw [List.length_take]
    omega
  have hpl : (buf.take p).length = p := by
    rw [List.length_take]
    omega
  have hcm : c = m + (c - m) := by omega
  rw [take_splice _ _ _ _ (by rw [hpl, hlen]), drop_splice _ _ _ _ _ (by rw [hpl, hlen])]
  conv_rhs => rw [hcm, List.take_add]
  simp only [List.drop_drop, List.append_assoc, List.append_cancel_left_eq]
  rw [Nat.add_assoc]

/-- A receive of `c` bytes does the same in two runs that start with the lower half in
the same state and buffers of the same size, when both wires carry `c` bytes: the calls
are the same, and each run stores the first `c` bytes of its own wire. -/
theorem cc2564_recv_sim {σ : Type} (lower : btuart_lowerhalf_s σ) (hr : ReadOK lower)
    (obj : Obj) :
    ∀ (fuel : Nat) (buf1 buf2 : List Nat) (p c : Nat) (d : σ) (rx1 rx2 : List Nat),
      buf1.length = buf2.length → p + c ≤ buf1.length → c ≤ rx1.length → c ≤ rx2.length →
      RunSim (fun b1 s1 b2 s2 => ∃ d', s1 = ⟨d', rx1.drop c⟩ ∧ s2 = ⟨d', rx2.drop c⟩ ∧
          b1 = buf1.take p ++ rx1.take c ++ buf1.drop (p + c) ∧
          b2 = buf2.take p ++ rx2.take c ++ buf2.drop (p + c))
        (cc2564_recv lower obj fuel buf1 p c ⟨d, rx1⟩)
        (cc2564_recv lower obj fuel buf2 p c ⟨d, rx2⟩) := by
  intro fuel
  induction fuel with
  | zero =>
    intro buf1 buf2 p c d rx1 rx2 _ _ _ _
    by_cases hc0 : c = 0
    · subst hc0
      simp only [cc2564_recv, Nat.cast_zero, lt_self_iff_false, if_false]
      exact ⟨rfl, d, by simp, by simp, by simp, by simp⟩
    · have hpos : (0 : Int) < (c : Int) := by omega
      simp only [cc2564_recv, if_pos hpos]
      exact ⟨rfl, trivial⟩
  | succ fuel ih =>
    intro buf1 buf2 p c d rx1 rx2 hbl hp hrx1 hrx2
    by_cases hc0 : c = 0
    · subst hc0
      simp only [cc2564_recv, Nat.cast_zero, lt_self_iff_false, if_false]
      exact ⟨rfl, d, by simp, by simp, by simp, by simp⟩
    · have hpos : (0 : Int) < (c : Int) := by omega
      obtain ⟨h1, h2⟩ := hr d p c hpos
      obtain ⟨m, hm⟩ := Int.eq_ofNat_of_zero_le (by omega : 0 ≤ (lower.read d p c).2)
      have hm1 : 1 ≤ m := by omega
      have hm2 : m ≤ c := by omega
      have hlen1 : (rx1.take m).length = m := by
        rw [List.length_take]
        omega
      have hlen2 : (rx2.take m).length = m := by
        rw [List.length_take]
        omega
      have hs1 := store_inside buf1 p (rx1.take m) (by omega)
      have hs2 := store_inside buf2 p (rx2.take m) (by omega)
      rw [hlen1] at hs1
      rw [hlen2] at hs2
      have hnb1 : ¬ ((rx1.length : Int) < (m : Int)) := by omega
      have hnb2 : ¬ ((rx2.length : Int) < (m : Int)) := by omega
      have e1 : (p : Int) + (m : Int) = ((p + m : Nat) : Int) := by push_cast; ring
      have e2 : (c : Int) - (m : Int) = ((c - m : Nat) : Int) := by omega
      have hpl1 : (buf1.take p).length = p := by
        rw [List.length_take]
        omega
      have hpl2 : (buf2.take p).length = p := by
        rw [List.length_take]
        omega
      obtain ⟨k1, k2⟩ := ih (buf1.take p ++ rx1.take m ++ buf1.drop (p + m))
        (buf2.take p ++ rx2.take m ++ buf2.drop (p + m)) (p + m) (c - m)
        (lower.read d p c).1 (rx1.drop m) (rx2.drop m)
        (by simp only [List.length_append, List.length_drop, hlen1, hlen2, hpl1, hpl2]; omega)
        (by simp only [List.length_append, List.length_drop, hlen1, hpl1]; omega)
        (by simp only [List.length_drop]; omega) (by simp only [List.length_drop]; omega)
      simp only [cc2564_recv, if_pos hpos, hm, if_neg hnb1, if_neg hnb2, Int.toNat_ofNat,
        hs1, hs2, e1, e2]
      refine ⟨by simp only [txBytes, k1], outSim_mono ?_ k2⟩
      rintro b1 s1 b2 s2 ⟨d', rfl, rfl, rfl, rfl⟩
      refine ⟨d', ?_, ?_, splice_splice buf1 rx1 p m c hm2 hp hrx1,
        splice_splice buf2 rx2 p m c hm2 (by omega) hrx2⟩
      · simp only [List.drop_drop, Wire.mk.injEq, true_and]
        congr 1
        omega
      · simp only [List.drop_drop, Wire.mk.injEq, true_and]
        congr 1
        omega

/-- A receive from an exhausted wire does the same in two runs: it never returns. -/
theorem cc2564_recv_empty_sim {σ : Type} (lower : btuart_lowerhalf_s σ) (hr : ReadOK lower)
    (obj : Obj) (Q : List Nat → Wire σ → List Nat → Wire σ → Prop) (fuel : Nat)
    (buf1 buf2 : List Nat) (p c : Int) (d : σ) (hc : 0 < c) :
    RunSim Q (cc2564_recv lower obj fuel buf1 p c ⟨d, []⟩)
      (cc2564_recv lower obj fuel buf2 p c ⟨d, []⟩) := by
  cases fuel with
  | zero =>
    simp only [cc2564_recv, if_pos hc]
    exact ⟨rfl, trivial⟩
  | succ fuel =>
    have hb : ((([] : List Nat).length : Nat) : Int) < (lower.read d p c).2 := by
      have := (hr d p c hc).1
      simp only [List.length_nil, Nat.cast_zero]
      omega
    simp only [cc2564_recv, if_pos hc, if_pos hb]
    exact ⟨rfl, trivial⟩

/-- The upload loop does the same in two runs over wires that agree on the type bytes
and the response lengths: same bytes written, same way of ending, same value returned. -/
theorem cc2564_load_loop_sim {σ : Type} (lower : btuart_lowerhalf_s σ) (hr : ReadOK lower)
    (chipdata : List Nat) :
    ∀ (fuel : Nat) (buf1 buf2 : List Nat) (data : Nat) (d : σ) (rx1 rx2 : List Nat),
      buf1.length = 32 → buf2.length = 32 → WireSim rx1 rx2 →
      RunSim (fun a1 _ a2 _ => a1 = a2)
        (cc2564_load_loop lower chipdata fuel buf1 data ⟨d, rx1⟩)
        (cc2564_load_loop lower chipdata fuel buf2 data ⟨d, rx2⟩) := by
  intro fuel
  induction fuel with
  | zero =>
    intro buf1 buf2 data d rx1 rx2 _ _ _
    exact ⟨rfl, trivial⟩
  | succ fuel ih =>
    intro buf1 buf2 data d rx1 rx2 hb1 hb2 hsim
    rw [cc2564_load_loop, cc2564_load_loop]
    refine andThen_sim (deref_sim chipdata data _ _) ?_
    rintro t _ _ _ ⟨rfl, rfl, rfl⟩
    by_cases ht : t = 0
    · simp only [if_pos ht]
      exact runSim_ok _ _ _ _ _ _ _ rfl rfl
    · simp only [if_neg ht]
      refine andThen_sim (deref_sim chipdata _ _ _) ?_
      rintro _ _ _ _ ⟨rfl, rfl, rfl⟩
      refine andThen_sim (deref_sim chipdata _ _ _) ?_
      rintro _ _ _ _ ⟨rfl, rfl, rfl⟩
      refine andThen_sim (deref_sim chipdata _ _ _) ?_
      rintro len _ _ _ ⟨rfl, rfl, rfl⟩
      refine andThen_sim (cc2564_send_sim lower .h4_cmd [0x01] rx1 rx2 fuel 0 1 d) ?_
      rintro _ _ _ _ ⟨d1, rfl, rfl⟩
      refine andThen_sim (cc2564_send_sim lower .chipdata chipdata rx1 rx2 fuel _ _ d1) ?_
      rintro _ _ _ _ ⟨d2, rfl, rfl⟩
      cases hsim with
      | done =>
        refine andThen_sim (cc2564_recv_empty_sim lower hr .buffer (fun _ _ _ _ => False) fuel
          buf1 buf2 0 1 d2 (by decide)) ?_
        intro _ _ _ _ hF
        exact hF.elim
      | wrong t r1 r2 ht4 =>
        have R1 := cc2564_recv_sim lower hr .buffer fuel buf1 buf2 0 1 d2 (t :: r1) (t :: r2)
          (by omega) (by omega) (by simp) (by simp)
        simp only [Nat.cast_zero, Nat.cast_one] at R1
        refine andThen_sim R1 ?_
        rintro _ _ _ _ ⟨d3, rfl, rfl, rfl, rfl⟩
        have hne : ¬ (4 = t) := fun h => ht4 h.symm
        simp only [List.take_zero, List.nil_append, List.take_succ_cons, List.singleton_append,
          List.getD_cons_zero, if_neg hne]
        exact runSim_ok _ _ _ _ _ _ _ rfl rfl
      | frame c1 c2 p1 p2 r1 r2 hpl hfit hrest =>
        have R1 := cc2564_recv_sim lower hr .buffer fuel buf1 buf2 0 1 d2
          (0x04 :: c1 :: p1.length :: (p1 ++ r1)) (0x04 :: c2 :: p2.length :: (p2 ++ r2))
          (by omega) (by omega) (by simp) (by simp)
        simp only [Nat.cast_zero, Nat.cast_one] at R1
        refine andThen_sim R1 ?_
        rintro _ _ _ _ ⟨d3, rfl, rfl, rfl, rfl⟩
        simp only [List.take_zero, List.nil_append, List.take_succ_cons, List.singleton_append,
          List.getD_cons_zero, if_true, List.drop_succ_cons, List.drop_zero, Nat.zero_add]
        have R2 := cc2564_recv_sim lower hr .buffer fuel (0x04 :: buf1.drop 1)
          (0x04 :: buf2.drop 1) 1 2 d3
          (c1 :: p1.length :: (p1 ++ r1)) (c2 :: p2.length :: (p2 ++ r2))
          (by simp only [List.length_cons, List.length_drop]; omega)
          (by simp only [List.length_cons, List.length_drop]; omega) (by simp) (by simp)
        simp only [Nat.cast_one, Nat.cast_ofNat] at R2
        refine andThen_sim R2 ?_
        rintro _ _ _ _ ⟨d4, rfl, rfl, rfl, rfl⟩
        simp only [List.take_zero, List.nil_append, List.take_succ_cons, List.singleton_append,
          List.getD_cons_zero, List.getD_cons_succ, List.drop_succ_cons, List.drop_zero,
          List.cons_append, List.drop_drop]
        have R3 := cc2564_recv_sim lower hr .buffer fuel
          (0x04 :: c1 :: p1.length :: List.drop (1 + (1 + 1)) buf1)
          (0x04 :: c2 :: p2.length :: List.drop (1 + (1 + 1)) buf2) 3 p1.length d4
          (p1 ++ r1) (p2 ++ r2)
          (by simp only [List.length_cons, List.length_drop]; omega)
          (by simp only [List.length_cons, List.length_drop]; omega) (by simp)
          (by rw [hpl]; simp)
        simp only [Nat.cast_ofNat] at R3
        rw [← hpl] at R3 ⊢
        refine andThen_sim R3 ?_
        rintro _ _ _ _ ⟨d5, rfl, rfl, rfl, rfl⟩
        have hd1 : List.drop p1.length (p1 ++ r1) = r1 := List.drop_left' rfl
        have hd2 : List.drop p1.length (p2 ++ r2) = r2 := List.drop_left' hpl.symm
        rw [hd1, hd2]
        refine ih _ _ _ d5 r1 r2 ?_ ?_ hrest
        · simp only [List.length_append, List.length_take, List.length_cons, List.length_drop]
          omega
        · simp only [List.length_append, List.length_take, List.length_cons, List.length_drop]
          omega

/-- C16: for every image, every lower half whose `read` calls return between 1 and the
count asked for, and every two wires that agree, response by response, on the type byte
and on `response_length` (each response fitting the buffer) and differ arbitrarily in
`event_code` and payload bytes, the two runs of `cc2564_load`, whatever the initial
contents of their buffers and whatever the fuel, end the same way with the same result
and write the same byte stream to the transport. -/
theorem ack_depends_on_type_only {σ : Type} (lower : btuart_lowerhalf_s σ)
    (hr : ReadOK lower) (chipdata : List Nat) (fuel : Nat) (buffer1 buffer2 : List Nat)
    (dev : σ) (rx1 rx2 : List Nat) (hb1 : buffer1.length = 32) (hb2 : buffer2.length = 32)
    (hsim : WireSim rx1 rx2) :
    (cc2564_load lower chipdata fuel buffer1 ⟨dev, rx1⟩).out
      = (cc2564_load lower chipdata fuel buffer2 ⟨dev, rx2⟩).out ∧
    txBytes (cc2564_load lower chipdata fuel buffer1 ⟨dev, rx1⟩).trace
      = txBytes (cc2564_load lower chipdata fuel buffer2 ⟨dev, rx2⟩).trace := by
  have h := cc2564_load_loop_sim lower hr chipdata fuel buffer1 buffer2 0 dev rx1 rx2 hb1 hb2
    hsim
  exact ⟨runSim_out h (fun _ _ _ _ hq => hq), h.1⟩

/-- C16 (witness): two records; the first is acknowledged with frames that differ in the
event code and the two payload bytes, the second is answered with the type byte `0x02`
and bytes that differ: both runs send both command frames and return `-EIO`. -/
theorem ack_depends_on_type_only_witness :
    (cc2564_load lower_two_bytes
        (recordBytes [⟨1, 0x37, 0xff, [2, 0, 7]⟩, ⟨1, 0x03, 0x0c, []⟩] ++ [0]) 50
        (List.replicate 32 0) ⟨(), [0x04, 0x0e, 2, 5, 6, 0x02, 0]⟩).out
      = (cc2564_load lower_two_bytes
        (recordBytes [⟨1, 0x37, 0xff, [2, 0, 7]⟩, ⟨1, 0x03, 0x0c, []⟩] ++ [0]) 50
        (List.replicate 32 0xff) ⟨(), [0x04, 0x0f, 2, 9, 9, 0x02, 7, 7]⟩).out ∧
    txBytes (cc2564_load lower_two_bytes
        (recordBytes [⟨1, 0x37, 0xff, [2, 0, 7]⟩, ⟨1, 0x03, 0x0c, []⟩] ++ [0]) 50
        (List.replicate 32 0) ⟨(), [0x04, 0x0e, 2, 5, 6, 0x02, 0]⟩).trace
      = txBytes (cc2564_load lower_two_bytes
        (recordBytes [⟨1, 0x37, 0xff, [2, 0, 7]⟩, ⟨1, 0x03, 0x0c, []⟩] ++ [0]) 50
        (List.replicate 32 0xff) ⟨(), [0x04, 0x0f, 2, 9, 9, 0x02, 7, 7]⟩).trace :=
  ack_depends_on_type_only lower_two_bytes lower_two_bytes_readOK
    (recordBytes [⟨1, 0x37, 0xff, [2, 0, 7]⟩, ⟨1, 0x03, 0x0c, []⟩] ++ [0]) 50
    (List.replicate 32 0) (List.replicate 32 0xff) () [0x04, 0x0e, 2, 5, 6, 0x02, 0]
    [0x04, 0x0f, 2, 9, 9, 0x02, 7, 7] (by decide) (by decide)
    (WireSim.frame 0x0e 0x0f [5, 6] [9, 9] [0x02, 0] [0x02, 7, 7] rfl (by decide)
      (WireSim.wrong 0x02 [0] [7, 7] (by decide)))

end CC2564
